import Mathlib

/-!
# bnet: framing engine, connection state machine and context bookkeeping

A shallow embedding of `src/src/bnet.cpp` (default build, `BNET_CONFIG_OPENSSL`
off) and theorems about it.

Conventions of the embedding.
* Bytes and machine integers are `Nat` (or `Int` for `m_len`), with explicit
  `% 2 ^ w` where the source truncates.
* The receive ring (`bx::RingBufferControl` together with the byte buffer, an
  external library) is represented by the list of its unread bytes in arrival
  order: `available()` is the length of that list and `read(dst, n)` moves the
  first `n` unread bytes out of it.
* The process-wide inbound queue `s_ctx.m_incoming` is threaded explicitly.
* The operating system is an explicit input: the results of `::recv`,
  `::send`, `::select`, `::socket`, `::connect`, `::bind`, `::listen`,
  `::accept` and of the clock are arguments of the functions that call them.
-/

namespace bnet

/-! ## Constants of `bnet.h` -/

/-- Modelled from the spec: `bnet.h` is not part of the sources at hand; the
reserved invalid handle is `0xFFFF`. -/
def invalidHandle : Nat := 0xffff

/-- Modelled from the spec: `bnet.h` is not part of the sources at hand; the
upper bound on a payload is 65 535 bytes. -/
def maxMessageSize : Nat := 0xffff

namespace MessageId

/-- Modelled from the spec: the message id enumeration of `bnet.h`, in the
order the spec lists it (a C enumeration counts from zero). -/
def ListenFailed : Nat := 0

/-- Modelled from the spec: second member of the message id enumeration. -/
def ConnectFailed : Nat := 1

/-- Modelled from the spec: third member of the message id enumeration. -/
def LostConnection : Nat := 2

/-- Modelled from the spec: fourth member of the message id enumeration. -/
def IncomingConnection : Nat := 3

/-- Modelled from the spec: fifth member of the message id enumeration. -/
def Notify : Nat := 4

/-- Modelled from the spec: sixth member of the message id enumeration. -/
def RawData : Nat := 5

/-- Modelled from the spec: first id available to applications. -/
def UserDefined : Nat := 6

end MessageId

namespace Internal

/-- Opcode `Internal::None` of the prefix byte `data[-2]`. -/
def None : Nat := 0

/-- Opcode `Internal::Disconnect`. -/
def Disconnect : Nat := 1

/-- Opcode `Internal::Notify`. -/
def Notify : Nat := 2

end Internal

/-! ## Messages -/

/-- A `Message` as seen through its `handle`, `size` and `data` fields.
`data` lists the payload bytes `data[0 .. size-1]`; `internal` is the byte at
`data[-2]` of a message allocated with the two-byte prefix slot (for a message
allocated as incoming there is no slot and the field stays `Internal.None`). -/
structure Message where
  handle : Nat
  size : Nat
  data : List Nat
  internal : Nat
  deriving DecidableEq, Repr

/-- The 16-bit value stored by `read((char*)&len, 2)` on a little-endian host. -/
def readU16 (bs : List Nat) : Nat :=
  (bs.getD 0 0 + 256 * bs.getD 1 0) % 2 ^ 16

/-- The two bytes stored by `*((uint16_t*)msg->data - 1) = msg->size` on a
little-endian host. -/
def writeU16 (v : Nat) : List Nat :=
  [v % 256, v / 256 % 256]

/-- The eight bytes copied by `memcpy(dst, &_userData, sizeof(_userData))` on a
little-endian host. -/
def bytesOfU64 (u : Nat) : List Nat :=
  (List.range 8).map (fun i => u / 256 ^ i % 256)

/-- The statement `msg->data[0] = id < MessageId::UserDefined ?
MessageId::UserDefined : id` on the payload bytes in `[0, size)`. With
`size = 0` the byte written lies outside the payload. -/
def coerceId (data : List Nat) : List Nat :=
  match data with
  | [] => []
  | id :: rest => (if id < MessageId.UserDefined then MessageId.UserDefined else id) :: rest

/-! ## Connection -/

/-- The fields of `class Connection` (build without OpenSSL). `m_socket` is
`true` when the descriptor differs from `INVALID_SOCKET`; `m_incoming` is the
list of unread bytes of the receive ring; `sent` is a ghost trace of every byte
the operating system accepted from `::send` on this socket. -/
structure Connection where
  m_connectTimeout : Nat
  m_socket : Bool
  m_denseIndex : Nat
  m_handle : Nat
  m_incoming : List Nat
  m_outgoing : List Message
  m_len : Int
  m_raw : Bool
  m_connected : Bool
  sent : List Nat
  deriving DecidableEq, Repr

/-- The incoming message built by the framed branch of `reassembleMessage` for
a completed frame: `ctxAlloc(m_handle, m_len, true)`, `read(msg->data, m_len)`
and the id coercion. The size argument is truncated to 16 bits, the read length
is the 32-bit value of `m_len`. -/
def framedMessage (c : Connection) : Message :=
  { handle := c.m_handle
    size := (c.m_len % 2 ^ 16).toNat
    data := coerceId (c.m_incoming.take (c.m_len % 2 ^ 32).toNat)
    internal := Internal.None }

/-- The `while (0 < available)` loop of the framed branch of
`Connection::reassembleMessage`; `q` is the inbound queue of the context. -/
def reassembleFramed (c : Connection) (q : List Message) : Connection × List Message :=
  if 0 < min c.m_incoming.length maxMessageSize then
    if c.m_len = -1 then
      if 2 > min c.m_incoming.length maxMessageSize then (c, q)
      else
        reassembleFramed
          { c with m_len := (readU16 (c.m_incoming.take 2) : Nat)
                   m_incoming := c.m_incoming.drop 2 } q
    else
      if c.m_len > (min c.m_incoming.length maxMessageSize : Nat) then (c, q)
      else
        reassembleFramed
          { c with m_len := -1
                   m_incoming := c.m_incoming.drop (c.m_len % 2 ^ 32).toNat }
          (q ++ [framedMessage c])
  else (c, q)
termination_by 2 * c.m_incoming.length + (if c.m_len = -1 then 0 else 1)
decreasing_by
  all_goals simp_wf
  · rename_i _ h2 h3
    simp only [h2, if_true]
    have : 2 ≤ c.m_incoming.length := by omega
    omega
  · rename_i _ h2 _
    simp only [h2, if_false]
    omega


/-- The raw branch of `Connection::reassembleMessage`. -/
def reassembleRaw (c : Connection) (q : List Message) : Connection × List Message :=
  let available := min c.m_incoming.length (maxMessageSize - 1)
  if 0 < available then
    ({ c with m_incoming := c.m_incoming.drop available },
      q ++ [{ handle := c.m_handle
              size := (available + 1) % 2 ^ 16
              data := MessageId.RawData :: c.m_incoming.take available
              internal := Internal.None }])
  else (c, q)

/-- `Connection::reassembleMessage`. -/
def Connection.reassembleMessage (c : Connection) (q : List Message) :
    Connection × List Message :=
  if c.m_raw then reassembleRaw c q else reassembleFramed c q

/-- `ctxPush(uint16_t _handle, MessageId::Enum _id)`: a one-byte incoming
message holding the id is appended to the inbound queue. -/
def ctxPush (q : List Message) (handle id : Nat) : List Message :=
  q ++ [{ handle := handle, size := 1, data := [id], internal := Internal.None }]

/-- `Connection::disconnect(bool _lost)`: the socket is closed and
invalidated, every queued outgoing message is popped and freed, and
`LostConnection` is pushed when `_lost` is set. -/
def Connection.disconnect (c : Connection) (q : List Message) (lost : Bool) :
    Connection × List Message :=
  ({ c with m_socket := false, m_outgoing := [] },
    if lost then ctxPush q c.m_handle MessageId.LostConnection else q)

/-- The answer of the operating system to one `::send` call: the returned
value and whether `isWouldBlock()` holds after it. -/
structure SendResult where
  bytes : Int
  wouldBlock : Bool
  deriving DecidableEq, Repr

/-- `Connection::send(const char* _data, uint32_t _len)`, the `do ... while
(0 < _len)` loop. `data` holds the `_len` bytes from `&_data[offset]` on; the
list argument gives the answers of the successive `::send` calls (a returned
count is at most the length asked for). The result is `none` when the loop is
still spinning after the last answer supplied. Otherwise it is the returned
flag, the connection, the inbound queue and the unused answers. -/
def Connection.sendData (c : Connection) (q : List Message) (data : List Nat) :
    List SendResult → Option (Bool × Connection × List Message × List SendResult)
  | [] => none
  | r :: os =>
    if r.bytes < 0 then
      if r.bytes = -1 ∧ r.wouldBlock = false then
        some (false, (c.disconnect q true).1, (c.disconnect q true).2, os)
      else if 0 < data.length then c.sendData q data os
      else some (true, c, q, os)
    else
      if 0 < (data.drop (min r.bytes.toNat data.length)).length then
        Connection.sendData
          { c with sent := c.sent ++ data.take (min r.bytes.toNat data.length) } q
          (data.drop (min r.bytes.toNat data.length)) os
      else
        some (true, { c with sent := c.sent ++ data.take (min r.bytes.toNat data.length) },
          q, os)

/-- The incoming message built by the `Internal::Notify` case of
`Connection::processInternal`: `ctxAlloc(_msg->handle, _msg->size+1, true)`
(size truncated to 16 bits), id byte, then the payload of `_msg`. -/
def notifyMessage (msg : Message) : Message :=
  { handle := msg.handle
    size := (msg.size + 1) % 2 ^ 16
    data := MessageId.Notify :: msg.data.take msg.size
    internal := Internal.None }

/-- `Connection::processInternal`. -/
def Connection.processInternal (c : Connection) (q : List Message) (id : Nat)
    (msg : Message) : Bool × Connection × List Message :=
  if id = Internal.Disconnect then
    (false, (c.disconnect q false).1, (c.disconnect q false).2)
  else if id = Internal.Notify then
    (true, c, q ++ [notifyMessage msg])
  else (true, c, q)

/-- The bytes handed to `send` for one outgoing message: in framed mode the
`size + 2` bytes from `data - 2` on, the prefix slot holding `size`; in raw
mode the `size` payload bytes. -/
def wireBytes (raw : Bool) (msg : Message) : List Nat :=
  if raw then msg.data.take msg.size
  else (writeU16 msg.size ++ msg.data).take (msg.size + 2)

/-- The `for (msg = m_outgoing.peek(); NULL != msg; ...)` loops of
`Connection::update` (the raw and the framed loop differ in the bytes sent
only). The list argument is the content of `m_outgoing` at loop entry; `send`
leaves the queue as it is when it returns `true`, so the `pop` at the end of an
iteration removes the message just sent. -/
def Connection.drain (c : Connection) (q : List Message) (os : List SendResult) :
    List Message → Option (Connection × List Message × List SendResult)
  | [] => some ({ c with m_outgoing := [] }, q, os)
  | msg :: rest =>
    if msg.internal ≠ Internal.None
        ∧ (c.processInternal q msg.internal msg).1 = false then
      some ((c.processInternal q msg.internal msg).2.1,
        (c.processInternal q msg.internal msg).2.2, os)
    else
      let c1 := if msg.internal ≠ Internal.None
        then (c.processInternal q msg.internal msg).2.1 else c
      let q1 := if msg.internal ≠ Internal.None
        then (c.processInternal q msg.internal msg).2.2 else q
      match c1.sendData q1 (wireBytes c.m_raw msg) os with
      | none => none
      | some (false, c2, q2, os2) => some (c2, q2, os2)
      | some (true, c2, q2, os2) =>
        Connection.drain { c2 with m_outgoing := rest } q2 os2 rest

/-- `Connection::updateConnect`; `now` is `getHPCounter()` and `sel` the value
returned by `::select`. -/
def Connection.updateConnect (c : Connection) (q : List Message) (now : Nat) (sel : Int) :
    Bool × Connection × List Message :=
  if c.m_connected then (true, c, q)
  else if now > c.m_connectTimeout then
    (false, (c.disconnect (ctxPush q c.m_handle MessageId.ConnectFailed) false).1,
      (c.disconnect (ctxPush q c.m_handle MessageId.ConnectFailed) false).2)
  else (decide (0 < sel), { c with m_connected := decide (0 < sel) }, q)

/-- The answer of the operating system to the `::recv` call of
`RecvRingBuffer::recv`: either a positive byte count together with the bytes
stored in the ring, or a value below one together with `isWouldBlock()`. -/
inductive RecvResult where
  | received (first : Nat) (more : List Nat)
  | nothing (wouldBlock : Bool)
  deriving DecidableEq, Repr

/-- What the operating system answers during one call of
`Connection::update`. -/
structure Tick where
  now : Nat
  select : Int
  recv : RecvResult
  sends : List SendResult
  deriving DecidableEq, Repr

/-- The part of `Connection::update` after the receive: `reassembleMessage`
followed by the drain of the outbound queue. -/
def Connection.updateTail (c : Connection) (q : List Message) (os : List SendResult) :
    Option (Connection × List Message × List SendResult) :=
  Connection.drain (c.reassembleMessage q).1 (c.reassembleMessage q).2 os
    (c.reassembleMessage q).1.m_outgoing

/-- `Connection::update` (`updateSsl` returns `true` in this build). The result
is `none` only when a `send` loop is still spinning after the last `::send`
answer of the tick. -/
def Connection.update (c : Connection) (q : List Message) (t : Tick) :
    Option (Connection × List Message) :=
  if c.m_socket then
    if (c.updateConnect q t.now t.select).1 then
      match t.recv with
      | RecvResult.received b bs =>
        (Connection.updateTail
          { (c.updateConnect q t.now t.select).2.1 with
            m_incoming := (c.updateConnect q t.now t.select).2.1.m_incoming ++ b :: bs }
          (c.updateConnect q t.now t.select).2.2 t.sends).map (fun r => (r.1, r.2.1))
      | RecvResult.nothing wouldBlock =>
        if wouldBlock = false then
          some ((c.updateConnect q t.now t.select).2.1.disconnect
            (c.updateConnect q t.now t.select).2.2 true)
        else
          (Connection.updateTail (c.updateConnect q t.now t.select).2.1
            (c.updateConnect q t.now t.select).2.2 t.sends).map (fun r => (r.1, r.2.1))
    else some ((c.updateConnect q t.now t.select).2.1, (c.updateConnect q t.now t.select).2.2)
  else some (c, q)

/-- `Connection::send(Message*)`. -/
def Connection.send (c : Connection) (q : List Message) (msg : Message) (t : Tick) :
    Option (Connection × List Message) :=
  if c.m_socket then
    Connection.update { c with m_outgoing := c.m_outgoing ++ [msg] } q t
  else some (c, q)

/-- The effect of a successful `RecvRingBuffer::recv` on the ring: the bytes
transferred become unread bytes behind those already buffered. -/
def Connection.receive (c : Connection) (bs : List Nat) : Connection :=
  { c with m_incoming := c.m_incoming ++ bs }

/-- Running `reassembleMessage` after each of a sequence of reads. -/
def feed (c : Connection) (q : List Message) (reads : List (List Nat)) :
    Connection × List Message :=
  reads.foldl (fun s r => (s.1.receive r).reassembleMessage s.2) (c, q)

/-! ## Connection life cycle -/

/-- The constructor `Connection(uint16_t _denseIndex)`. The members it leaves
uninitialised (`m_connectTimeout`, `m_connected`) are set by `init` before any
use and are given the values `0` and `false` here. -/
def Connection.new (denseIndex : Nat) : Connection :=
  { m_connectTimeout := 0, m_socket := false, m_denseIndex := denseIndex,
    m_handle := invalidHandle, m_incoming := [], m_outgoing := [], m_len := -1,
    m_raw := false, m_connected := false, sent := [] }

/-- `Connection::init`; `now` is `getHPCounter()`, `freq` is `getHPFrequency()`
and the timeout is `BNET_CONFIG_CONNECT_TIMEOUT_SECONDS = 5`. -/
def Connection.init (c : Connection) (handle : Nat) (raw : Bool) (now freq : Nat) :
    Connection :=
  { c with m_handle := handle, m_connected := false
           m_connectTimeout := (now + freq * 5) % 2 ^ 64, m_len := -1, m_raw := raw }

/-- What the operating system answers during `Connection::connect`:
the clock, whether `::socket` returned a valid descriptor, and whether
`::connect` returned 0 or failed with in-progress or would-block. -/
structure ConnectEnv where
  now : Nat
  freq : Nat
  socketOk : Bool
  connectOk : Bool
  deriving DecidableEq, Repr

/-- `Connection::connect` (no TLS context in this build). -/
def Connection.connect (c : Connection) (q : List Message) (handle : Nat) (raw : Bool)
    (e : ConnectEnv) : Connection × List Message :=
  if e.socketOk = false then
    ({ c.init handle raw e.now e.freq with m_socket := false },
      ctxPush q handle MessageId.ConnectFailed)
  else if e.connectOk = false then
    ({ c.init handle raw e.now e.freq with m_socket := false },
      ctxPush q handle MessageId.ConnectFailed)
  else
    ({ c.init handle raw e.now e.freq with m_socket := true }, q)

/-- The four bytes of a 32-bit store on a little-endian host. -/
def writeU32 (v : Nat) : List Nat :=
  [v % 256, v / 256 % 256, v / 65536 % 256, v / 16777216 % 256]

/-- The `IncomingConnection` message built by `Connection::accept`. -/
def incomingConnectionMessage (handle listenHandle ip port : Nat) : Message :=
  { handle := handle
    size := 9
    data := MessageId.IncomingConnection :: (writeU16 listenHandle ++ writeU32 ip
      ++ writeU16 port)
    internal := Internal.None }

/-- `Connection::accept` (no TLS context in this build). -/
def Connection.accept (c : Connection) (q : List Message) (handle listenHandle : Nat)
    (ip port : Nat) (raw : Bool) (now freq : Nat) : Connection × List Message :=
  ({ c.init handle raw now freq with m_socket := true },
    q ++ [incomingConnectionMessage handle listenHandle ip port])

/-! ## Listener -/

/-- The fields of `class ListenSocket` (without OpenSSL `m_cert` and `m_key`
stay `NULL` and `m_secure` stays `false`). -/
structure ListenSocket where
  m_socket : Bool
  m_denseIndex : Nat
  m_handle : Nat
  m_raw : Bool
  m_secure : Bool
  deriving DecidableEq, Repr

/-- The constructor `ListenSocket(uint16_t _denseIndex)`. -/
def ListenSocket.new (denseIndex : Nat) : ListenSocket :=
  { m_socket := false, m_denseIndex := denseIndex, m_handle := invalidHandle,
    m_raw := false, m_secure := false }

/-- The arguments and operating system answers of `ListenSocket::listen`:
whether `_cert` and `_key` are non-null, whether `::socket` returned a valid
descriptor, and whether both `::bind` and `::listen` succeeded. -/
structure ListenEnv where
  cert : Bool
  key : Bool
  socketOk : Bool
  bindOk : Bool
  deriving DecidableEq, Repr

/-- `ListenSocket::listen`. -/
def ListenSocket.listen (l : ListenSocket) (q : List Message) (handle : Nat) (raw : Bool)
    (e : ListenEnv) : ListenSocket × List Message :=
  if l.m_secure = false ∧ (e.cert = true ∨ e.key = true) then
    ({ l with m_handle := handle, m_raw := raw }, ctxPush q handle MessageId.ListenFailed)
  else if e.socketOk = false then
    ({ l with m_handle := handle, m_raw := raw, m_socket := false },
      ctxPush q handle MessageId.ListenFailed)
  else if e.bindOk = false then
    ({ l with m_handle := handle, m_raw := raw, m_socket := false },
      ctxPush q handle MessageId.ListenFailed)
  else
    ({ l with m_handle := handle, m_raw := raw, m_socket := true }, q)

/-- `ListenSocket::close`. -/
def ListenSocket.close (l : ListenSocket) : ListenSocket :=
  { l with m_socket := false }

/-! ## Context -/

/-- The fields of `class Context`. A pool `FreeList<Ty>` is the list of its
slots indexed by handle (`none` for a slot that holds no constructed object)
together with the free list of `bx::BlockAlloc` (an external library: `alloc`
takes the slot at the head of the free list, `free` puts the slot back at the
head). The dense arrays are lists of handles. -/
structure Context where
  m_connections : List (Option Connection)
  m_connectionsFree : List Nat
  m_connectionDense : List Nat
  m_listenSockets : List (Option ListenSocket)
  m_listenSocketsFree : List Nat
  m_listenSocketIndex : List Nat
  m_numConnections : Nat
  m_numListenSockets : Nat
  m_incoming : List Message
  deriving DecidableEq, Repr

/-- `Context::init` (the arguments are 16-bit; the dense arrays come from
`s_realloc` and their initial content, never read before it is written, is
given as zeros). -/
def Context.init (maxConnections maxListenSockets : Nat) : Context :=
  { m_connections := List.replicate (if maxConnections = 0 then 1 else maxConnections) none
    m_connectionsFree := List.range (if maxConnections = 0 then 1 else maxConnections)
    m_connectionDense := List.replicate (if maxConnections = 0 then 1 else maxConnections) 0
    m_listenSockets := List.replicate maxListenSockets none
    m_listenSocketsFree := List.range maxListenSockets
    m_listenSocketIndex := List.replicate maxListenSockets 0
    m_numConnections := 0
    m_numListenSockets := 0
    m_incoming := [] }

/-- `Context::allocConnection`. The result is `none` when the pool is
exhausted (`create` then constructs an object at a null address). -/
def Context.allocConnection (ctx : Context) : Option (Nat × Context) :=
  match ctx.m_connectionsFree with
  | [] => none
  | handle :: free =>
    some (handle,
      { ctx with
        m_connections :=
          ctx.m_connections.set handle (some (Connection.new ctx.m_numConnections))
        m_connectionsFree := free
        m_connectionDense := ctx.m_connectionDense.set ctx.m_numConnections handle
        m_numConnections := (ctx.m_numConnections + 1) % 2 ^ 16 })

/-- `m_connections->getFromIndex(_handle)` for a slot that holds an object. -/
def Context.getConnection (ctx : Context) (handle : Nat) : Option Connection :=
  ctx.m_connections.getD handle none

/-- `m_listenSockets->getFromIndex(_handle)` for a slot that holds an object. -/
def Context.getListenSocket (ctx : Context) (handle : Nat) : Option ListenSocket :=
  ctx.m_listenSockets.getD handle none

/-- `Context::accept`. -/
def Context.accept (ctx : Context) (listenHandle ip port : Nat) (raw : Bool)
    (now freq : Nat) : Option (Nat × Context) :=
  match ctx.allocConnection with
  | none => none
  | some (handle, ctx1) =>
    match ctx1.getConnection handle with
    | none => none
    | some c =>
      some (handle,
        { ctx1 with
          m_connections := ctx1.m_connections.set handle
            (some (c.accept ctx1.m_incoming handle listenHandle ip port raw now freq).1)
          m_incoming := (c.accept ctx1.m_incoming handle listenHandle ip port raw now freq).2 })

/-- `Context::connect`. -/
def Context.connect (ctx : Context) (raw : Bool) (e : ConnectEnv) : Option (Nat × Context) :=
  match ctx.allocConnection with
  | none => none
  | some (handle, ctx1) =>
    match ctx1.getConnection handle with
    | none => none
    | some c =>
      some (handle,
        { ctx1 with
          m_connections := ctx1.m_connections.set handle
            (some (c.connect ctx1.m_incoming handle raw e).1)
          m_incoming := (c.connect ctx1.m_incoming handle raw e).2 })

/-- The `setDenseIndex` call on the object found through `getFromIndex`; a
slot that holds no object is left alone (the store goes to freed memory). -/
def setConnectionDenseIndex (slots : List (Option Connection)) (handle denseIndex : Nat) :
    List (Option Connection) :=
  match slots.getD handle none with
  | none => slots
  | some c => slots.set handle (some { c with m_denseIndex := denseIndex })

/-- The `setDenseIndex` call of `Context::stop`, as for connections. -/
def setListenDenseIndex (slots : List (Option ListenSocket)) (handle denseIndex : Nat) :
    List (Option ListenSocket) :=
  match slots.getD handle none with
  | none => slots
  | some l => slots.set handle (some { l with m_denseIndex := denseIndex })

/-- The message built by `Context::disconnect` for a graceful close:
`alloc(_handle, 0)` with the prefix byte set to `Internal::Disconnect`. -/
def disconnectMarker (handle : Nat) : Message :=
  { handle := handle, size := 0, data := [], internal := Internal.Disconnect }

/-- `Context::disconnect`. The tick gives the operating system answers for the
`update` that `Connection::send` runs in the graceful branch. The result is
`none` when the slot holds no object or when a `send` loop keeps spinning. -/
def Context.disconnect (ctx : Context) (handle : Nat) (finish : Bool) (t : Tick) :
    Option Context :=
  match ctx.getConnection handle with
  | none => none
  | some c =>
    if finish = true ∧ c.m_socket = true then
      if invalidHandle ≠ handle then
        (c.send ctx.m_incoming (disconnectMarker handle) t).map fun r =>
          { ctx with m_connections := ctx.m_connections.set handle (some r.1)
                     m_incoming := r.2 }
      else some ctx
    else
      some
        { ctx with
          m_connections :=
            setConnectionDenseIndex (ctx.m_connections.set handle none)
              (ctx.m_connectionDense.getD ((ctx.m_numConnections + 65535) % 2 ^ 16) 0)
              c.m_denseIndex
          m_connectionsFree := handle :: ctx.m_connectionsFree
          m_numConnections := (ctx.m_numConnections + 65535) % 2 ^ 16
          m_connectionDense :=
            ctx.m_connectionDense.set c.m_denseIndex
              (ctx.m_connectionDense.getD ((ctx.m_numConnections + 65535) % 2 ^ 16) 0)
          m_incoming := (c.disconnect ctx.m_incoming false).2 }

/-- `Context::listen`; `none` when the pool is exhausted. -/
def Context.listen (ctx : Context) (raw : Bool) (e : ListenEnv) : Option (Nat × Context) :=
  match ctx.m_listenSocketsFree with
  | [] => none
  | handle :: free =>
    some (handle,
      { ctx with
        m_listenSockets := ctx.m_listenSockets.set handle
          (some ((ListenSocket.new ctx.m_numListenSockets).listen ctx.m_incoming handle raw e).1)
        m_listenSocketsFree := free
        m_listenSocketIndex := ctx.m_listenSocketIndex.set ctx.m_numListenSockets handle
        m_numListenSockets := (ctx.m_numListenSockets + 1) % 2 ^ 16
        m_incoming :=
          ((ListenSocket.new ctx.m_numListenSockets).listen ctx.m_incoming handle raw e).2 })

/-- `Context::stop`. Its last statement reads
`m_listenSocketIndex[m_numConnections]`. The result is `none` when the slot
holds no object. -/
def Context.stop (ctx : Context) (handle : Nat) : Option Context :=
  match ctx.getListenSocket handle with
  | none => none
  | some l =>
    some
      { ctx with
        m_listenSockets :=
          setListenDenseIndex (ctx.m_listenSockets.set handle none)
            (ctx.m_listenSocketIndex.getD ((ctx.m_numListenSockets + 65535) % 2 ^ 16) 0)
            l.m_denseIndex
        m_listenSocketsFree := handle :: ctx.m_listenSocketsFree
        m_numListenSockets := (ctx.m_numListenSockets + 65535) % 2 ^ 16
        m_listenSocketIndex :=
          ctx.m_listenSocketIndex.set l.m_denseIndex
            (ctx.m_listenSocketIndex.getD ctx.m_numConnections 0) }

/-- The outgoing message built by `Context::notify` for a valid handle:
`alloc(_handle, 8)`, prefix byte `Internal::Notify`, payload the user data. -/
def notifyRequest (handle userData : Nat) : Message :=
  { handle := handle, size := 8, data := bytesOfU64 userData, internal := Internal.Notify }

/-- The incoming message built by the loopback branch of `Context::notify`. -/
def loopbackNotify (handle userData : Nat) : Message :=
  { handle := handle, size := 9, data := MessageId.Notify :: bytesOfU64 userData,
    internal := Internal.None }

/-- `Context::notify`. -/
def Context.notify (ctx : Context) (handle userData : Nat) (t : Tick) : Option Context :=
  if invalidHandle ≠ handle then
    match ctx.getConnection handle with
    | none => none
    | some c =>
      (c.send ctx.m_incoming (notifyRequest handle userData) t).map fun r =>
        { ctx with m_connections := ctx.m_connections.set handle (some r.1)
                   m_incoming := r.2 }
  else
    some { ctx with m_incoming := ctx.m_incoming ++ [loopbackNotify handle userData] }

/-- `Context::send`. -/
def Context.send (ctx : Context) (msg : Message) (t : Tick) : Option Context :=
  if invalidHandle ≠ msg.handle then
    match ctx.getConnection msg.handle with
    | none => none
    | some c =>
      (c.send ctx.m_incoming msg t).map fun r =>
        { ctx with m_connections := ctx.m_connections.set msg.handle (some r.1)
                   m_incoming := r.2 }
  else
    some { ctx with m_incoming := ctx.m_incoming ++ [msg] }

/-- What `::accept` hands to `ListenSocket::update` when it returns a valid
socket, together with the clock read by `Connection::init`. -/
structure Accepted where
  ip : Nat
  port : Nat
  now : Nat
  freq : Nat
  deriving DecidableEq, Repr

/-- `ListenSocket::update` for the listener found at a dense position. -/
def Context.updateListenSocket (ctx : Context) (handle : Nat) (a : Option Accepted) :
    Option Context :=
  match ctx.getListenSocket handle with
  | none => none
  | some l =>
    match a with
    | none => some ctx
    | some acc => (ctx.accept l.m_handle acc.ip acc.port l.m_raw acc.now acc.freq).map (·.2)

/-- `Connection::update` for the connection found at a dense position. -/
def Context.updateConnection (ctx : Context) (handle : Nat) (t : Tick) : Option Context :=
  match ctx.getConnection handle with
  | none => none
  | some c =>
    (c.update ctx.m_incoming t).map fun r =>
      { ctx with m_connections := ctx.m_connections.set handle (some r.1)
                 m_incoming := r.2 }

/-- `MessageQueue::pop` on the inbound queue. -/
def Context.pop (ctx : Context) : Option Message × Context :=
  match ctx.m_incoming with
  | [] => (none, ctx)
  | msg :: rest => (some msg, { ctx with m_incoming := rest })

/-- `Context::recv`. `accepts ii` is the answer of `::accept` for the listener
at dense position `ii`, `ticks ii` the answers during the update of the
connection at dense position `ii`. -/
def Context.recv (ctx : Context) (accepts : Nat → Option Accepted) (ticks : Nat → Tick) :
    Option (Option Message × Context) :=
  ((List.range ctx.m_numListenSockets).foldlM
      (fun (s : Context) ii => s.updateListenSocket (s.m_listenSocketIndex.getD ii 0) (accepts ii))
      ctx).bind fun ctx1 =>
    ((List.range ctx1.m_numConnections).foldlM
      (fun (s : Context) ii => s.updateConnection (s.m_connectionDense.getD ii 0) (ticks ii))
      ctx1).map fun ctx2 => ctx2.pop

/-! ## Sequences of connection allocations and hard disconnects -/

/-- One call on the context that allocates or destroys a connection. -/
inductive ConnOp where
  | connect (raw : Bool) (e : ConnectEnv)
  | accept (listenHandle ip port : Nat) (raw : Bool) (now freq : Nat)
  | disconnect (handle : Nat) (t : Tick)
  deriving DecidableEq, Repr

/-- The context after one such call (`disconnect` is `disconnect(h, false)`);
`none` when the pool is exhausted or the handle names no live connection. -/
def ConnOp.apply (ctx : Context) : ConnOp → Option Context
  | ConnOp.connect raw e => (ctx.connect raw e).map (fun r => r.2)
  | ConnOp.accept listenHandle ip port raw now freq =>
    (ctx.accept listenHandle ip port raw now freq).map (fun r => r.2)
  | ConnOp.disconnect handle t => ctx.disconnect handle false t

/-- The context after a sequence of such calls. -/
def runOps (ctx : Context) : List ConnOp → Option Context
  | [] => some ctx
  | op :: ops =>
    match op.apply ctx with
    | none => none
    | some ctx1 => runOps ctx1 ops

/-- The bookkeeping invariant of the connection pool and its dense array. -/
structure ConnectionsInv (ctx : Context) : Prop where
  len_dense : ctx.m_connectionDense.length = ctx.m_connections.length
  len_max : ctx.m_connections.length ≤ 65535
  count : ctx.m_numConnections + ctx.m_connectionsFree.length = ctx.m_connections.length
  free_nodup : ctx.m_connectionsFree.Nodup
  free_slot : ∀ h ∈ ctx.m_connectionsFree,
    h < ctx.m_connections.length ∧ ctx.getConnection h = none
  live : ∀ h c, ctx.getConnection h = some c →
    c.m_handle = h ∧ c.m_denseIndex < ctx.m_numConnections ∧
      ctx.m_connectionDense.getD c.m_denseIndex 0 = h
  dense : ∀ i, i < ctx.m_numConnections →
    ∃ c, ctx.getConnection (ctx.m_connectionDense.getD i 0) = some c ∧ c.m_denseIndex = i

/-! ## Concrete connections used to instantiate the theorems -/

/-- An established framed connection with handle 1 whose outbound queue holds
the payloads `[0x80, 'h', 'i']` and `[0x00, 'x']`. -/
def exampleSender : Connection :=
  { m_connectTimeout := 0, m_socket := true, m_denseIndex := 0, m_handle := 1,
    m_incoming := [], m_outgoing := [⟨1, 3, [128, 104, 105], 0⟩, ⟨1, 2, [0, 120], 0⟩],
    m_len := -1, m_raw := false, m_connected := true, sent := [] }

/-- A fresh established framed connection with handle 2. -/
def exampleReceiver : Connection :=
  { m_connectTimeout := 0, m_socket := true, m_denseIndex := 0, m_handle := 2,
    m_incoming := [], m_outgoing := [], m_len := -1, m_raw := false,
    m_connected := true, sent := [] }

/-- Answers of `::send`: a partial write, a would-block, then the rest. -/
def exampleSends : List SendResult :=
  [⟨4, false⟩, ⟨-1, true⟩, ⟨1, false⟩, ⟨4, false⟩, ⟨7, false⟩]

/-- A split of the nine wire bytes of `exampleSender` into four reads, the
second length prefix being cut in two. -/
def exampleReads : List (List Nat) :=
  [[3], [0, 128, 104], [105, 2], [0, 0, 120]]

/-- An established framed connection with handle 1 whose outbound queue holds
one message of size 0. -/
def emptySender : Connection :=
  { m_connectTimeout := 0, m_socket := true, m_denseIndex := 0, m_handle := 1,
    m_incoming := [], m_outgoing := [⟨1, 0, [], 0⟩],
    m_len := -1, m_raw := false, m_connected := true, sent := [] }

/-- A refused connect, an accept, a connect, the hard disconnect of the first
and of the last connection, and one more accept. -/
def exampleOps : List ConnOp :=
  [ConnOp.connect false ⟨10, 1, true, false⟩,
   ConnOp.accept 0 2130706433 4000 false 11 1,
   ConnOp.connect true ⟨12, 1, true, true⟩,
   ConnOp.disconnect 0 ⟨0, 0, RecvResult.nothing true, []⟩,
   ConnOp.disconnect 2 ⟨0, 0, RecvResult.nothing true, []⟩,
   ConnOp.accept 0 2130706433 4001 true 13 1]

/-- The context reached from `Context.init 3 2` by `exampleOps`. -/
def exampleContext : Context :=
  { m_connections :=
      [none,
       some { m_connectTimeout := 16, m_socket := true, m_denseIndex := 0, m_handle := 1,
              m_incoming := [], m_outgoing := [], m_len := -1, m_raw := false,
              m_connected := false, sent := [] },
       some { m_connectTimeout := 18, m_socket := true, m_denseIndex := 1, m_handle := 2,
              m_incoming := [], m_outgoing := [], m_len := -1, m_raw := true,
              m_connected := false, sent := [] }]
    m_connectionsFree := [0]
    m_connectionDense := [1, 2, 2]
    m_listenSockets := [none, none]
    m_listenSocketsFree := [0, 1]
    m_listenSocketIndex := [0, 0]
    m_numConnections := 2
    m_numListenSockets := 0
    m_incoming :=
      [⟨0, 1, [1], 0⟩, ⟨1, 9, [3, 0, 0, 1, 0, 0, 127, 160, 15], 0⟩,
       ⟨2, 9, [3, 0, 0, 1, 0, 0, 127, 161, 15], 0⟩] }

/-- A successful plain `listen` call: no certificate, no key, socket, bind and
listen all succeed. -/
def plainListen : ListenEnv :=
  { cert := false, key := false, socketOk := true, bindOk := true }

/-- The context after `init(1, 2)` and two successful `listen` calls: two live
listeners with handles 0 and 1 at dense positions 0 and 1, no connection. -/
def twoListeners : Option Context :=
  ((Context.init 1 2).listen false plainListen).bind fun r =>
    (r.2.listen false plainListen).map fun r2 => r2.2

/-- A tick in which nothing happens: no data (would-block) and no write. -/
def idleTick : Tick :=
  { now := 0, select := 0, recv := RecvResult.nothing true, sends := [] }

/-- A context with one framed connection (handle 0) that is still connecting
and whose outbound queue holds three messages. -/
def pendingContext : Context :=
  { m_connections :=
      [some { m_connectTimeout := 100, m_socket := true, m_denseIndex := 0, m_handle := 0,
              m_incoming := [],
              m_outgoing := [⟨0, 1, [128], 0⟩, ⟨0, 2, [129, 7], 0⟩, ⟨0, 1, [130], 0⟩],
              m_len := -1, m_raw := false, m_connected := false, sent := [] }]
    m_connectionsFree := []
    m_connectionDense := [0]
    m_listenSockets := []
    m_listenSocketsFree := []
    m_listenSocketIndex := []
    m_numConnections := 1
    m_numListenSockets := 0
    m_incoming := [] }

/-- A tick before the connect deadline in which `select` reports the socket
ready, the read would block and four writes are accepted in full. -/
def connectingTick : Tick :=
  { now := 50, select := 1, recv := RecvResult.nothing true,
    sends := [⟨3, false⟩, ⟨4, false⟩, ⟨3, false⟩, ⟨10, false⟩] }

/-- The context reached from `pendingContext` by `disconnect(0, true)` during
`connectingTick`. -/
def closedContext : Context :=
  { pendingContext with
    m_connections :=
      [some { m_connectTimeout := 100, m_socket := false, m_denseIndex := 0, m_handle := 0,
              m_incoming := [], m_outgoing := [], m_len := -1, m_raw := false,
              m_connected := true, sent := [1, 0, 128, 2, 0, 129, 7, 1, 0, 130] }] }

/-- The context reached from `pendingContext` by `notify(0, 4)` during
`connectingTick`. -/
def notifiedContext : Context :=
  { pendingContext with
    m_connections :=
      [some { m_connectTimeout := 100, m_socket := true, m_denseIndex := 0, m_handle := 0,
              m_incoming := [], m_outgoing := [], m_len := -1, m_raw := false,
              m_connected := true,
              sent := [1, 0, 128, 2, 0, 129, 7, 1, 0, 130, 8, 0, 4, 0, 0, 0, 0, 0, 0, 0] }]
    m_incoming := [⟨0, 9, [4, 4, 0, 0, 0, 0, 0, 0, 0], 0⟩] }

/-- A context with one established framed connection (handle 0) and nothing
queued. -/
def establishedContext : Context :=
  { pendingContext with
    m_connections :=
      [some { m_connectTimeout := 100, m_socket := true, m_denseIndex := 0, m_handle := 0,
              m_incoming := [], m_outgoing := [], m_len := -1, m_raw := false,
              m_connected := true, sent := [] }] }

/-- A tick in which the read would block and one write of ten bytes is
accepted in full. -/
def writeTick : Tick :=
  { now := 50, select := 1, recv := RecvResult.nothing true, sends := [⟨10, false⟩] }

/-! ## Inbound queue -/

/-- `MessageQueue::push`: `m_queue.push_back(_msg)` on the queue content. -/
def MessageQueue.push (queue : List Message) (msg : Message) : List Message :=
  queue ++ [msg]

/-- `MessageQueue::peek`: the front of the queue, or null when it is empty;
the queue is not changed. -/
def MessageQueue.peek (queue : List Message) : Option Message :=
  match queue with
  | [] => none
  | msg :: _ => some msg

/-- `MessageQueue::pop`: the front of the queue, which is removed, or null
when the queue is empty. -/
def MessageQueue.pop (queue : List Message) : Option Message × List Message :=
  match queue with
  | [] => (none, [])
  | msg :: rest => (some msg, rest)

/-- The results of `n` successive `pop` calls and the queue left behind. -/
def MessageQueue.pops : Nat → List Message → List (Option Message) × List Message
  | 0, queue => ([], queue)
  | n + 1, queue =>
    ((MessageQueue.pop queue).1 :: (MessageQueue.pops n (MessageQueue.pop queue).2).1,
      (MessageQueue.pops n (MessageQueue.pop queue).2).2)

/-- The two loops of `Context::recv` (listeners, then connections), before the
final `pop`. -/
def Context.poll (ctx : Context) (accepts : Nat → Option Accepted) (ticks : Nat → Tick) :
    Option Context :=
  ((List.range ctx.m_numListenSockets).foldlM
      (fun (s : Context) ii => s.updateListenSocket (s.m_listenSocketIndex.getD ii 0) (accepts ii))
      ctx).bind fun ctx1 =>
    (List.range ctx1.m_numConnections).foldlM
      (fun (s : Context) ii => s.updateConnection (s.m_connectionDense.getD ii 0) (ticks ii))
      ctx1

/-- Every message waiting in an outbound queue carries the handle of the
connection that owns the queue (`Context::send`, `Context::notify` and
`Context::disconnect` route a message by its handle). -/
def QueuesInv (ctx : Context) : Prop :=
  ∀ h c, ctx.getConnection h = some c → ∀ m ∈ c.m_outgoing, m.handle = h

/-- An established raw connection with handle 5 whose ring holds the three
unread bytes `"abc"`. -/
def rawReceiver : Connection :=
  { m_connectTimeout := 0, m_socket := true, m_denseIndex := 0, m_handle := 5,
    m_incoming := [97, 98, 99], m_outgoing := [], m_len := -1, m_raw := true,
    m_connected := true, sent := [] }

/-- A connection with handle 7 that is still connecting, with connect deadline
100 and one message queued. -/
def connectingConnection : Connection :=
  { m_connectTimeout := 100, m_socket := true, m_denseIndex := 0, m_handle := 7,
    m_incoming := [], m_outgoing := [⟨7, 1, [128], 0⟩], m_len := -1, m_raw := false,
    m_connected := false, sent := [] }

/-- A tick after the connect deadline of `connectingConnection`. -/
def lateTick : Tick :=
  { now := 101, select := 1, recv := RecvResult.nothing true, sends := [⟨3, false⟩] }

/-- A tick in which the socket read returns 0 (peer closed) and the last error
is not would-block. -/
def lostTick : Tick :=
  { now := 50, select := 1, recv := RecvResult.nothing false, sends := [⟨3, false⟩] }

/-- A `listen` call that supplies a certificate but no key. -/
def certOnlyListen : ListenEnv :=
  { cert := true, key := false, socketOk := true, bindOk := true }

/-- One step of a poll as seen from a handle `h`: the step keeps the
bookkeeping invariants, and if slot `h` holds no connection after the step then
it held none before and no message pushed by the step carries the handle
`h`. -/
def SilentStep (h : Nat) (s s1 : Context) : Prop :=
  ConnectionsInv s → QueuesInv s →
    ConnectionsInv s1 ∧ QueuesInv s1 ∧
      (s1.getConnection h = none →
        s.getConnection h = none ∧
          ∃ new, s1.m_incoming = s.m_incoming ++ new ∧ ∀ m ∈ new, m.handle ≠ h)

/-- A `connect` call that the operating system refuses at once. -/
def failedOps : List ConnOp :=
  [ConnOp.connect false ⟨10, 1, true, false⟩]

/-- The context reached from `Context.init 2 0` by `failedOps`: connection 0
has pushed `ConnectFailed` and has an invalid socket. -/
def failedContext : Context :=
  { m_connections :=
      [some { m_connectTimeout := 15, m_socket := false, m_denseIndex := 0, m_handle := 0,
              m_incoming := [], m_outgoing := [], m_len := -1, m_raw := false,
              m_connected := false, sent := [] },
       none]
    m_connectionsFree := [1]
    m_connectionDense := [0, 0]
    m_listenSockets := []
    m_listenSocketsFree := []
    m_listenSocketIndex := []
    m_numConnections := 1
    m_numListenSockets := 0
    m_incoming := [⟨0, 1, [1], 0⟩] }

/-! ## The URL tokenizer of `examples/common/url.cpp`

The caller's buffer is a list of bytes. A token pointer is `none` when it
still points at the static empty string literal the tokens are initialised to,
and `some i` when it points at offset `i` of the buffer. -/

/-- The C string that starts at offset `i` of the buffer: the bytes before the
first NUL. -/
def cstr (buf : List Nat) (i : Nat) : List Nat :=
  (buf.drop i).takeWhile (fun b => decide (b ≠ 0))

/-- `strchr` over the bytes from offset `i` on: the offset of the first byte
equal to `ch`, searching up to and including the terminating NUL. -/
def strchrFrom : List Nat → Nat → Nat → Option Nat
  | [], _, _ => none
  | b :: rest, ch, i =>
    if b = ch then some i
    else if b = 0 then none
    else strchrFrom rest ch (i + 1)

/-- `strchr(buf + start, ch)`. -/
def strchr (buf : List Nat) (start ch : Nat) : Option Nat :=
  strchrFrom (buf.drop start) ch start

/-- `strchr(token, ch)` for a token pointer and a non-NUL character; the static
empty string contains no such character. -/
def strchrToken (buf : List Nat) (token : Option Nat) (ch : Nat) : Option Nat :=
  match token with
  | none => none
  | some start => strchr buf start ch

/-- Whether the pattern, a C string, occurs at the head of the text. -/
def matchAt : List Nat → List Nat → Bool
  | [], _ => true
  | _ :: _, [] => false
  | p :: ps, b :: bs => p == b && matchAt ps bs

/-- `strstr` over the bytes from offset `i` on: the offset of the first
occurrence of the pattern before the terminating NUL. -/
def strstrFrom (pat : List Nat) : List Nat → Nat → Option Nat
  | [], i => if matchAt pat [] then some i else none
  | b :: rest, i =>
    if matchAt pat (b :: rest) then some i
    else if b = 0 then none
    else strstrFrom pat rest (i + 1)

/-- `strstr(buf + start, pat)`. -/
def strstr (buf : List Nat) (start : Nat) (pat : List Nat) : Option Nat :=
  strstrFrom pat (buf.drop start) start

/-- `strncpy(dest, src, n)` for a C string `src` given by its bytes before the
NUL: at most `n` bytes are copied and the rest of the `n` bytes is filled with
NUL; no NUL is written when `src` has `n` bytes or more. -/
def strncpy (dest src : List Nat) (n : Nat) : List Nat :=
  src.take n ++ List.replicate (n - src.length) 0 ++ dest.drop n

/-- The token pointers that `tokenizeUrl` fills in, one per `UrlToken`. -/
structure UrlTokens where
  Scheme : Option Nat
  UserName : Option Nat
  Password : Option Nat
  Host : Option Nat
  Port : Option Nat
  Path : Option Nat
  Query : Option Nat
  Fragment : Option Nat
  deriving DecidableEq, Repr

/-- The string a token pointer points at. -/
def tokenString (buf : List Nat) (token : Option Nat) : List Nat :=
  match token with
  | none => []
  | some i => cstr buf i

/-- One split of `tokenizeUrl`: `find = strchr(token, ch)`, and when it is
found, `*find = 0` followed by the token assignments of that branch. -/
def findSplit (st : List Nat × UrlTokens) (token : Option Nat) (ch : Nat)
    (assign : Nat → UrlTokens → UrlTokens) : List Nat × UrlTokens :=
  match strchrToken st.1 token ch with
  | none => st
  | some find => (st.1.set find 0, assign find st.2)

/-- `tokenizeUrl(_url, _buf, _bufSize, _tokens)`: the buffer and the tokens
after the call. The characters are `:` 58, `/` 47, `@` 64, `#` 35, `?` 63. -/
def tokenizeUrl (url : Option (List Nat)) (buf : List Nat) (bufSize : Nat) :
    List Nat × UrlTokens :=
  let tokens : UrlTokens := ⟨none, none, none, none, none, none, none, none⟩
  match url with
  | none => (buf, tokens)
  | some u =>
    let buf0 := strncpy (buf.set 0 0) u bufSize
    match strstr buf0 0 [58, 47, 47] with
    | none => (buf0, tokens)
    | some find =>
      let st0 : List Nat × UrlTokens :=
        (buf0.set find 0, { tokens with Scheme := some 0, Host := some (find + 3) })
      let st1 := findSplit st0 st0.2.Host 47 (fun f t => { t with Path := some (f + 1) })
      let st2 := findSplit st1 st1.2.Host 64
        (fun f t => { t with UserName := t.Host, Host := some (f + 1) })
      let st3 := findSplit st2 st2.2.Host 58 (fun f t => { t with Port := some (f + 1) })
      let st4 := findSplit st3 st3.2.UserName 58
        (fun f t => { t with Password := some (f + 1) })
      let st5 := findSplit st4 st4.2.Path 35 (fun f t => { t with Fragment := some (f + 1) })
      findSplit st5 st5.2.Path 63 (fun f t => { t with Query := some (f + 1) })

/-- The URL `S://U:P@H:N/T?Q#F`. -/
def fullUrl (S U P H N T Q F : List Nat) : List Nat :=
  S ++ [58, 47, 47] ++ U ++ [58] ++ P ++ [64] ++ H ++ [58] ++ N ++ [47] ++ T ++ [63] ++ Q ++
    [35] ++ F

/-- The bytes of `ab://u:p@h:80/x/y?q=1#f`, split into its parts. -/
def exampleUrl : List Nat :=
  fullUrl [97, 98] [117] [112] [104] [56, 48] [120, 47, 121] [113, 61, 49] [102]

/-- An established framed connection with handle 3 whose outbound queue holds
the message queued by `notify(3, 0x0102030405060708)`. -/
def notifySender : Connection :=
  { m_connectTimeout := 0, m_socket := true, m_denseIndex := 0, m_handle := 3,
    m_incoming := [], m_outgoing := [notifyRequest 3 72623859790382856],
    m_len := -1, m_raw := false, m_connected := true, sent := [] }

/-- `BNET_CONFIG_MAX_INCOMING_BUFFER_SIZE`, defined as `(64<<10)`: the size of
the receive ring of every connection. -/
def incomingBufferSize : Nat := 64 * 2 ^ 10

/-- The members of `RecvRingBuffer` used by `recv`, together with
`m_control.m_size`; all three are `uint32_t`. -/
structure RecvRingBuffer where
  m_size : Nat
  m_write : Nat
  m_reserved : Nat
  deriving DecidableEq, Repr

/-- The value of `m_reserved` after `m_reserved += m_control.reserve(-1)` in
`RecvRingBuffer::recv`; `granted` is the value returned by `reserve`. -/
def RecvRingBuffer.reserved (rb : RecvRingBuffer) (granted : Nat) : Nat :=
  (rb.m_reserved + granted) % 2 ^ 32

/-- The length `wrap` that `RecvRingBuffer::recv` passes to `::recv`, the
destination being `&m_buffer[m_write]`. -/
def RecvRingBuffer.wrap (rb : RecvRingBuffer) (granted : Nat) : Nat :=
  if (rb.m_write + rb.reserved granted) % 2 ^ 32 % rb.m_size < rb.m_write then
    (rb.m_size + 2 ^ 32 - rb.m_write) % 2 ^ 32
  else rb.reserved granted

/-- `RecvRingBuffer::recv(SOCKET)`: `granted` is the value returned by
`m_control.reserve(-1)` and `bytes` the value returned by `::recv`. The result
is the buffer afterwards and the count handed to `m_control.commit` (zero when
`commit` is not called). -/
def RecvRingBuffer.recv (rb : RecvRingBuffer) (granted : Nat) (bytes : Int) :
    RecvRingBuffer × Nat :=
  if 0 < bytes then
    ({ rb with
        m_write := (rb.m_write + bytes.toNat) % 2 ^ 32 % rb.m_size
        m_reserved := (rb.reserved granted + 2 ^ 32 - bytes.toNat) % 2 ^ 32 },
      bytes.toNat)
  else ({ rb with m_reserved := rb.reserved granted }, 0)

/-- A ring of the configured size whose write cursor is 100 bytes before the
end, with nothing reserved yet. -/
def exampleRing : RecvRingBuffer :=
  { m_size := incomingBufferSize, m_write := 65436, m_reserved := 0 }

/-- The `while (0 < available)` loop of the framed branch of
`Connection::reassembleMessage` with a bound on the number of times its
condition is tested: the result is `none` when the loop is still running after
`fuel` tests. -/
def reassembleFramedFuel : Nat → Connection → List Message →
    Option (Connection × List Message)
  | 0, _, _ => none
  | fuel + 1, c, q =>
    if 0 < min c.m_incoming.length maxMessageSize then
      if c.m_len = -1 then
        if 2 > min c.m_incoming.length maxMessageSize then some (c, q)
        else
          reassembleFramedFuel fuel
            { c with m_len := (readU16 (c.m_incoming.take 2) : Nat)
                     m_incoming := c.m_incoming.drop 2 } q
      else
        if c.m_len > (min c.m_incoming.length maxMessageSize : Nat) then some (c, q)
        else
          reassembleFramedFuel fuel
            { c with m_len := -1
                     m_incoming := c.m_incoming.drop (c.m_len % 2 ^ 32).toNat }
            (q ++ [framedMessage c])
    else some (c, q)

/-- Modelled from the spec: the bytes that `reserve(-1)` can grant "without
overrun" on a ring of `BNET_CONFIG_MAX_INCOMING_BUFFER_SIZE` bytes with nothing
reserved. The ring control (`bx::RingBufferControl`, an external header) keeps
the write cursor one byte short of the read cursor, so the ring holds at most
`incomingBufferSize - 1` unread bytes. -/
def ringFree (c : Connection) : Nat :=
  incomingBufferSize - 1 - c.m_incoming.length

/-- A framed connection that has received one complete frame, the length
prefix of a second frame of two bytes, and the first byte of its body. -/
def partialReceiver : Connection :=
  { m_connectTimeout := 0, m_socket := true, m_denseIndex := 0, m_handle := 2,
    m_incoming := [3, 0, 128, 104, 105, 2, 0, 0], m_outgoing := [], m_len := -1,
    m_raw := false, m_connected := true, sent := [] }

/-- The URL `S://H`. -/
def schemeHostUrl (S H : List Nat) : List Nat :=
  S ++ [58, 47, 47] ++ H

/-- All eight tokens read as the empty string. -/
def allTokensEmpty (r : List Nat × UrlTokens) : Prop :=
  tokenString r.1 r.2.Scheme = [] ∧ tokenString r.1 r.2.UserName = [] ∧
  tokenString r.1 r.2.Password = [] ∧ tokenString r.1 r.2.Host = [] ∧
  tokenString r.1 r.2.Port = [] ∧ tokenString r.1 r.2.Path = [] ∧
  tokenString r.1 r.2.Query = [] ∧ tokenString r.1 r.2.Fragment = []

/-- A tick before the connect deadline in which `select` reports the socket
ready, the read would block and each of twenty-four writes accepts up to ten
bytes. -/
def generousTick : Tick :=
  { now := 50, select := 1, recv := RecvResult.nothing true,
    sends := List.replicate 24 ⟨10, false⟩ }

/-- The context reached from `pendingContext`, whose connection is still
connecting, by `disconnect(0, true)` followed by `send` of one more message:
the outbound queue holds a `Disconnect` marker in front of the last message. -/
def markedContext : Context :=
  { pendingContext with
    m_connections :=
      [some { m_connectTimeout := 100, m_socket := true, m_denseIndex := 0, m_handle := 0,
              m_incoming := [],
              m_outgoing := [⟨0, 1, [128], 0⟩, ⟨0, 2, [129, 7], 0⟩, ⟨0, 1, [130], 0⟩,
                disconnectMarker 0, ⟨0, 1, [131], 0⟩],
              m_len := -1, m_raw := false, m_connected := false, sent := [] }] }

/-! ## Framing lemmas -/

theorem reassembleFramed_empty (c : Connection) (q : List Message)
    (h : c.m_incoming = []) : reassembleFramed c q = (c, q) := by
  rw [reassembleFramed]
  simp [h]

theorem reassembleFramed_header (c : Connection) (q : List Message)
    (hlen : c.m_len = -1) (h2 : 2 ≤ c.m_incoming.length) :
    reassembleFramed c q =
      reassembleFramed
        { c with m_len := (readU16 (c.m_incoming.take 2) : Nat)
                 m_incoming := c.m_incoming.drop 2 } q := by
  rw [reassembleFramed]
  have h0 : 0 < min c.m_incoming.length maxMessageSize := by
    simp [maxMessageSize]; omega
  have h1 : ¬ (2 > min c.m_incoming.length maxMessageSize) := by
    simp [maxMessageSize]; omega
  simp only [h0, hlen, h1, if_true, if_false]

theorem reassembleFramed_short (c : Connection) (q : List Message)
    (hlen : c.m_len = -1) (h2 : c.m_incoming.length < 2) :
    reassembleFramed c q = (c, q) := by
  rw [reassembleFramed]
  have h1 : 2 > min c.m_incoming.length maxMessageSize := by
    simp [maxMessageSize]; omega
  simp only [hlen, h1, if_true]
  split <;> rfl

theorem reassembleFramed_body (c : Connection) (q : List Message)
    (hlen : c.m_len ≠ -1) (h0 : 0 < c.m_incoming.length)
    (hle : c.m_len ≤ (min c.m_incoming.length maxMessageSize : Nat)) :
    reassembleFramed c q =
      reassembleFramed
        { c with m_len := -1
                 m_incoming := c.m_incoming.drop (c.m_len % 2 ^ 32).toNat }
        (q ++ [framedMessage c]) := by
  rw [reassembleFramed]
  have h0 : 0 < min c.m_incoming.length maxMessageSize := by
    simp [maxMessageSize]; omega
  have h1 : ¬ (c.m_len > (min c.m_incoming.length maxMessageSize : Nat)) := by
    omega
  simp only [h0, hlen, h1, if_true, if_false]

theorem reassembleFramed_wait (c : Connection) (q : List Message)
    (hlen : c.m_len ≠ -1)
    (hgt : c.m_len > (min c.m_incoming.length maxMessageSize : Nat)) :
    reassembleFramed c q = (c, q) := by
  rw [reassembleFramed]
  simp only [hlen, hgt, if_true, if_false]
  split <;> rfl

/-- The result of the framed loop is a state in which the loop exits at once. -/
theorem reassembleFramed_idem (c : Connection) (q : List Message) :
    reassembleFramed (reassembleFramed c q).1 (reassembleFramed c q).2
      = reassembleFramed c q := by
  induction c, q using reassembleFramed.induct with
  | case1 c q h0 hlen h2 =>
    rw [reassembleFramed_short c q hlen (by simp [maxMessageSize] at h2; omega)]
    exact reassembleFramed_short c q hlen (by simp [maxMessageSize] at h2; omega)
  | case2 c q h0 hlen h2 ih =>
    rw [reassembleFramed_header c q hlen (by simp [maxMessageSize] at h2; omega)]
    exact ih
  | case3 c q h0 hlen hgt =>
    rw [reassembleFramed_wait c q hlen hgt]
    exact reassembleFramed_wait c q hlen hgt
  | case4 c q h0 hlen hgt ih =>
    rw [reassembleFramed_body c q hlen (by simp at h0; omega) (by omega)]
    exact ih
  | case5 c q h0 =>
    have : c.m_incoming = [] := by
      simp [maxMessageSize] at h0
      exact h0
    rw [reassembleFramed_empty c q this]
    exact reassembleFramed_empty c q this

theorem reassembleFramed_len_ge (c : Connection) (q : List Message)
    (h : -1 ≤ c.m_len) : -1 ≤ (reassembleFramed c q).1.m_len := by
  induction c, q using reassembleFramed.induct with
  | case1 c q h0 hlen h2 =>
    rw [reassembleFramed_short c q hlen (by simp [maxMessageSize] at h2; omega)]
    exact h
  | case2 c q h0 hlen h2 ih =>
    rw [reassembleFramed_header c q hlen (by simp [maxMessageSize] at h2; omega)]
    exact ih (by simp; omega)
  | case3 c q h0 hlen hgt =>
    rw [reassembleFramed_wait c q hlen hgt]
    exact h
  | case4 c q h0 hlen hgt ih =>
    rw [reassembleFramed_body c q hlen (by simp at h0; omega) (by omega)]
    exact ih (by simp)
  | case5 c q h0 =>
    have : c.m_incoming = [] := by
      simp [maxMessageSize] at h0
      exact h0
    rw [reassembleFramed_empty c q this]
    exact h

/-- Bytes that arrive later do not change what the framed loop does with the
bytes already buffered: running the loop, appending, and running it again is
the same as appending first and running it once. -/
theorem reassembleFramed_append (c : Connection) (q : List Message) (bs : List Nat)
    (h : -1 ≤ c.m_len) :
    reassembleFramed ((reassembleFramed c q).1.receive bs) (reassembleFramed c q).2
      = reassembleFramed (c.receive bs) q := by
  induction c, q using reassembleFramed.induct with
  | case1 c q h0 hlen h2 =>
    rw [reassembleFramed_short c q hlen (by simp [maxMessageSize] at h2; omega)]
  | case2 c q h0 hlen h2 ih =>
    have hl : 2 ≤ c.m_incoming.length := by simp [maxMessageSize] at h2; omega
    rw [reassembleFramed_header c q hlen hl, ih (by simp; omega)]
    rw [reassembleFramed_header (c.receive bs) q hlen
      (by simp [Connection.receive]; omega)]
    congr 1
    simp only [Connection.receive]
    rw [List.take_append_of_le_length hl, List.drop_append_of_le_length hl]
  | case3 c q h0 hlen hgt =>
    rw [reassembleFramed_wait c q hlen hgt]
  | case4 c q h0 hlen hgt ih =>
    have hl : 0 < c.m_incoming.length := by simp at h0; omega
    have hle : c.m_len ≤ (min c.m_incoming.length maxMessageSize : Nat) := by omega
    have hn : (c.m_len % 2 ^ 32).toNat ≤ c.m_incoming.length := by
      have : c.m_len ≤ (maxMessageSize : Nat) := by omega
      simp only [maxMessageSize] at this
      omega
    rw [reassembleFramed_body c q hlen hl hle, ih (by simp)]
    rw [reassembleFramed_body (c.receive bs) q hlen
      (by simp [Connection.receive]; omega)
      (by simp only [Connection.receive, List.length_append]; omega)]
    congr 1
    · simp only [Connection.receive]
      rw [List.drop_append_of_le_length hn]
    · simp only [framedMessage, Connection.receive]
      rw [List.take_append_of_le_length hn]
  | case5 c q h0 =>
    have : c.m_incoming = [] := by
      simp [maxMessageSize] at h0
      exact h0
    rw [reassembleFramed_empty c q this]

theorem receive_receive (c : Connection) (xs ys : List Nat) :
    (c.receive xs).receive ys = c.receive (xs ++ ys) := by
  simp [Connection.receive]

/-- The framed loop touches `m_len` and the ring only. -/
theorem reassembleFramed_fields (c : Connection) (q : List Message) :
    (reassembleFramed c q).1 =
      { c with m_len := (reassembleFramed c q).1.m_len
               m_incoming := (reassembleFramed c q).1.m_incoming } := by
  induction c, q using reassembleFramed.induct with
  | case1 c q h0 hlen h2 =>
    rw [reassembleFramed_short c q hlen (by simp [maxMessageSize] at h2; omega)]
  | case2 c q h0 hlen h2 ih =>
    rw [reassembleFramed_header c q hlen (by simp [maxMessageSize] at h2; omega)]
    rw [ih]
  | case3 c q h0 hlen hgt =>
    rw [reassembleFramed_wait c q hlen hgt]
  | case4 c q h0 hlen hgt ih =>
    rw [reassembleFramed_body c q hlen (by simp at h0; omega) (by omega)]
    rw [ih]
  | case5 c q h0 =>
    have : c.m_incoming = [] := by
      simp [maxMessageSize] at h0
      exact h0
    rw [reassembleFramed_empty c q this]

theorem reassembleFramed_raw (c : Connection) (q : List Message) :
    (reassembleFramed c q).1.m_raw = c.m_raw := by
  rw [reassembleFramed_fields]

theorem feed_framed_cons (rs : List (List Nat)) (c : Connection) (q : List Message)
    (r : List Nat) (hraw : c.m_raw = false) (hlen : -1 ≤ c.m_len) :
    feed c q (r :: rs) = reassembleFramed (c.receive (r :: rs).flatten) q := by
  induction rs generalizing c q r with
  | nil =>
    simp [feed, Connection.reassembleMessage, Connection.receive, hraw]
  | cons r2 rs ih =>
    have hstep : feed c q (r :: r2 :: rs)
        = feed (reassembleFramed (c.receive r) q).1 (reassembleFramed (c.receive r) q).2
            (r2 :: rs) := by
      simp [feed, Connection.reassembleMessage, Connection.receive, hraw]
    rw [hstep, ih _ _ _ (by rw [reassembleFramed_raw]; simpa [Connection.receive] using hraw)
      (reassembleFramed_len_ge _ _ (by simpa [Connection.receive] using hlen))]
    rw [reassembleFramed_append _ _ _ (by simpa [Connection.receive] using hlen)]
    rw [receive_receive]
    simp


theorem readU16_writeU16 (n : Nat) (rest : List Nat) (h : n < 2 ^ 16) :
    readU16 ((writeU16 n ++ rest).take 2) = n := by
  simp [readU16, writeU16]
  omega

theorem wireBytes_framed (h n k : Nat) (p : List Nat) (hn : p.length = n) :
    wireBytes false ⟨h, n, p, k⟩ = writeU16 n ++ p := by
  simp [wireBytes, writeU16, hn]

/-- One complete frame at the head of the ring, with the loop awaiting a
length prefix, is delivered and the loop carries on behind it. -/
theorem reassembleFramed_frame (c : Connection) (q : List Message) (p rest : List Nat)
    (hlen : c.m_len = -1) (hp1 : 1 ≤ p.length) (hp2 : p.length ≤ maxMessageSize)
    (hin : c.m_incoming = writeU16 p.length ++ p ++ rest) :
    reassembleFramed c q =
      reassembleFramed { c with m_incoming := rest }
        (q ++ [⟨c.m_handle, p.length, coerceId p, Internal.None⟩]) := by
  simp only [maxMessageSize] at hp2
  have h2 : 2 ≤ c.m_incoming.length := by simp [hin, writeU16]
  rw [reassembleFramed_header c q hlen h2]
  have hrd : readU16 (c.m_incoming.take 2) = p.length := by
    rw [hin, List.append_assoc]
    exact readU16_writeU16 _ _ (by omega)
  have hdrop : c.m_incoming.drop 2 = p ++ rest := by
    rw [hin]; simp [writeU16]
  rw [hrd, hdrop]
  rw [reassembleFramed_body]
  · have hn : ((p.length : Int) % 2 ^ 32).toNat = p.length := by omega
    have hs : ((p.length : Int) % 2 ^ 16).toNat = p.length := by omega
    simp only [framedMessage, hn, hs]
    simp [hlen]
  · simp
  · simp; omega
  · simp [maxMessageSize]; omega


theorem reassembleFramed_frames (ps : List (List Nat)) (c : Connection) (q : List Message)
    (hlen : c.m_len = -1)
    (hps : ∀ p ∈ ps, 1 ≤ p.length ∧ p.length ≤ maxMessageSize)
    (hin : c.m_incoming = (ps.map (fun p => writeU16 p.length ++ p)).flatten) :
    reassembleFramed c q =
      ({ c with m_incoming := [] },
        q ++ ps.map (fun p => ⟨c.m_handle, p.length, coerceId p, Internal.None⟩)) := by
  induction ps generalizing c q with
  | nil =>
    simp at hin
    rw [reassembleFramed_empty c q hin]
    simp [← hin]
  | cons p ps ih =>
    have hp := hps p (List.mem_cons_self _ _)
    rw [reassembleFramed_frame c q p ((ps.map (fun p => writeU16 p.length ++ p)).flatten)
      hlen hp.1 hp.2 (by simp [hin])]
    rw [ih { c with m_incoming := (ps.map (fun p => writeU16 p.length ++ p)).flatten } _
      hlen (fun x hx => hps x (List.mem_cons_of_mem _ hx)) rfl]
    simp

/-- When no `::send` answer is a hard error, the `send` loop, if it comes to
an end, has handed all the bytes to the operating system in order. -/
theorem sendData_ok (os : List SendResult) (c : Connection) (q : List Message)
    (data : List Nat) (b : Bool) (c1 : Connection) (q1 : List Message)
    (os1 : List SendResult)
    (hos : ∀ r ∈ os, ¬ (r.bytes = -1 ∧ r.wouldBlock = false))
    (h : c.sendData q data os = some (b, c1, q1, os1)) :
    b = true ∧ c1 = { c with sent := c.sent ++ data } ∧ q1 = q ∧ ∀ r ∈ os1, r ∈ os := by
  induction os generalizing c data with
  | nil => simp [Connection.sendData] at h
  | cons r os ih =>
    have hr := hos r (List.mem_cons_self _ _)
    have hos2 : ∀ x ∈ os, ¬ (x.bytes = -1 ∧ x.wouldBlock = false) :=
      fun x hx => hos x (List.mem_cons_of_mem _ hx)
    rw [Connection.sendData] at h
    by_cases hneg : r.bytes < 0
    · rw [if_pos hneg, if_neg hr] at h
      by_cases hd : 0 < data.length
      · rw [if_pos hd] at h
        obtain ⟨h1, h2, h3, h4⟩ := ih c data hos2 h
        exact ⟨h1, h2, h3, fun x hx => List.mem_cons_of_mem _ (h4 x hx)⟩
      · rw [if_neg hd] at h
        simp only [Option.some.injEq, Prod.mk.injEq] at h
        obtain ⟨h1, h2, h3, h4⟩ := h
        have : data = [] := by
          cases data with
          | nil => rfl
          | cons x xs => simp at hd
        subst this
        refine ⟨h1.symm, ?_, h3.symm, ?_⟩
        · rw [← h2]; simp
        · rw [← h4]; exact fun x hx => List.mem_cons_of_mem _ hx
    · rw [if_neg hneg] at h
      by_cases hd : 0 < (data.drop (min r.bytes.toNat data.length)).length
      · rw [if_pos hd] at h
        obtain ⟨h1, h2, h3, h4⟩ := ih _ _ hos2 h
        refine ⟨h1, ?_, h3, fun x hx => List.mem_cons_of_mem _ (h4 x hx)⟩
        rw [h2]
        simp [List.append_assoc]
      · rw [if_neg hd] at h
        simp only [Option.some.injEq, Prod.mk.injEq] at h
        obtain ⟨h1, h2, h3, h4⟩ := h
        have hnil : data.drop (min r.bytes.toNat data.length) = [] := by
          cases hx : data.drop (min r.bytes.toNat data.length) with
          | nil => rfl
          | cons x xs => rw [hx] at hd; simp at hd
        have htake : data.take (min r.bytes.toNat data.length) = data := by
          have := List.take_append_drop (min r.bytes.toNat data.length) data
          rw [hnil, List.append_nil] at this
          exact this
        refine ⟨h1.symm, ?_, h3.symm, ?_⟩
        · rw [← h2, htake]
        · rw [← h4]; exact fun x hx => List.mem_cons_of_mem _ hx

/-- The drain of a queue of ordinary messages (opcode `None`) whose writes
meet no hard error: every message is written in queue order, nothing is pushed
to the inbound queue, and the queue ends empty. -/
theorem drain_plain (msgs : List Message) (c : Connection) (q : List Message)
    (os : List SendResult) (c1 : Connection) (q1 : List Message) (os1 : List SendResult)
    (hnone : ∀ m ∈ msgs, m.internal = Internal.None)
    (hos : ∀ r ∈ os, ¬ (r.bytes = -1 ∧ r.wouldBlock = false))
    (h : c.drain q os msgs = some (c1, q1, os1)) :
    c1 = { c with sent := c.sent ++ (msgs.map (wireBytes c.m_raw)).flatten
                  m_outgoing := [] } ∧ q1 = q ∧ ∀ r ∈ os1, r ∈ os := by
  induction msgs generalizing c q os with
  | nil =>
    simp only [Connection.drain, Option.some.injEq, Prod.mk.injEq] at h
    obtain ⟨h1, h2, h3⟩ := h
    refine ⟨?_, h2.symm, ?_⟩
    · rw [← h1]; simp
    · rw [← h3]; exact fun x hx => hx
  | cons m rest ih =>
    have hm := hnone m (List.mem_cons_self _ _)
    rw [Connection.drain] at h
    simp only [hm, ne_eq, not_true_eq_false, false_and, if_false] at h
    cases hs : c.sendData q (wireBytes c.m_raw m) os with
    | none => rw [hs] at h; simp at h
    | some res =>
      obtain ⟨b, c2, q2, os2⟩ := res
      obtain ⟨hb, hc2, hq2, hos2⟩ := sendData_ok os c q _ b c2 q2 os2 hos hs
      subst hb
      rw [hs] at h
      simp only at h
      obtain ⟨h1, h2, h3⟩ := ih _ _ _ (fun x hx => hnone x (List.mem_cons_of_mem _ hx))
        (fun x hx => hos x (hos2 x hx)) h
      refine ⟨?_, ?_, fun x hx => hos2 x (h3 x hx)⟩
      · rw [h1, hc2]
        simp [List.append_assoc]
      · rw [h2, hq2]


theorem coerceId_head (data : List Nat) (b : Nat) (h : (coerceId data).head? = some b) :
    MessageId.UserDefined ≤ b := by
  cases data with
  | nil => simp [coerceId] at h
  | cons x xs =>
    simp only [coerceId, List.head?_cons, Option.some.injEq] at h
    rw [← h]
    split <;> omega

/-- Every message the framed loop pushes goes behind the queue, and its first
payload byte, when it has one, is not below `UserDefined`. -/
theorem reassembleFramed_pushed (c : Connection) (q : List Message) :
    ∃ new, (reassembleFramed c q).2 = q ++ new ∧
      ∀ m ∈ new, ∀ b, m.data.head? = some b → MessageId.UserDefined ≤ b := by
  induction c, q using reassembleFramed.induct with
  | case1 c q h0 hlen h2 =>
    rw [reassembleFramed_short c q hlen (by simp [maxMessageSize] at h2; omega)]
    exact ⟨[], by simp, by simp⟩
  | case2 c q h0 hlen h2 ih =>
    rw [reassembleFramed_header c q hlen (by simp [maxMessageSize] at h2; omega)]
    exact ih
  | case3 c q h0 hlen hgt =>
    rw [reassembleFramed_wait c q hlen hgt]
    exact ⟨[], by simp, by simp⟩
  | case4 c q h0 hlen hgt ih =>
    rw [reassembleFramed_body c q hlen (by simp at h0; omega) (by omega)]
    obtain ⟨new, h1, h2⟩ := ih
    refine ⟨framedMessage c :: new, by rw [h1]; simp, ?_⟩
    intro m hm b hb
    rcases List.mem_cons.mp hm with rfl | hm
    · exact coerceId_head _ b hb
    · exact h2 m hm b hb
  | case5 c q h0 =>
    have : c.m_incoming = [] := by
      simp [maxMessageSize] at h0
      exact h0
    rw [reassembleFramed_empty c q this]
    exact ⟨[], by simp, by simp⟩

/-- The drain of a queue `msgs ++ rest` in which no message of `msgs` carries
the opcode `Disconnect` and no write meets a hard error: when it comes to an
end, it has written every message of `msgs` in order, has pushed one `Notify`
message for each message of `msgs` with opcode `Notify`, and has carried on
with `rest`. -/
theorem drain_append (msgs rest : List Message) (c : Connection) (q : List Message)
    (os : List SendResult) (r : Connection × List Message × List SendResult)
    (hnd : ∀ m ∈ msgs, m.internal ≠ Internal.Disconnect)
    (hos : ∀ x ∈ os, ¬ (x.bytes = -1 ∧ x.wouldBlock = false))
    (hout : c.m_outgoing = msgs ++ rest)
    (h : c.drain q os (msgs ++ rest) = some r) :
    ∃ os2, (∀ x ∈ os2, x ∈ os) ∧
      Connection.drain
        { c with sent := c.sent ++ (msgs.map (wireBytes c.m_raw)).flatten
                 m_outgoing := rest }
        (q ++ (msgs.filter (fun m => decide (m.internal = Internal.Notify))).map notifyMessage)
        os2 rest = some r := by
  induction msgs generalizing c q os with
  | nil =>
    refine ⟨os, fun x hx => hx, ?_⟩
    simp only [List.nil_append] at h
    simp only [List.map_nil, List.flatten_nil, List.append_nil, List.filter_nil]
    simp only [List.nil_append] at hout
    have hc : { c with sent := c.sent, m_outgoing := rest } = c := by
      rw [← hout]
    rw [hc]
    exact h
  | cons m msgs ih =>
    have hm := hnd m (List.mem_cons_self _ _)
    rw [List.cons_append, Connection.drain] at h
    have hpi : (c.processInternal q m.internal m)
        = (true, c, if m.internal = Internal.Notify then q ++ [notifyMessage m] else q) := by
      simp only [Connection.processInternal, hm, if_false]
      split <;> rfl
    have hcond : ¬ (m.internal ≠ Internal.None
        ∧ (c.processInternal q m.internal m).1 = false) := by
      rw [hpi]; simp
    rw [if_neg hcond] at h
    simp only [hpi, ite_self] at h
    have hq1 : (if m.internal ≠ Internal.None
          then (if m.internal = Internal.Notify then q ++ [notifyMessage m] else q) else q)
        = q ++ ([m].filter (fun m => decide (m.internal = Internal.Notify))).map
            notifyMessage := by
      by_cases hn : m.internal = Internal.Notify
      · have : Internal.Notify ≠ Internal.None := by decide
        simp [hn, this]
      · simp [hn]
    rw [hq1] at h
    cases hs : c.sendData
        (q ++ ([m].filter (fun m => decide (m.internal = Internal.Notify))).map notifyMessage)
        (wireBytes c.m_raw m) os with
    | none => rw [hs] at h; simp at h
    | some res =>
      obtain ⟨b, c2, q2, os2⟩ := res
      obtain ⟨hb, hc2, hq2, hos2⟩ := sendData_ok os c _ _ b c2 q2 os2 hos hs
      subst hb
      rw [hs] at h
      simp only at h
      obtain ⟨os3, hos3, h3⟩ := ih _ _ _
        (fun x hx => hnd x (List.mem_cons_of_mem _ hx))
        (fun x hx => hos x (hos2 x hx)) rfl h
      refine ⟨os3, fun x hx => hos2 x (hos3 x hx), ?_⟩
      rw [← h3, hc2, hq2]
      simp [List.filter_cons, List.append_assoc]
      split <;> simp

/-! ## C1: frame round trip -/

/-- C1, as amended: for every sequence of payloads, each of length at least 1
and at most `maxMessageSize - 1`, queued as ordinary messages on a framed
connection whose drain meets no hard write error, the drain writes for each
message the two-byte little-endian length followed by the payload; and a framed
connection awaiting a length prefix with an empty ring, fed those bytes in any
split into reads with `reassembleMessage` run after each read, pushes exactly
one inbound message per payload, in order, of the payload's size and bytes with
a first byte below `UserDefined` replaced by `UserDefined`, and ends awaiting a
length prefix with an empty ring. -/
theorem frame_round_trip (a b : Connection) (qa qb : List Message) (ps : List (List Nat))
    (os : List SendResult) (a1 : Connection) (qa1 : List Message) (os1 : List SendResult)
    (reads : List (List Nat))
    (hps : ∀ p ∈ ps, 1 ≤ p.length ∧ p.length ≤ maxMessageSize - 1)
    (haraw : a.m_raw = false)
    (hout : a.m_outgoing = ps.map (fun p => ⟨a.m_handle, p.length, p, Internal.None⟩))
    (hos : ∀ r ∈ os, ¬ (r.bytes = -1 ∧ r.wouldBlock = false))
    (hdrain : a.drain qa os a.m_outgoing = some (a1, qa1, os1))
    (hbraw : b.m_raw = false) (hblen : b.m_len = -1) (hbin : b.m_incoming = [])
    (hreads : reads.flatten = a1.sent.drop a.sent.length) :
    a1.sent = a.sent ++ (ps.map (fun p => writeU16 p.length ++ p)).flatten ∧
    feed b qb reads =
      (b, qb ++ ps.map (fun p => ⟨b.m_handle, p.length, coerceId p, Internal.None⟩)) := by
  have hwire : (a.m_outgoing.map (wireBytes a.m_raw)).flatten
      = (ps.map (fun p => writeU16 p.length ++ p)).flatten := by
    rw [hout, haraw, List.map_map]
    congr 1
    apply List.map_congr_left
    intro p _
    exact wireBytes_framed _ _ _ _ rfl
  obtain ⟨h1, -, -⟩ := drain_plain a.m_outgoing a qa os a1 qa1 os1
    (by rw [hout]; simp) hos hdrain
  have hsent : a1.sent = a.sent ++ (ps.map (fun p => writeU16 p.length ++ p)).flatten := by
    rw [h1, hwire]
  refine ⟨hsent, ?_⟩
  rw [hsent, List.drop_left] at hreads
  have hps2 : ∀ p ∈ ps, 1 ≤ p.length ∧ p.length ≤ maxMessageSize :=
    fun p hp => ⟨(hps p hp).1, le_trans (hps p hp).2 (Nat.sub_le _ _)⟩
  have hb : b = { b with m_incoming := [] } := by
    rw [← hbin]
  cases reads with
  | nil =>
    cases ps with
    | nil => simp [feed]
    | cons p ps => simp [writeU16] at hreads
  | cons r rs =>
    rw [feed_framed_cons rs b qb r hbraw (by omega), hreads]
    rw [reassembleFramed_frames ps (b.receive _) qb (by simpa [Connection.receive] using hblen)
      hps2 (by simp [Connection.receive, hbin])]
    simp only [Connection.receive, hbin]
    rw [← hbin] 


/-- Witness of C1: the two payloads of `exampleSender`, written with a partial
write and a would-block on the way and read back in four reads. -/
theorem frame_round_trip_witness :
    (∀ p ∈ [[128, 104, 105], [0, 120]], 1 ≤ p.length ∧ p.length ≤ maxMessageSize - 1) ∧
    exampleSender.drain [] exampleSends exampleSender.m_outgoing
      = some ({ exampleSender with sent := [3, 0, 128, 104, 105, 2, 0, 0, 120]
                                   m_outgoing := [] }, [], [⟨7, false⟩]) ∧
    feed exampleReceiver [] exampleReads
      = (exampleReceiver, [⟨2, 3, [128, 104, 105], 0⟩, ⟨2, 2, [6, 120], 0⟩]) :=
  ⟨by decide, by decide,
    (frame_round_trip exampleSender exampleReceiver [] [] [[128, 104, 105], [0, 120]]
      exampleSends
      { exampleSender with sent := [3, 0, 128, 104, 105, 2, 0, 0, 120], m_outgoing := [] }
      [] [⟨7, false⟩] exampleReads (by decide) rfl rfl (by decide) (by decide) rfl rfl rfl
      (by decide)).2⟩

/-- Counterexample to C1 as stated: the single payload of length 0 is within
the stated bound; the drain writes the two prefix bytes `[0, 0]`, and the
receiving framed connection, fed those bytes, pushes no message at all (it is
left with `m_len = 0`), where the claim asks for one message. -/
theorem frame_round_trip_empty_payload :
    (∀ p ∈ [([] : List Nat)], p.length ≤ maxMessageSize - 1) ∧
    emptySender.m_outgoing = [([] : List Nat)].map (fun p => ⟨1, p.length, p, Internal.None⟩) ∧
    emptySender.drain [] [⟨2, false⟩] emptySender.m_outgoing
      = some ({ emptySender with sent := [0, 0], m_outgoing := [] }, [], []) ∧
    feed exampleReceiver [] [[0, 0]] = ({ exampleReceiver with m_len := 0 }, []) := by
  refine ⟨by decide, by decide, by decide, ?_⟩
  have h : feed exampleReceiver [] [[0, 0]]
      = reassembleFramed (exampleReceiver.receive [0, 0]) [] := rfl
  rw [h, reassembleFramed_header _ _ rfl (by decide), reassembleFramed_empty _ _ rfl]
  decide

/-! ## C2: independence of chunking -/

/-- C2: for a framed connection (in any state with `m_len ≥ -1`, whatever is
already buffered) and every split of a received byte stream into one or more
successive reads, running `reassembleMessage` after each read ends with the
same inbound queue and the same connection state (`m_len`, unread bytes and
all other fields) as running it once after a single read of the whole
stream. -/
theorem chunking_independent (c : Connection) (q : List Message) (reads : List (List Nat))
    (hraw : c.m_raw = false) (hlen : -1 ≤ c.m_len) (hne : reads ≠ []) :
    feed c q reads = (c.receive reads.flatten).reassembleMessage q := by
  cases reads with
  | nil => exact absurd rfl hne
  | cons r rs =>
    rw [feed_framed_cons rs c q r hraw hlen]
    simp [Connection.reassembleMessage, Connection.receive, hraw]

/-- Witness of C2: a length prefix cut in two and a body cut in two. -/
theorem chunking_independent_witness :
    exampleReceiver.m_raw = false ∧ -1 ≤ exampleReceiver.m_len ∧ exampleReads ≠ [] ∧
    feed exampleReceiver [] exampleReads
      = (exampleReceiver.receive exampleReads.flatten).reassembleMessage [] :=
  ⟨by decide, by decide, by decide,
    chunking_independent exampleReceiver [] exampleReads (by decide) (by decide) (by decide)⟩

/-! ## C3: id coercion -/

/-- C3: on a framed connection, a frame of length `L = tail.length + 1 ≥ 1`
whose payload bytes on the wire are `id :: tail` is delivered as a message of
size `L` whose first byte is `UserDefined` when `id < UserDefined` and `id`
otherwise, and whose other bytes are `tail` unchanged. This holds both when the
whole frame (prefix included) is in the ring and when the prefix was consumed
earlier and the body completes now. Hence every message pushed by framed
reassembly, from any state, has a first payload byte that is at least
`UserDefined` and so is none of the lifecycle ids. -/
theorem id_coercion (c : Connection) (q : List Message) (id : Nat) (tail rest : List Nat)
    (hraw : c.m_raw = false) (hmax : tail.length + 1 ≤ maxMessageSize) :
    (c.m_len = -1 → c.m_incoming = writeU16 (tail.length + 1) ++ (id :: tail) ++ rest →
      c.reassembleMessage q =
        Connection.reassembleMessage { c with m_incoming := rest }
          (q ++ [⟨c.m_handle, tail.length + 1,
            (if id < MessageId.UserDefined then MessageId.UserDefined else id) :: tail,
            Internal.None⟩])) ∧
    (c.m_len = (tail.length + 1 : Nat) → c.m_incoming = (id :: tail) ++ rest →
      c.reassembleMessage q =
        Connection.reassembleMessage { c with m_len := -1, m_incoming := rest }
          (q ++ [⟨c.m_handle, tail.length + 1,
            (if id < MessageId.UserDefined then MessageId.UserDefined else id) :: tail,
            Internal.None⟩])) ∧
    (∃ new, (c.reassembleMessage q).2 = q ++ new ∧
      ∀ m ∈ new, ∀ b, m.data.head? = some b →
        MessageId.UserDefined ≤ b ∧ b ≠ MessageId.ListenFailed ∧
        b ≠ MessageId.ConnectFailed ∧ b ≠ MessageId.LostConnection ∧
        b ≠ MessageId.IncomingConnection ∧ b ≠ MessageId.Notify ∧
        b ≠ MessageId.RawData) := by
  refine ⟨?_, ?_, ?_⟩
  · intro hlen hin
    simp only [Connection.reassembleMessage, hraw]
    have := reassembleFramed_frame c q (id :: tail) rest hlen (by simp) (by simpa using hmax) hin
    simpa [coerceId, hraw] using this
  · intro hlen hin
    simp only [Connection.reassembleMessage, hraw]
    simp only [maxMessageSize] at hmax
    rw [reassembleFramed_body c q (by omega) (by simp [hin])
      (by simp [hin, hlen, maxMessageSize]; omega)]
    have hn : (c.m_len % 2 ^ 32).toNat = tail.length + 1 := by omega
    have hs : (c.m_len % 2 ^ 16).toNat = tail.length + 1 := by omega
    simp only [framedMessage, hn, hs, hin]
    simp [coerceId, hraw]
  · simp only [Connection.reassembleMessage, hraw]
    obtain ⟨new, h1, h2⟩ := reassembleFramed_pushed c q
    refine ⟨new, h1, ?_⟩
    intro m hm b hb
    have := h2 m hm b hb
    simp only [MessageId.UserDefined, MessageId.ListenFailed, MessageId.ConnectFailed,
      MessageId.LostConnection, MessageId.IncomingConnection, MessageId.Notify,
      MessageId.RawData] at this ⊢
    omega


/-- Witness of C3: the peer-forged frame `[0x00, 'x']` of the spec's third
scenario is delivered with first byte `UserDefined` and second byte `'x'`. -/
theorem id_coercion_witness :
    (exampleReceiver.receive [2, 0, 0, 120]).m_raw = false ∧
    [120].length + 1 ≤ maxMessageSize ∧
    (exampleReceiver.receive [2, 0, 0, 120]).reassembleMessage []
      = Connection.reassembleMessage exampleReceiver [⟨2, 2, [MessageId.UserDefined, 120], 0⟩] :=
  ⟨by decide, by decide,
    (id_coercion (exampleReceiver.receive [2, 0, 0, 120]) [] 0 [120] [] (by decide)
      (by decide)).1 rfl rfl⟩


/-! ## C4: handle and dense index of connections -/

theorem getD_set_self {α : Type} (l : List α) (i : Nat) (a d : α) (h : i < l.length) :
    (l.set i a).getD i d = a := by
  simp [List.getD_eq_getElem?_getD, h]

theorem getD_set_ne {α : Type} (l : List α) (i j : Nat) (a d : α) (h : i ≠ j) :
    (l.set i a).getD j d = l.getD j d := by
  simp [List.getD_eq_getElem?_getD, List.getElem?_set_ne h]

theorem getD_some_lt {α : Type} (l : List (Option α)) (i : Nat) (a : α)
    (h : l.getD i none = some a) : i < l.length := by
  by_contra hlt
  rw [List.getD_eq_getElem?_getD, List.getElem?_eq_none (by omega)] at h
  simp at h

theorem connectionsInv_init (maxC maxL : Nat) (hmax : maxC ≤ 65535) :
    ConnectionsInv (Context.init maxC maxL) := by
  constructor
  · simp [Context.init]
  · simp only [Context.init, List.length_replicate]
    split <;> omega
  · simp [Context.init]
  · simp only [Context.init]
    exact List.nodup_range _
  · intro h hh
    simp only [Context.init, List.mem_range] at hh
    simp only [Context.init, Context.getConnection, List.length_replicate]
    refine ⟨hh, ?_⟩
    simp [List.getD_eq_getElem?_getD, List.getElem?_replicate, hh]
  · intro h c hc
    simp only [Context.init, Context.getConnection, List.getD_eq_getElem?_getD,
      List.getElem?_replicate] at hc
    split at hc <;> split at hc <;> simp at hc
  · intro i hi
    simp [Context.init] at hi

/-- The invariant survives an allocation followed by the initialisation of the
new object, whatever is pushed to the inbound queue on the way. -/
theorem connectionsInv_alloc (ctx : Context) (hinv : ConnectionsInv ctx) (h : Nat)
    (free : List Nat) (hfree : ctx.m_connectionsFree = h :: free) (c1 : Connection)
    (hc1 : c1.m_denseIndex = ctx.m_numConnections) (hc2 : c1.m_handle = h)
    (q : List Message) :
    ConnectionsInv
      { ctx with
        m_connections :=
          (ctx.m_connections.set h (some (Connection.new ctx.m_numConnections))).set h (some c1)
        m_connectionsFree := free
        m_connectionDense := ctx.m_connectionDense.set ctx.m_numConnections h
        m_numConnections := (ctx.m_numConnections + 1) % 2 ^ 16
        m_incoming := q } := by
  have hmem : h ∈ ctx.m_connectionsFree := by rw [hfree]; exact List.mem_cons_self _ _
  have hh := hinv.free_slot h hmem
  have hcount := hinv.count
  rw [hfree, List.length_cons] at hcount
  have hlen := hinv.len_max
  have hnum : (ctx.m_numConnections + 1) % 2 ^ 16 = ctx.m_numConnections + 1 := by omega
  have hnod := hinv.free_nodup
  rw [hfree, List.nodup_cons] at hnod
  have hnumlt : ctx.m_numConnections < ctx.m_connectionDense.length := by
    rw [hinv.len_dense]; omega
  constructor
  · simp [hinv.len_dense]
  · simpa using hlen
  · simp only [List.length_set, hnum]; omega
  · exact hnod.2
  · intro x hx
    have hx2 := hinv.free_slot x (by rw [hfree]; exact List.mem_cons_of_mem _ hx)
    have hne : h ≠ x := fun e => hnod.1 (e ▸ hx)
    refine ⟨by simpa using hx2.1, ?_⟩
    simp only [Context.getConnection] at hx2 ⊢
    rw [getD_set_ne _ _ _ _ _ hne, getD_set_ne _ _ _ _ _ hne]
    exact hx2.2
  · intro x c hc
    simp only [Context.getConnection] at hc
    by_cases hx : h = x
    · subst hx
      rw [getD_set_self _ _ _ _ (by simpa using hh.1)] at hc
      simp only [Option.some.injEq] at hc
      subst hc
      refine ⟨hc2, by simp only [hc1, hnum]; omega, ?_⟩
      simp only [hc1]
      exact getD_set_self _ _ _ _ hnumlt
    · rw [getD_set_ne _ _ _ _ _ hx, getD_set_ne _ _ _ _ _ hx] at hc
      obtain ⟨l1, l2, l3⟩ := hinv.live x c hc
      refine ⟨l1, by simp only [hnum]; omega, ?_⟩
      simp only
      rw [getD_set_ne _ _ _ _ _ (by omega)]
      exact l3
  · intro i hi
    simp only [hnum] at hi
    simp only [Context.getConnection]
    by_cases hin : i = ctx.m_numConnections
    · subst hin
      rw [getD_set_self _ _ _ _ hnumlt, getD_set_self _ _ _ _ (by simpa using hh.1)]
      exact ⟨c1, rfl, hc1⟩
    · rw [getD_set_ne _ _ _ _ _ (fun e => hin e.symm)]
      obtain ⟨c, hc, hci⟩ := hinv.dense i (by omega)
      have hne : h ≠ ctx.m_connectionDense.getD i 0 := by
        intro e
        rw [← e, hh.2] at hc
        simp at hc
      rw [getD_set_ne _ _ _ _ _ hne, getD_set_ne _ _ _ _ _ hne]
      exact ⟨c, hc, hci⟩


theorem setConnectionDenseIndex_getD (l : List (Option Connection)) (t d x : Nat) :
    (setConnectionDenseIndex l t d).getD x none =
      if x = t then (l.getD t none).map (fun c => { c with m_denseIndex := d })
      else l.getD x none := by
  unfold setConnectionDenseIndex
  cases ht : l.getD t none with
  | none =>
    by_cases hx : x = t
    · simp only [hx, if_true, Option.map_none']
      exact ht
    · simp only [hx, if_false]
  | some c =>
    have hlt := getD_some_lt l t c ht
    by_cases hx : x = t
    · simp only [hx, if_true, Option.map_some']
      exact getD_set_self _ _ _ _ hlt
    · simp only [hx, if_false]
      exact getD_set_ne _ _ _ _ _ (fun e => hx e.symm)

theorem setConnectionDenseIndex_length (l : List (Option Connection)) (t d : Nat) :
    (setConnectionDenseIndex l t d).length = l.length := by
  unfold setConnectionDenseIndex
  cases l.getD t none <;> simp

/-- The invariant survives the teardown branch of `Context::disconnect`. -/
theorem connectionsInv_disconnect (ctx : Context) (hinv : ConnectionsInv ctx) (h : Nat)
    (c : Connection) (hc : ctx.getConnection h = some c) (q : List Message) :
    ConnectionsInv
      { ctx with
        m_connections :=
          setConnectionDenseIndex (ctx.m_connections.set h none)
            (ctx.m_connectionDense.getD ((ctx.m_numConnections + 65535) % 2 ^ 16) 0)
            c.m_denseIndex
        m_connectionsFree := h :: ctx.m_connectionsFree
        m_numConnections := (ctx.m_numConnections + 65535) % 2 ^ 16
        m_connectionDense :=
          ctx.m_connectionDense.set c.m_denseIndex
            (ctx.m_connectionDense.getD ((ctx.m_numConnections + 65535) % 2 ^ 16) 0)
        m_incoming := q } := by
  obtain ⟨hh, hd, hdh⟩ := hinv.live h c hc
  have hlt : h < ctx.m_connections.length := getD_some_lt _ _ _ hc
  have hcount := hinv.count
  have hlen := hinv.len_max
  have hld := hinv.len_dense
  have hnum : (ctx.m_numConnections + 65535) % 2 ^ 16 = ctx.m_numConnections - 1 := by omega
  rw [hnum]
  obtain ⟨ct, hct, hcti⟩ := hinv.dense (ctx.m_numConnections - 1) (by omega)
  generalize htemp : ctx.m_connectionDense.getD (ctx.m_numConnections - 1) 0 = temp at hct ⊢
  have hget : ∀ x,
      (setConnectionDenseIndex (ctx.m_connections.set h none) temp c.m_denseIndex).getD x none
        = if x = temp then
            (if temp = h then none else some { ct with m_denseIndex := c.m_denseIndex })
          else if x = h then none else ctx.m_connections.getD x none := by
    intro x
    rw [setConnectionDenseIndex_getD]
    by_cases hx : x = temp
    · simp only [hx, if_true]
      by_cases ht : temp = h
      · simp only [ht, if_true]
        rw [getD_set_self _ _ _ _ hlt]
        rfl
      · simp only [ht, if_false]
        rw [getD_set_ne _ _ _ _ _ (fun e => ht e.symm)]
        simp only [Context.getConnection] at hct
        rw [hct]
        rfl
    · simp only [hx, if_false]
      by_cases hxh : x = h
      · simp only [hxh, if_true]
        exact getD_set_self _ _ _ _ hlt
      · simp only [hxh, if_false]
        exact getD_set_ne _ _ _ _ _ (fun e => hxh e.symm)
  have htl := hinv.live temp ct hct
  have hdlt : c.m_denseIndex < ctx.m_connectionDense.length := by omega
  constructor
  · simp [setConnectionDenseIndex_length, hld]
  · simpa [setConnectionDenseIndex_length] using hlen
  · simp only [setConnectionDenseIndex_length, List.length_set, List.length_cons]
    omega
  · simp only [List.nodup_cons]
    refine ⟨?_, hinv.free_nodup⟩
    intro hm
    have := (hinv.free_slot h hm).2
    rw [hc] at this
    simp at this
  · intro x hx
    simp only [setConnectionDenseIndex_length, List.length_set, Context.getConnection]
    rw [hget]
    rcases List.mem_cons.mp hx with rfl | hx
    · refine ⟨hlt, ?_⟩
      by_cases hxt : x = temp
      · simp [hxt]
      · simp [hxt]
    · have hx2 := hinv.free_slot x hx
      refine ⟨hx2.1, ?_⟩
      have hxt : x ≠ temp := by
        intro e
        rw [e, hct] at hx2
        simp at hx2
      simp only [hxt, if_false]
      split
      · rfl
      · exact hx2.2
  · intro x c1 hc1
    simp only [Context.getConnection] at hc1
    rw [hget] at hc1
    by_cases hxt : x = temp
    · simp only [hxt, if_true] at hc1
      by_cases hth : temp = h
      · simp [hth] at hc1
      · simp only [hth, if_false, Option.some.injEq] at hc1
        subst hc1
        have hne : c.m_denseIndex ≠ ctx.m_numConnections - 1 := by
          intro e
          rw [e, htemp] at hdh
          exact hth hdh
        refine ⟨by rw [hxt]; exact htl.1, by simp only; omega, ?_⟩
        simp only
        rw [getD_set_self _ _ _ _ hdlt, hxt]
    · simp only [hxt, if_false] at hc1
      by_cases hxh : x = h
      · simp [hxh] at hc1
      · simp only [hxh, if_false] at hc1
        obtain ⟨l1, l2, l3⟩ := hinv.live x c1 hc1
        have hne1 : c1.m_denseIndex ≠ ctx.m_numConnections - 1 := by
          intro e
          rw [e, htemp] at l3
          exact hxt l3.symm
        have hne2 : c.m_denseIndex ≠ c1.m_denseIndex := by
          intro e
          rw [← e, hdh] at l3
          exact hxh l3.symm
        refine ⟨l1, by simp only; omega, ?_⟩
        simp only
        rw [getD_set_ne _ _ _ _ _ hne2]
        exact l3
  · intro i hi
    simp only at hi
    simp only [Context.getConnection]
    by_cases hid : i = c.m_denseIndex
    · rw [hid, getD_set_self _ _ _ _ hdlt, hget]
      have hth : temp ≠ h := by
        intro e
        rw [e, hc] at hct
        simp only [Option.some.injEq] at hct
        rw [← hct] at hcti
        omega
      simp only [if_true, hth, if_false]
      exact ⟨_, rfl, rfl⟩
    · rw [getD_set_ne _ _ _ _ _ (fun e => hid e.symm), hget]
      obtain ⟨cg, hcg, hcgi⟩ := hinv.dense i (by omega)
      have hgt : ctx.m_connectionDense.getD i 0 ≠ temp := by
        intro e
        rw [e, hct] at hcg
        simp only [Option.some.injEq] at hcg
        rw [← hcg] at hcgi
        omega
      have hgh : ctx.m_connectionDense.getD i 0 ≠ h := by
        intro e
        rw [e, hc] at hcg
        simp only [Option.some.injEq] at hcg
        rw [← hcg] at hcgi
        omega
      simp only [hgt, hgh, if_false]
      exact ⟨cg, hcg, hcgi⟩


theorem connectionsInv_connect (ctx ctx1 : Context) (hinv : ConnectionsInv ctx) (raw : Bool)
    (e : ConnectEnv) (h : Nat) (hrun : ctx.connect raw e = some (h, ctx1)) :
    ConnectionsInv ctx1 := by
  unfold Context.connect Context.allocConnection at hrun
  cases hfree : ctx.m_connectionsFree with
  | nil => rw [hfree] at hrun; simp at hrun
  | cons h0 free =>
    rw [hfree] at hrun
    have hlt := (hinv.free_slot h0 (by rw [hfree]; exact List.mem_cons_self _ _)).1
    simp only [Context.getConnection, getD_set_self _ _ _ _ hlt, Option.some.injEq,
      Prod.mk.injEq] at hrun
    rw [← hrun.2]
    refine connectionsInv_alloc ctx hinv h0 free hfree _ ?_ ?_ _
    · simp only [Connection.connect, Connection.init, Connection.new]
      split
      · rfl
      · split <;> rfl
    · simp only [Connection.connect, Connection.init, Connection.new]
      split
      · rfl
      · split <;> rfl

theorem connectionsInv_accept (ctx ctx1 : Context) (hinv : ConnectionsInv ctx)
    (listenHandle ip port : Nat) (raw : Bool) (now freq : Nat) (h : Nat)
    (hrun : ctx.accept listenHandle ip port raw now freq = some (h, ctx1)) :
    ConnectionsInv ctx1 := by
  unfold Context.accept Context.allocConnection at hrun
  cases hfree : ctx.m_connectionsFree with
  | nil => rw [hfree] at hrun; simp at hrun
  | cons h0 free =>
    rw [hfree] at hrun
    have hlt := (hinv.free_slot h0 (by rw [hfree]; exact List.mem_cons_self _ _)).1
    simp only [Context.getConnection, getD_set_self _ _ _ _ hlt, Option.some.injEq,
      Prod.mk.injEq] at hrun
    rw [← hrun.2]
    exact connectionsInv_alloc ctx hinv h0 free hfree _ rfl rfl _

theorem connectionsInv_hardDisconnect (ctx ctx1 : Context) (hinv : ConnectionsInv ctx)
    (h : Nat) (t : Tick) (hrun : ctx.disconnect h false t = some ctx1) :
    ConnectionsInv ctx1 := by
  unfold Context.disconnect at hrun
  cases hc : ctx.getConnection h with
  | none => rw [hc] at hrun; simp at hrun
  | some c =>
    rw [hc] at hrun
    simp only [Bool.false_eq_true, false_and, if_false, Option.some.injEq] at hrun
    rw [← hrun]
    exact connectionsInv_disconnect ctx hinv h c hc _

theorem connectionsInv_runOps (ops : List ConnOp) (ctx ctx1 : Context)
    (hinv : ConnectionsInv ctx) (hrun : runOps ctx ops = some ctx1) :
    ConnectionsInv ctx1 := by
  induction ops generalizing ctx with
  | nil =>
    simp only [runOps, Option.some.injEq] at hrun
    rw [← hrun]; exact hinv
  | cons op ops ih =>
    rw [runOps] at hrun
    cases hop : op.apply ctx with
    | none => rw [hop] at hrun; simp at hrun
    | some ctx2 =>
      rw [hop] at hrun
      refine ih ctx2 ?_ hrun
      cases op with
      | connect raw e =>
        simp only [ConnOp.apply, Option.map_eq_some'] at hop
        obtain ⟨r, hr, hr2⟩ := hop
        exact connectionsInv_connect ctx ctx2 hinv raw e r.1 (by rw [hr, ← hr2])
      | accept listenHandle ip port raw now freq =>
        simp only [ConnOp.apply, Option.map_eq_some'] at hop
        obtain ⟨r, hr, hr2⟩ := hop
        exact connectionsInv_accept ctx ctx2 hinv listenHandle ip port raw now freq r.1
          (by rw [hr, ← hr2])
      | disconnect handle t =>
        exact connectionsInv_hardDisconnect ctx ctx2 hinv handle t hop

/-- What the invariant says about the first `m_numConnections` entries of the
dense array: they are pairwise distinct and are exactly the live handles. -/
theorem connectionsInv_dense_live (ctx : Context) (hinv : ConnectionsInv ctx) :
    (ctx.m_connectionDense.take ctx.m_numConnections).Nodup ∧
    ∀ h, h ∈ ctx.m_connectionDense.take ctx.m_numConnections ↔
      ∃ c, ctx.getConnection h = some c := by
  have hnl : ctx.m_numConnections ≤ ctx.m_connectionDense.length := by
    have := hinv.count
    have := hinv.len_dense
    omega
  have hget : ∀ i, i < ctx.m_numConnections →
      (ctx.m_connectionDense.take ctx.m_numConnections)[i]?
        = some (ctx.m_connectionDense.getD i 0) := by
    intro i hi
    rw [List.getElem?_take_of_lt hi, List.getD_eq_getElem?_getD]
    rw [List.getElem?_eq_getElem (by omega)]
    rfl
  constructor
  · rw [List.nodup_iff_getElem?_ne_getElem?]
    intro i j hij hj
    simp only [List.length_take] at hj
    have hj2 : j < ctx.m_numConnections := by omega
    rw [hget i (by omega), hget j hj2]
    intro e
    simp only [Option.some.injEq] at e
    obtain ⟨ci, hci, hcii⟩ := hinv.dense i (by omega)
    obtain ⟨cj, hcj, hcjj⟩ := hinv.dense j hj2
    rw [e, hcj] at hci
    simp only [Option.some.injEq] at hci
    rw [hci] at hcjj
    omega
  · intro h
    constructor
    · intro hm
      rw [List.mem_iff_getElem?] at hm
      obtain ⟨i, hi⟩ := hm
      have hilt : i < ctx.m_numConnections := by
        by_contra hge
        rw [List.getElem?_take_eq_none (by omega)] at hi
        simp at hi
      rw [hget i hilt] at hi
      simp only [Option.some.injEq] at hi
      obtain ⟨c, hc, -⟩ := hinv.dense i hilt
      exact ⟨c, by rw [← hi]; exact hc⟩
    · rintro ⟨c, hc⟩
      obtain ⟨-, l2, l3⟩ := hinv.live h c hc
      rw [List.mem_iff_getElem?]
      exact ⟨c.m_denseIndex, by rw [hget _ l2, l3]⟩

/-- C4: starting from an initialised context (16-bit capacity), after any
sequence of `connect`, `accept` (pool not exhausted) and `disconnect(h, false)`
calls on live handles, every live connection `c` in slot `h` stores the handle
`h`, has `c.m_denseIndex < m_numConnections` and
`m_connectionDense[c.m_denseIndex] == h`; and the first `m_numConnections`
entries of the dense array are pairwise distinct and are exactly the live
handles. -/
theorem connection_dense_bijection (maxConnections maxListenSockets : Nat)
    (ops : List ConnOp) (ctx : Context) (hmax : maxConnections ≤ 65535)
    (hrun : runOps (Context.init maxConnections maxListenSockets) ops = some ctx) :
    (∀ h c, ctx.getConnection h = some c →
      c.m_handle = h ∧ c.m_denseIndex < ctx.m_numConnections ∧
        ctx.m_connectionDense[c.m_denseIndex]? = some h) ∧
    (ctx.m_connectionDense.take ctx.m_numConnections).Nodup ∧
    (∀ h, h ∈ ctx.m_connectionDense.take ctx.m_numConnections ↔
      ∃ c, ctx.getConnection h = some c) := by
  have hinv := connectionsInv_runOps ops _ ctx
    (connectionsInv_init maxConnections maxListenSockets hmax) hrun
  refine ⟨?_, connectionsInv_dense_live ctx hinv⟩
  intro h c hc
  obtain ⟨l1, l2, l3⟩ := hinv.live h c hc
  refine ⟨l1, l2, ?_⟩
  have hlt : c.m_denseIndex < ctx.m_connectionDense.length := by
    have := hinv.count
    have := hinv.len_dense
    omega
  rw [List.getD_eq_getElem?_getD, List.getElem?_eq_getElem hlt] at l3
  rw [List.getElem?_eq_getElem hlt]
  simpa using l3


/-- Witness of C4: three allocations (one of them a refused connect), two
hard disconnects and one more allocation on a pool of three slots. -/
theorem connection_dense_bijection_witness :
    3 ≤ 65535 ∧ runOps (Context.init 3 2) exampleOps = some exampleContext ∧
    (∀ h c, exampleContext.getConnection h = some c →
      c.m_handle = h ∧ c.m_denseIndex < exampleContext.m_numConnections ∧
        exampleContext.m_connectionDense[c.m_denseIndex]? = some h) ∧
    (exampleContext.m_connectionDense.take exampleContext.m_numConnections).Nodup ∧
    (∀ h, h ∈ exampleContext.m_connectionDense.take exampleContext.m_numConnections ↔
      ∃ c, exampleContext.getConnection h = some c) :=
  ⟨by decide, by decide,
    connection_dense_bijection 3 2 exampleOps exampleContext (by decide) (by decide)⟩

/-! ## C5: swap on delete for listeners -/

/-- C5, the code at the failing input: with two live listeners (handles 0 and
1 at dense positions 0 and 1) and no connection, `stop(0)` leaves one listener,
moves the stored dense index of listener 1 to position 0, but
`m_listenSocketIndex[0]` still holds the destroyed handle 0 (the statement
copies `m_listenSocketIndex[m_numConnections]`, here position 0, instead of
position `m_numListenSockets`), so `dense[obj.denseIndex] == obj.handle` fails
for the remaining listener. -/
theorem stop_copies_from_wrong_position :
    ∃ ctx ctx1 l, twoListeners = some ctx ∧ ctx.m_numListenSockets = 2 ∧
      ctx.m_numConnections = 0 ∧ ctx.m_listenSocketIndex = [0, 1] ∧
      ctx.stop 0 = some ctx1 ∧ ctx1.m_numListenSockets = 1 ∧
      ctx1.getListenSocket 0 = none ∧ ctx1.getListenSocket 1 = some l ∧
      l.m_handle = 1 ∧ l.m_denseIndex = 0 ∧
      ctx1.m_listenSocketIndex.getD l.m_denseIndex 0 = 0 ∧
      ctx1.m_listenSocketIndex.getD l.m_denseIndex 0 ≠ l.m_handle := by
  refine ⟨_, _, _, rfl, ?_, ?_, ?_, rfl, ?_, ?_, rfl, ?_, ?_, ?_, ?_⟩ <;> decide

/-! ## C8 and C9: loopback -/

theorem bytesOfU64_value (u : Nat) (hu : u < 2 ^ 64) :
    (bytesOfU64 u).length = 8 ∧ (bytesOfU64 u).foldr (fun b acc => b + 256 * acc) 0 = u := by
  constructor
  · simp [bytesOfU64]
  · simp only [bytesOfU64, List.range, List.range.loop, List.map, List.foldr]
    omega

/-- C8: `notify(invalidHandle, u)` appends to the inbound queue exactly one
message with handle `invalidHandle`, size 9, first byte `MessageId::Notify` and
then the eight bytes of `u` (little-endian, recomposing to `u`), and leaves
every other field of the context, the connections among them, as it was; and
if the inbound queue was empty and there is no listener and no connection, the
next `recv()` returns that message and leaves the queue empty. -/
theorem loopback_notify (ctx : Context) (u : Nat) (t : Tick) (hu : u < 2 ^ 64) :
    ctx.notify invalidHandle u t
      = some { ctx with
          m_incoming := ctx.m_incoming ++
            [⟨invalidHandle, 9, MessageId.Notify :: bytesOfU64 u, Internal.None⟩] } ∧
    (bytesOfU64 u).length = 8 ∧
    (bytesOfU64 u).foldr (fun b acc => b + 256 * acc) 0 = u ∧
    (ctx.m_incoming = [] → ctx.m_numListenSockets = 0 → ctx.m_numConnections = 0 →
      ∀ accepts ticks,
        (ctx.notify invalidHandle u t).bind (fun ctx1 => ctx1.recv accepts ticks)
          = some (some ⟨invalidHandle, 9, MessageId.Notify :: bytesOfU64 u, Internal.None⟩,
              ctx)) := by
  have h1 : ctx.notify invalidHandle u t
      = some { ctx with
          m_incoming := ctx.m_incoming ++
            [⟨invalidHandle, 9, MessageId.Notify :: bytesOfU64 u, Internal.None⟩] } := by
    simp [Context.notify, loopbackNotify]
  refine ⟨h1, (bytesOfU64_value u hu).1, (bytesOfU64_value u hu).2, ?_⟩
  intro hq hl hc accepts ticks
  rw [h1]
  simp only [Option.some_bind, Context.recv, hl, hc, List.range_zero, List.foldlM_nil,
    Option.pure_def, Option.map_some', Context.pop, hq, List.nil_append]
  congr 2
  cases ctx
  simp_all

/-- Witness of C8: the spec's first scenario on a freshly initialised
context. -/
theorem loopback_notify_witness :
    0xDEADBEEFCAFEBABE < 2 ^ 64 ∧ (Context.init 1 0).m_incoming = [] ∧
    ((Context.init 1 0).notify invalidHandle 0xDEADBEEFCAFEBABE idleTick).bind
        (fun ctx1 => ctx1.recv (fun _ => none) (fun _ => idleTick))
      = some (some ⟨invalidHandle, 9,
          MessageId.Notify :: bytesOfU64 0xDEADBEEFCAFEBABE, Internal.None⟩,
          Context.init 1 0) :=
  ⟨by decide, rfl,
    (loopback_notify (Context.init 1 0) 0xDEADBEEFCAFEBABE idleTick (by decide)).2.2.2
      rfl rfl rfl (fun _ => none) (fun _ => idleTick)⟩

/-- C9: for a message whose handle is `invalidHandle`, `send` appends that very
message (handle, size, payload and prefix byte unchanged, no id coercion) at
the tail of the inbound queue, behind the messages already queued, and changes
nothing else in the context: no connection and no outbound queue. -/
theorem loopback_send (ctx : Context) (msg : Message) (t : Tick)
    (h : msg.handle = invalidHandle) :
    ctx.send msg t = some { ctx with m_incoming := ctx.m_incoming ++ [msg] } := by
  simp [Context.send, h]

/-- Witness of C9: a loopback message whose first byte is a lifecycle id is
queued as it is, behind the three messages already in the queue. -/
theorem loopback_send_witness :
    (⟨invalidHandle, 2, [0, 120], 0⟩ : Message).handle = invalidHandle ∧
    exampleContext.send ⟨invalidHandle, 2, [0, 120], 0⟩ idleTick
      = some { exampleContext with
          m_incoming := exampleContext.m_incoming ++ [⟨invalidHandle, 2, [0, 120], 0⟩] } :=
  ⟨rfl, loopback_send exampleContext ⟨invalidHandle, 2, [0, 120], 0⟩ idleTick rfl⟩


/-! ## The update of an established connection whose read would block -/

/-- `reassembleMessage` touches `m_len` and the ring only. -/
theorem reassembleMessage_fields (c : Connection) (q : List Message) :
    (c.reassembleMessage q).1 =
      { c with m_len := (c.reassembleMessage q).1.m_len
               m_incoming := (c.reassembleMessage q).1.m_incoming } := by
  unfold Connection.reassembleMessage
  by_cases hraw : c.m_raw = true
  · rw [if_pos hraw]
    unfold reassembleRaw
    dsimp only
    split <;> rfl
  · rw [if_neg hraw]
    exact reassembleFramed_fields c q

/-- Every message pushed by `reassembleMessage` goes behind the queue and
starts with `RawData` or with an id that is at least `UserDefined`. -/
theorem reassembleMessage_pushed (c : Connection) (q : List Message) :
    ∃ new, (c.reassembleMessage q).2 = q ++ new ∧
      ∀ m ∈ new, ∀ b, m.data.head? = some b → MessageId.RawData ≤ b := by
  unfold Connection.reassembleMessage
  by_cases hraw : c.m_raw = true
  · rw [if_pos hraw]
    unfold reassembleRaw
    dsimp only
    split
    · refine ⟨[_], rfl, ?_⟩
      intro m hm b hb
      simp only [List.mem_singleton] at hm
      subst hm
      simp only [List.head?_cons, Option.some.injEq] at hb
      omega
    · exact ⟨[], by simp, by simp⟩
  · rw [if_neg hraw]
    obtain ⟨new, h1, h2⟩ := reassembleFramed_pushed c q
    refine ⟨new, h1, ?_⟩
    intro m hm b hb
    have := h2 m hm b hb
    simp only [MessageId.UserDefined, MessageId.RawData] at this ⊢
    omega

/-- Every message pushed while a framed connection is fed a sequence of reads
has a first payload byte that is at least `UserDefined`. -/
theorem feed_pushed (reads : List (List Nat)) (b : Connection) (q : List Message)
    (hraw : b.m_raw = false) :
    ∃ new, (feed b q reads).2 = q ++ new ∧
      ∀ m ∈ new, ∀ x, m.data.head? = some x → MessageId.UserDefined ≤ x := by
  induction reads generalizing b q with
  | nil => exact ⟨[], by simp [feed], by simp⟩
  | cons r rs ih =>
    have hstep : feed b q (r :: rs)
        = feed (reassembleFramed (b.receive r) q).1 (reassembleFramed (b.receive r) q).2 rs := by
      simp [feed, Connection.reassembleMessage, Connection.receive, hraw]
    obtain ⟨new1, h1, h2⟩ := reassembleFramed_pushed (b.receive r) q
    obtain ⟨new2, h3, h4⟩ := ih (reassembleFramed (b.receive r) q).1
      (reassembleFramed (b.receive r) q).2
      (by rw [reassembleFramed_raw]; simpa [Connection.receive] using hraw)
    refine ⟨new1 ++ new2, by rw [hstep, h3, h1, List.append_assoc], ?_⟩
    intro m hm x hx
    rcases List.mem_append.mp hm with hm | hm
    · exact h2 m hm x hx
    · exact h4 m hm x hx

/-- `Connection::send(Message*)` on a connection with a valid socket that is,
or in this tick becomes, connected, when the read would block: the call is
`reassembleMessage` followed by the drain of the queue with the new message at
its tail. -/
theorem send_established (c : Connection) (q : List Message) (x : Message) (t : Tick)
    (hsock : c.m_socket = true)
    (hconn : c.m_connected = true ∨ (t.now ≤ c.m_connectTimeout ∧ 0 < t.select))
    (hrecv : t.recv = RecvResult.nothing true) :
    c.send q x t =
      (Connection.updateTail { c with m_outgoing := c.m_outgoing ++ [x], m_connected := true }
        q t.sends).map (fun r => (r.1, r.2.1)) := by
  have huc : (Connection.updateConnect { c with m_outgoing := c.m_outgoing ++ [x] } q
      t.now t.select)
      = (true, { c with m_outgoing := c.m_outgoing ++ [x], m_connected := true }, q) := by
    unfold Connection.updateConnect
    cases hcc : c.m_connected with
    | true => simp only [if_true]
    | false =>
      rw [hcc] at hconn
      simp only [Bool.false_eq_true, false_or] at hconn
      have h1 : ¬ (t.now > c.m_connectTimeout) := by omega
      simp [h1, hconn.2]
  unfold Connection.send
  rw [if_pos hsock]
  unfold Connection.update
  rw [if_pos (show ({ c with m_outgoing := c.m_outgoing ++ [x] } : Connection).m_socket = true
    from hsock), huc, hrecv]
  simp


/-- In the situation of `send_established`, with no earlier `Disconnect`
marker in the queue and no hard write error: when the call returns, every
message queued before has been written in order, and the drain has reached the
new message `x` in a connection state `c2` whose socket is still valid. -/
theorem send_reaches (c : Connection) (q : List Message) (x : Message) (t : Tick)
    (r : Connection × List Message)
    (hsock : c.m_socket = true)
    (hconn : c.m_connected = true ∨ (t.now ≤ c.m_connectTimeout ∧ 0 < t.select))
    (hrecv : t.recv = RecvResult.nothing true)
    (hq : ∀ m ∈ c.m_outgoing, m.internal ≠ Internal.Disconnect)
    (hos : ∀ y ∈ t.sends, ¬ (y.bytes = -1 ∧ y.wouldBlock = false))
    (hrun : c.send q x t = some r) :
    ∃ (c2 : Connection) (new : List Message) (os2 os3 : List SendResult),
      c2.m_socket = true ∧ c2.m_raw = c.m_raw ∧ c2.m_handle = c.m_handle ∧
      c2.m_denseIndex = c.m_denseIndex ∧
      c2.sent = c.sent ++ (c.m_outgoing.map (wireBytes c.m_raw)).flatten ∧
      (∀ m ∈ new, ∀ b, m.data.head? = some b → MessageId.RawData ≤ b) ∧
      (∀ y ∈ os2, y ∈ t.sends) ∧
      Connection.drain c2
        (q ++ new ++ (c.m_outgoing.filter
          (fun m => decide (m.internal = Internal.Notify))).map notifyMessage)
        os2 [x] = some (r.1, r.2, os3) := by
  rw [send_established c q x t hsock hconn hrecv, Option.map_eq_some'] at hrun
  obtain ⟨r1, hr1, hr2⟩ := hrun
  unfold Connection.updateTail at hr1
  obtain ⟨new, hnew, hnew2⟩ := reassembleMessage_pushed
    { c with m_outgoing := c.m_outgoing ++ [x], m_connected := true } q
  have hf := reassembleMessage_fields
    { c with m_outgoing := c.m_outgoing ++ [x], m_connected := true } q
  generalize Connection.reassembleMessage
    { c with m_outgoing := c.m_outgoing ++ [x], m_connected := true } q = re at hr1 hnew hf
  have hout : re.1.m_outgoing = c.m_outgoing ++ [x] := by rw [hf]
  rw [hout] at hr1
  obtain ⟨os2, hos2, hd⟩ := drain_append c.m_outgoing [x] re.1 re.2 t.sends r1 hq hos hout hr1
  have hraw : re.1.m_raw = c.m_raw := by rw [hf]
  have hsent : re.1.sent = c.sent := by rw [hf]
  refine ⟨{ re.1 with sent := re.1.sent ++ (c.m_outgoing.map (wireBytes re.1.m_raw)).flatten
                      m_outgoing := [x] },
    new, os2, r1.2.2, ?_, hraw, ?_, ?_, ?_, hnew2, hos2, ?_⟩
  · show re.1.m_socket = true
    rw [hf]; exact hsock
  · show re.1.m_handle = c.m_handle
    rw [hf]
  · show re.1.m_denseIndex = c.m_denseIndex
    rw [hf]
  · show re.1.sent ++ _ = _
    rw [hraw, hsent]
  · rw [hnew] at hd
    rw [← hr2]
    exact hd


/-! ## C7: notify on a valid handle -/

theorem notifyMessage_notifyRequest (h u : Nat) :
    notifyMessage (notifyRequest h u)
      = ⟨h, 9, MessageId.Notify :: bytesOfU64 u, Internal.None⟩ := by
  simp [notifyMessage, notifyRequest, bytesOfU64]

/-- Counterexample to C7 as stated: `notify(0, 4)` on an established framed
connection puts the ten bytes `[8, 0, 4, 0, 0, 0, 0, 0, 0, 0]` on the wire, and
the peer's framed `reassembleMessage` delivers from them one message of size 8
whose first byte is `UserDefined`, not `MessageId::Notify`, and which has seven
further bytes, not the eight bytes of `u`. -/
theorem notify_peer_gets_no_notify :
    ∃ ctx1 c1, establishedContext.notify 0 4 writeTick = some ctx1 ∧
      ctx1.getConnection 0 = some c1 ∧
      c1.sent = [8, 0, 4, 0, 0, 0, 0, 0, 0, 0] ∧
      feed exampleReceiver [] [c1.sent]
        = (exampleReceiver, [⟨2, 8, [MessageId.UserDefined, 0, 0, 0, 0, 0, 0, 0], 0⟩]) ∧
      MessageId.UserDefined ≠ MessageId.Notify ∧
      ∀ m ∈ (feed exampleReceiver [] [c1.sent]).2,
        m.data ≠ MessageId.Notify :: bytesOfU64 4 := by
  refine ⟨{ establishedContext with
      m_connections :=
        [some { m_connectTimeout := 100, m_socket := true, m_denseIndex := 0, m_handle := 0,
                m_incoming := [], m_outgoing := [], m_len := -1, m_raw := false,
                m_connected := true, sent := [8, 0, 4, 0, 0, 0, 0, 0, 0, 0] }]
      m_incoming := [⟨0, 9, [4, 4, 0, 0, 0, 0, 0, 0, 0], 0⟩] }, _, ?_, rfl, rfl, ?_, ?_, ?_⟩
  · decide!
  · decide!
  · decide
  · decide!

/-! ## C6: size of inbound messages -/

/-- C6, the code at the failing input: a framed connection that receives the
three bytes `[0, 0, 65]` (a frame with length prefix 0 followed by the first
byte of the next prefix) pushes an inbound message of size 0, below the lower
bound 1 of the claim. -/
theorem zero_length_frame_pushes_size_zero :
    exampleReceiver.update [] ⟨0, 0, RecvResult.received 0 [0, 65], []⟩
      = some ({ exampleReceiver with m_incoming := [65] }, [⟨2, 0, [], 0⟩]) ∧
    ¬ (1 ≤ (⟨2, 0, [], 0⟩ : Message).size) := by
  constructor
  · decide!
  · decide

/-! ## What one update pushes -/

/-- The `send` loop either hands bytes to the operating system and returns
`true`, or meets a hard error, disconnects with `LostConnection` and returns
`false`. -/
theorem sendData_cases (os : List SendResult) (c : Connection) (q : List Message)
    (data : List Nat) (b : Bool) (c1 : Connection) (q1 : List Message)
    (os1 : List SendResult)
    (h : c.sendData q data os = some (b, c1, q1, os1)) :
    (b = true ∧ (∃ w, c1 = { c with sent := c.sent ++ w }) ∧ q1 = q) ∨
    (b = false ∧ (∃ w, c1 = { c with sent := c.sent ++ w, m_socket := false, m_outgoing := [] }) ∧
      q1 = q ++ [⟨c.m_handle, 1, [MessageId.LostConnection], Internal.None⟩]) := by
  induction os generalizing c data with
  | nil => simp [Connection.sendData] at h
  | cons r os ih =>
    rw [Connection.sendData] at h
    by_cases hneg : r.bytes < 0
    · rw [if_pos hneg] at h
      by_cases hhard : r.bytes = -1 ∧ r.wouldBlock = false
      · rw [if_pos hhard] at h
        simp only [Option.some.injEq, Prod.mk.injEq] at h
        obtain ⟨h1, h2, h3, -⟩ := h
        right
        refine ⟨h1.symm, ⟨[], ?_⟩, ?_⟩
        · rw [← h2]; simp [Connection.disconnect]
        · rw [← h3]; simp [Connection.disconnect, ctxPush]
      · rw [if_neg hhard] at h
        by_cases hd : 0 < data.length
        · rw [if_pos hd] at h
          exact ih c data h
        · rw [if_neg hd] at h
          simp only [Option.some.injEq, Prod.mk.injEq] at h
          obtain ⟨h1, h2, h3, -⟩ := h
          left
          refine ⟨h1.symm, ⟨[], ?_⟩, h3.symm⟩
          rw [← h2]; simp
    · rw [if_neg hneg] at h
      by_cases hd : 0 < (data.drop (min r.bytes.toNat data.length)).length
      · rw [if_pos hd] at h
        rcases ih _ _ h with ⟨h1, ⟨w, h2⟩, h3⟩ | ⟨h1, ⟨w, h2⟩, h3⟩
        · left
          refine ⟨h1, ⟨data.take (min r.bytes.toNat data.length) ++ w, ?_⟩, h3⟩
          rw [h2]; simp [List.append_assoc]
        · right
          refine ⟨h1, ⟨data.take (min r.bytes.toNat data.length) ++ w, ?_⟩, h3⟩
          rw [h2]; simp [List.append_assoc]
      · rw [if_neg hd] at h
        simp only [Option.some.injEq, Prod.mk.injEq] at h
        obtain ⟨h1, h2, h3, -⟩ := h
        left
        exact ⟨h1.symm, ⟨_, h2.symm⟩, h3.symm⟩

/-- Whatever the operating system answers, a drain that comes to an end leaves
an empty outbound queue, changes nothing in the connection but the bytes sent
and the socket, and pushes only `LostConnection` for this connection or the
`Notify` messages of queued messages. -/
theorem drain_cases (msgs : List Message) (c : Connection) (q : List Message)
    (os : List SendResult) (c1 : Connection) (q1 : List Message) (os1 : List SendResult)
    (h : c.drain q os msgs = some (c1, q1, os1)) :
    (∃ w s, c1 = { c with sent := c.sent ++ w, m_socket := s, m_outgoing := [] }) ∧
    ∃ new, q1 = q ++ new ∧
      ∀ m ∈ new, m = ⟨c.m_handle, 1, [MessageId.LostConnection], Internal.None⟩ ∨
        ∃ x ∈ msgs, m = notifyMessage x := by
  induction msgs generalizing c q os with
  | nil =>
    simp only [Connection.drain, Option.some.injEq, Prod.mk.injEq] at h
    obtain ⟨h1, h2, -⟩ := h
    refine ⟨⟨[], c.m_socket, ?_⟩, [], ?_, ?_⟩
    · rw [← h1]; simp
    · rw [← h2]; simp
    · simp
  | cons m rest ih =>
    rw [Connection.drain] at h
    by_cases hdis : m.internal = Internal.Disconnect
    · have hne : m.internal ≠ Internal.None := by rw [hdis]; decide
      have hpi : c.processInternal q m.internal m
          = (false, { c with m_socket := false, m_outgoing := [] }, q) := by
        simp [Connection.processInternal, hdis, Connection.disconnect]
      rw [if_pos ⟨hne, by rw [hpi]⟩, hpi] at h
      simp only [Option.some.injEq, Prod.mk.injEq] at h
      obtain ⟨h1, h2, -⟩ := h
      refine ⟨⟨[], false, ?_⟩, [], ?_, ?_⟩
      · rw [← h1]; simp
      · rw [← h2]; simp
      · simp
    · have hpi : c.processInternal q m.internal m
          = (true, c, if m.internal = Internal.Notify then q ++ [notifyMessage m] else q) := by
        simp only [Connection.processInternal, hdis, if_false]
        split <;> rfl
      have hcond : ¬ (m.internal ≠ Internal.None
          ∧ (c.processInternal q m.internal m).1 = false) := by
        rw [hpi]; simp
      rw [if_neg hcond] at h
      simp only [hpi, ite_self] at h
      generalize hq0 : (if m.internal ≠ Internal.None
          then (if m.internal = Internal.Notify then q ++ [notifyMessage m] else q) else q)
        = q0 at h
      have hq0' : ∃ n0, q0 = q ++ n0 ∧ ∀ x ∈ n0, x = notifyMessage m := by
        rw [← hq0]
        by_cases h1 : m.internal ≠ Internal.None
        · rw [if_pos h1]
          by_cases h2 : m.internal = Internal.Notify
          · rw [if_pos h2]; exact ⟨[notifyMessage m], rfl, by simp⟩
          · rw [if_neg h2]; exact ⟨[], by simp, by simp⟩
        · rw [if_neg h1]; exact ⟨[], by simp, by simp⟩
      obtain ⟨n0, hn0, hn0'⟩ := hq0'
      cases hs : c.sendData q0 (wireBytes c.m_raw m) os with
      | none => rw [hs] at h; simp at h
      | some res =>
        obtain ⟨b, c2, q2, os2⟩ := res
        rw [hs] at h
        rcases sendData_cases os c q0 _ b c2 q2 os2 hs with
          ⟨hb, ⟨w, hc2⟩, hq2⟩ | ⟨hb, ⟨w, hc2⟩, hq2⟩
        · subst hb
          simp only at h
          obtain ⟨⟨w2, s, h1⟩, new, h2, h3⟩ := ih _ _ _ h
          refine ⟨⟨w ++ w2, s, ?_⟩, n0 ++ new, ?_, ?_⟩
          · rw [h1, hc2]; simp [List.append_assoc]
          · rw [h2, hq2, hn0, List.append_assoc]
          · intro x hx
            rcases List.mem_append.mp hx with hx | hx
            · right; exact ⟨m, List.mem_cons_self _ _, hn0' x hx⟩
            · rcases h3 x hx with h4 | ⟨y, hy, h4⟩
              · left; rw [h4, hc2]
              · right; exact ⟨y, List.mem_cons_of_mem _ hy, h4⟩
        · subst hb
          simp only [Option.some.injEq, Prod.mk.injEq] at h
          obtain ⟨h1, h2, -⟩ := h
          refine ⟨⟨w, false, ?_⟩, n0 ++ [⟨c.m_handle, 1, [MessageId.LostConnection],
            Internal.None⟩], ?_, ?_⟩
          · rw [← h1, hc2]
          · rw [← h2, hq2, hn0, List.append_assoc]
          · intro x hx
            rcases List.mem_append.mp hx with hx | hx
            · right; exact ⟨m, List.mem_cons_self _ _, hn0' x hx⟩
            · left; simpa using hx

/-- Every message pushed by the framed loop carries the handle of the
connection. -/
theorem reassembleFramed_pushed_handle (c : Connection) (q : List Message) :
    ∃ new, (reassembleFramed c q).2 = q ++ new ∧ ∀ m ∈ new, m.handle = c.m_handle := by
  induction c, q using reassembleFramed.induct with
  | case1 c q h0 hlen h2 =>
    rw [reassembleFramed_short c q hlen (by simp [maxMessageSize] at h2; omega)]
    exact ⟨[], by simp, by simp⟩
  | case2 c q h0 hlen h2 ih =>
    rw [reassembleFramed_header c q hlen (by simp [maxMessageSize] at h2; omega)]
    exact ih
  | case3 c q h0 hlen hgt =>
    rw [reassembleFramed_wait c q hlen hgt]
    exact ⟨[], by simp, by simp⟩
  | case4 c q h0 hlen hgt ih =>
    rw [reassembleFramed_body c q hlen (by simp at h0; omega) (by omega)]
    obtain ⟨new, h1, h2⟩ := ih
    refine ⟨framedMessage c :: new, by rw [h1]; simp, ?_⟩
    intro m hm
    rcases List.mem_cons.mp hm with rfl | hm
    · rfl
    · exact h2 m hm
  | case5 c q h0 =>
    have : c.m_incoming = [] := by
      simp [maxMessageSize] at h0
      exact h0
    rw [reassembleFramed_empty c q this]
    exact ⟨[], by simp, by simp⟩

/-- Every message pushed by `reassembleMessage` goes behind the queue, carries
the handle of the connection, and starts with `RawData` or with an id that is
at least `UserDefined`. -/
theorem reassembleMessage_pushed_handle (c : Connection) (q : List Message) :
    ∃ new, (c.reassembleMessage q).2 = q ++ new ∧
      ∀ m ∈ new, m.handle = c.m_handle ∧
        ∀ b, m.data.head? = some b → MessageId.RawData ≤ b := by
  obtain ⟨new, h1, h2⟩ := reassembleMessage_pushed c q
  refine ⟨new, h1, fun m hm => ⟨?_, h2 m hm⟩⟩
  unfold Connection.reassembleMessage at h1
  by_cases hraw : c.m_raw = true
  · rw [if_pos hraw] at h1
    unfold reassembleRaw at h1
    dsimp only at h1
    split at h1
    · have := List.append_cancel_left h1
      rw [← this] at hm
      simp only [List.mem_singleton] at hm
      rw [hm]
    · have : new = [] := by
        have := List.append_cancel_left (h1.symm.trans (List.append_nil q).symm)
        exact this
      rw [this] at hm
      simp at hm
  · rw [if_neg hraw] at h1
    obtain ⟨new2, h3, h4⟩ := reassembleFramed_pushed_handle c q
    have : new = new2 := List.append_cancel_left (h1.symm.trans h3)
    rw [this] at hm
    exact h4 m hm

/-- The part of `update` after the receive: what it may change and push. -/
theorem updateTail_cases (c : Connection) (q : List Message) (os : List SendResult)
    (r : Connection × List Message × List SendResult)
    (h : c.updateTail q os = some r) :
    r.1.m_handle = c.m_handle ∧ r.1.m_denseIndex = c.m_denseIndex ∧ r.1.m_raw = c.m_raw ∧
    r.1.m_outgoing = [] ∧
    ∃ new, r.2.1 = q ++ new ∧
      ∀ m ∈ new, m = ⟨c.m_handle, 1, [MessageId.LostConnection], Internal.None⟩ ∨
        (m.handle = c.m_handle ∧ ∀ b, m.data.head? = some b → MessageId.RawData ≤ b) ∨
        ∃ x ∈ c.m_outgoing, m = notifyMessage x := by
  unfold Connection.updateTail at h
  obtain ⟨new1, hn1, hn2⟩ := reassembleMessage_pushed_handle c q
  have hf := reassembleMessage_fields c q
  generalize c.reassembleMessage q = re at h hn1 hf
  have hh : re.1.m_handle = c.m_handle := by rw [hf]
  have hd : re.1.m_denseIndex = c.m_denseIndex := by rw [hf]
  have hr : re.1.m_raw = c.m_raw := by rw [hf]
  have ho : re.1.m_outgoing = c.m_outgoing := by rw [hf]
  obtain ⟨r1, r2, r3⟩ := r
  obtain ⟨⟨w, s, h1⟩, new2, h2, h3⟩ := drain_cases _ _ _ _ _ _ _ h
  refine ⟨by simp only [h1]; exact hh, by simp only [h1]; exact hd,
    by simp only [h1]; exact hr, by simp only [h1], new1 ++ new2, ?_, ?_⟩
  · simp only [h2, hn1, List.append_assoc]
  · intro m hm
    rcases List.mem_append.mp hm with hm | hm
    · right; left; exact hn2 m hm
    · rcases h3 m hm with h4 | ⟨x, hx, h4⟩
      · left; rw [h4, hh]
      · right; right; exact ⟨x, by rw [← ho]; exact hx, h4⟩

/-- What one `Connection::update` may change in the connection and push to the
inbound queue. -/
theorem update_cases (c : Connection) (q : List Message) (t : Tick)
    (r : Connection × List Message) (h : c.update q t = some r) :
    r.1.m_handle = c.m_handle ∧ r.1.m_denseIndex = c.m_denseIndex ∧ r.1.m_raw = c.m_raw ∧
    (∀ m ∈ r.1.m_outgoing, m ∈ c.m_outgoing) ∧
    ∃ new, r.2 = q ++ new ∧
      ∀ m ∈ new,
        (m = ⟨c.m_handle, 1, [MessageId.ConnectFailed], Internal.None⟩ ∧
          c.m_connected = false ∧ t.now > c.m_connectTimeout) ∨
        m = ⟨c.m_handle, 1, [MessageId.LostConnection], Internal.None⟩ ∨
        (m.handle = c.m_handle ∧ ∀ b, m.data.head? = some b → MessageId.RawData ≤ b) ∨
        ∃ x ∈ c.m_outgoing, m = notifyMessage x := by
  unfold Connection.update at h
  by_cases hsock : c.m_socket = true
  swap
  · rw [if_neg hsock] at h
    simp only [Option.some.injEq] at h
    rw [← h]
    exact ⟨rfl, rfl, rfl, fun m hm => hm, [], by simp, by simp⟩
  rw [if_pos hsock] at h
  have huc : (c.updateConnect q t.now t.select = (true, { c with m_connected := true }, q)) ∨
      (c.updateConnect q t.now t.select
          = (false, { c with m_socket := false, m_outgoing := [] },
              q ++ [⟨c.m_handle, 1, [MessageId.ConnectFailed], Internal.None⟩]) ∧
        c.m_connected = false ∧ t.now > c.m_connectTimeout) ∨
      (c.updateConnect q t.now t.select = (false, { c with m_connected := false }, q)) := by
    unfold Connection.updateConnect
    by_cases hc : c.m_connected = true
    · left
      rw [if_pos hc]
      congr 2
      rw [← hc]
    · rw [if_neg hc]
      by_cases hto : t.now > c.m_connectTimeout
      · right; left
        rw [if_pos hto]
        simp only [Bool.not_eq_true] at hc
        exact ⟨by simp [Connection.disconnect, ctxPush], hc, hto⟩
      · rw [if_neg hto]
        by_cases hs : 0 < t.select
        · left; simp [hs]
        · right; right; simp [hs]
  rcases huc with huc | ⟨huc, hc, hto⟩ | huc
  · rw [huc] at h
    simp only [if_true] at h
    cases hrecv : t.recv with
    | received b bs =>
      rw [hrecv] at h
      simp only [Option.map_eq_some'] at h
      obtain ⟨r1, hr1, hr2⟩ := h
      obtain ⟨h1, h2, h3, h4, new, h5, h6⟩ := updateTail_cases _ _ _ _ hr1
      rw [← hr2]
      refine ⟨h1, h2, h3, by simp only [h4]; simp, new, h5, ?_⟩
      intro m hm
      rcases h6 m hm with h7 | h7 | h7
      · right; left; exact h7
      · right; right; left; exact h7
      · right; right; right; exact h7
    | nothing wouldBlock =>
      rw [hrecv] at h
      cases wouldBlock with
      | false =>
        simp only [if_true, Option.some.injEq] at h
        rw [← h]
        refine ⟨rfl, rfl, rfl, by simp [Connection.disconnect],
          [⟨c.m_handle, 1, [MessageId.LostConnection], Internal.None⟩],
          by simp [Connection.disconnect, ctxPush], ?_⟩
        intro m hm
        right; left; simpa using hm
      | true =>
        simp only [Bool.true_eq_false, if_false, Option.map_eq_some'] at h
        obtain ⟨r1, hr1, hr2⟩ := h
        obtain ⟨h1, h2, h3, h4, new, h5, h6⟩ := updateTail_cases _ _ _ _ hr1
        rw [← hr2]
        refine ⟨h1, h2, h3, by simp only [h4]; simp, new, h5, ?_⟩
        intro m hm
        rcases h6 m hm with h7 | h7 | h7
        · right; left; exact h7
        · right; right; left; exact h7
        · right; right; right; exact h7
  · rw [huc] at h
    simp only [Bool.false_eq_true, if_false, Option.some.injEq] at h
    rw [← h]
    refine ⟨rfl, rfl, rfl, by simp, [⟨c.m_handle, 1, [MessageId.ConnectFailed], Internal.None⟩],
      rfl, ?_⟩
    intro m hm
    left
    exact ⟨by simpa using hm, hc, hto⟩
  · rw [huc] at h
    simp only [Bool.false_eq_true, if_false, Option.some.injEq] at h
    rw [← h]
    exact ⟨rfl, rfl, rfl, fun m hm => hm, [], by simp, by simp⟩

/-! ## C12: raw mode delivery -/

/-- C12: on a raw connection with `a` unread bytes in the ring,
`reassembleMessage` pushes nothing and changes nothing when `a = 0`; otherwise
it pushes exactly one message with the connection's handle, size
`min(a, maxMessageSize-1) + 1`, first byte `MessageId::RawData` followed by the
first `min(a, maxMessageSize-1)` unread bytes in order and unmodified, and
removes exactly those bytes from the ring. -/
theorem raw_delivery (c : Connection) (q : List Message) (hraw : c.m_raw = true) :
    (c.m_incoming.length = 0 → c.reassembleMessage q = (c, q)) ∧
    (0 < c.m_incoming.length →
      c.reassembleMessage q =
        ({ c with
            m_incoming := c.m_incoming.drop (min c.m_incoming.length (maxMessageSize - 1)) },
          q ++ [⟨c.m_handle, min c.m_incoming.length (maxMessageSize - 1) + 1,
            MessageId.RawData ::
              c.m_incoming.take (min c.m_incoming.length (maxMessageSize - 1)),
            Internal.None⟩]) ∧
      (c.m_incoming.take (min c.m_incoming.length (maxMessageSize - 1))).length
        = min c.m_incoming.length (maxMessageSize - 1)) := by
  unfold Connection.reassembleMessage
  rw [if_pos hraw]
  unfold reassembleRaw
  dsimp only
  constructor
  · intro h0
    rw [if_neg (by rw [h0]; simp)]
  · intro h0
    have hpos : 0 < min c.m_incoming.length (maxMessageSize - 1) := by
      simp only [maxMessageSize]; omega
    rw [if_pos hpos]
    have hsz : (min c.m_incoming.length (maxMessageSize - 1) + 1) % 2 ^ 16
        = min c.m_incoming.length (maxMessageSize - 1) + 1 := by
      simp only [maxMessageSize]; omega
    rw [hsz]
    exact ⟨rfl, by simp⟩

/-- Witness of C12: the three bytes `"abc"` become one `RawData` message of
size 4 and the ring is left empty. -/
theorem raw_delivery_witness :
    rawReceiver.m_raw = true ∧ 0 < rawReceiver.m_incoming.length ∧
    rawReceiver.reassembleMessage []
      = ({ rawReceiver with m_incoming := [] },
          [⟨5, 4, [MessageId.RawData, 97, 98, 99], Internal.None⟩]) :=
  ⟨rfl, by decide, ((raw_delivery rawReceiver [] rfl).2 (by decide)).1⟩

/-! ## C14: connect timeout -/

/-- C14: for a connection with a valid socket that is not yet connected, an
update tick with `now <= m_connectTimeout` pushes no `ConnectFailed` (and, when
`select` reports nothing, leaves connection and queue as they are); an update
tick with `now > m_connectTimeout` pushes exactly one `ConnectFailed` message
(size 1) carrying the connection's handle, invalidates the socket and empties
the outbound queue; and every later update tick on that connection leaves the
inbound queue as it is. -/
theorem connect_timeout_once (c : Connection) (q : List Message)
    (hsock : c.m_socket = true) (hconn : c.m_connected = false) :
    (∀ t r, t.now ≤ c.m_connectTimeout → c.update q t = some r →
      ∃ new, r.2 = q ++ new ∧ ∀ m ∈ new, m.data.head? ≠ some MessageId.ConnectFailed) ∧
    (∀ t, t.now ≤ c.m_connectTimeout → t.select ≤ 0 → c.update q t = some (c, q)) ∧
    (∀ t, t.now > c.m_connectTimeout →
      c.update q t =
        some ({ c with m_socket := false, m_outgoing := [] },
          q ++ [⟨c.m_handle, 1, [MessageId.ConnectFailed], Internal.None⟩])) ∧
    (∀ q2 t2, Connection.update { c with m_socket := false, m_outgoing := [] } q2 t2
      = some ({ c with m_socket := false, m_outgoing := [] }, q2)) := by
  refine ⟨?_, ?_, ?_, ?_⟩
  · intro t r hnow hrun
    obtain ⟨-, -, -, -, new, h1, h2⟩ := update_cases c q t r hrun
    refine ⟨new, h1, ?_⟩
    intro m hm e
    rcases h2 m hm with ⟨-, -, hto⟩ | h3 | ⟨-, h3⟩ | ⟨x, -, h3⟩
    · omega
    · rw [h3] at e
      simp [MessageId.LostConnection, MessageId.ConnectFailed] at e
    · have := h3 _ e
      simp [MessageId.RawData, MessageId.ConnectFailed] at this
    · rw [h3] at e
      simp [notifyMessage, MessageId.Notify, MessageId.ConnectFailed] at e
  · intro t hnow hsel
    unfold Connection.update
    rw [if_pos hsock]
    have huc : c.updateConnect q t.now t.select = (false, c, q) := by
      unfold Connection.updateConnect
      rw [if_neg (by rw [hconn]; simp), if_neg (by omega)]
      have hs : ¬ (0 < t.select) := by omega
      simp only [hs, decide_False]
      congr 2
      rw [← hconn]
    rw [huc]
    simp
  · intro t hnow
    unfold Connection.update
    rw [if_pos hsock]
    have huc : c.updateConnect q t.now t.select
        = (false, { c with m_socket := false, m_outgoing := [] },
            q ++ [⟨c.m_handle, 1, [MessageId.ConnectFailed], Internal.None⟩]) := by
      unfold Connection.updateConnect
      rw [if_neg (by rw [hconn]; simp), if_pos hnow]
      simp [Connection.disconnect, ctxPush]
    rw [huc]
    simp
  · intro q2 t2
    unfold Connection.update
    simp

/-- Witness of C14: a tick after the deadline on `connectingConnection`. -/
theorem connect_timeout_once_witness :
    connectingConnection.m_socket = true ∧ connectingConnection.m_connected = false ∧
    lateTick.now > connectingConnection.m_connectTimeout ∧
    connectingConnection.update [] lateTick
      = some ({ connectingConnection with m_socket := false, m_outgoing := [] },
          [⟨7, 1, [MessageId.ConnectFailed], Internal.None⟩]) :=
  ⟨rfl, rfl, by decide,
    (connect_timeout_once connectingConnection [] rfl rfl).2.2.1 lateTick (by decide)⟩

/-! ## C15: lost connection -/

/-- C15: in an update tick of an established connection (valid socket,
connected) in which the socket read returns a value below one and the last
error is not would-block, `update` pushes exactly one `LostConnection` message
(size 1) with the connection's handle, empties the outbound queue and
invalidates the socket; the ring, `m_len` and the bytes sent stay as they were
(no reassembly, no socket write); and every later update tick on that
connection leaves the inbound queue as it is. -/
theorem lost_connection (c : Connection) (q : List Message) (t : Tick)
    (hsock : c.m_socket = true) (hconn : c.m_connected = true)
    (hrecv : t.recv = RecvResult.nothing false) :
    c.update q t =
      some ({ c with m_socket := false, m_outgoing := [] },
        q ++ [⟨c.m_handle, 1, [MessageId.LostConnection], Internal.None⟩]) ∧
    (∀ q2 t2, Connection.update { c with m_socket := false, m_outgoing := [] } q2 t2
      = some ({ c with m_socket := false, m_outgoing := [] }, q2)) := by
  constructor
  · unfold Connection.update
    rw [if_pos hsock]
    have huc : c.updateConnect q t.now t.select = (true, c, q) := by
      unfold Connection.updateConnect
      rw [if_pos hconn]
    rw [huc, hrecv]
    simp [Connection.disconnect, ctxPush]
  · intro q2 t2
    unfold Connection.update
    simp

/-- Witness of C15: the peer closes an established connection. -/
theorem lost_connection_witness :
    exampleSender.m_socket = true ∧ exampleSender.m_connected = true ∧
    lostTick.recv = RecvResult.nothing false ∧
    exampleSender.update [] lostTick
      = some ({ exampleSender with m_socket := false, m_outgoing := [] },
          [⟨1, 1, [MessageId.LostConnection], Internal.None⟩]) :=
  ⟨rfl, rfl, rfl, (lost_connection exampleSender [] lostTick rfl rfl rfl).1⟩

/-! ## C13: wire encoding and order of the drain -/

/-- With answers that each accept at least one byte, the `send` loop comes to
an end with `true` after at most `max 1 (length of the data)` answers. -/
theorem sendData_total (os : List SendResult) (c : Connection) (q : List Message)
    (data : List Nat) (hos : ∀ r ∈ os, 1 ≤ r.bytes) (hlen : max 1 data.length ≤ os.length) :
    ∃ c1 os1, c.sendData q data os = some (true, c1, q, os1) ∧
      (∀ r ∈ os1, r ∈ os) ∧ os.length ≤ os1.length + max 1 data.length := by
  induction os generalizing c data with
  | nil => simp at hlen
  | cons r os ih =>
    have hr := hos r (List.mem_cons_self _ _)
    rw [Connection.sendData, if_neg (by omega)]
    by_cases hd : 0 < (data.drop (min r.bytes.toNat data.length)).length
    · rw [if_pos hd]
      have hdl : (data.drop (min r.bytes.toNat data.length)).length
          = data.length - min r.bytes.toNat data.length := by simp
      have h1 : 1 ≤ r.bytes.toNat := by omega
      simp only [List.length_cons] at hlen
      obtain ⟨c1, os1, h2, h3, h4⟩ := ih _ (data.drop (min r.bytes.toNat data.length))
        (fun x hx => hos x (List.mem_cons_of_mem _ hx)) (by omega)
      refine ⟨c1, os1, h2, fun x hx => List.mem_cons_of_mem _ (h3 x hx), ?_⟩
      simp only [List.length_cons]
      omega
    · rw [if_neg hd]
      refine ⟨_, os, rfl, fun x hx => List.mem_cons_of_mem _ hx, ?_⟩
      simp only [List.length_cons]
      omega

/-- With answers that each accept at least one byte and enough of them, the
drain of a queue of ordinary messages comes to an end. -/
theorem drain_total (msgs : List Message) (c : Connection) (q : List Message)
    (os : List SendResult) (hnone : ∀ m ∈ msgs, m.internal = Internal.None)
    (hos : ∀ r ∈ os, 1 ≤ r.bytes)
    (hlen : (msgs.map (fun m => max 1 (wireBytes c.m_raw m).length)).sum ≤ os.length) :
    ∃ res, c.drain q os msgs = some res := by
  induction msgs generalizing c q os with
  | nil => exact ⟨_, rfl⟩
  | cons m rest ih =>
    have hm := hnone m (List.mem_cons_self _ _)
    simp only [List.map_cons, List.sum_cons] at hlen
    rw [Connection.drain]
    simp only [hm, ne_eq, not_true_eq_false, false_and, if_false]
    obtain ⟨c1, os1, h1, h2, h3⟩ := sendData_total os c q (wireBytes c.m_raw m) hos (by omega)
    rw [h1]
    simp only
    have hraw : c1.m_raw = c.m_raw := by
      rcases sendData_cases os c q _ true c1 q os1 h1 with ⟨-, ⟨w, hw⟩, -⟩ | ⟨hb, -, -⟩
      · rw [hw]
      · simp at hb
    exact ih _ _ _ (fun x hx => hnone x (List.mem_cons_of_mem _ hx))
      (fun x hx => hos x (h2 x hx)) (by simp only [hraw]; omega)

/-- C13: for an outbound queue `msgs` of well-formed messages (payload of
`size` bytes, 16-bit size) with internal opcode `None`, when no write meets a
hard error the drain, once it returns, has written to the socket exactly
`enc(m1) ++ ... ++ enc(mn)` in queue order, has left the queue empty and has
pushed nothing, where `enc(m)` is the payload alone on a raw connection and
`[size mod 256, size div 256]` followed by the payload (`size + 2` bytes) on a
framed one; and when every write accepts at least one byte and the operating
system answers often enough, the drain does return. -/
theorem drain_wire_encoding (msgs : List Message) (c : Connection) (q : List Message)
    (os : List SendResult)
    (hnone : ∀ m ∈ msgs, m.internal = Internal.None)
    (hwf : ∀ m ∈ msgs, m.data.length = m.size ∧ m.size < 2 ^ 16) :
    (∀ c1 q1 os1, (∀ r ∈ os, ¬ (r.bytes = -1 ∧ r.wouldBlock = false)) →
      c.drain q os msgs = some (c1, q1, os1) →
      c1.sent = c.sent ++
        (msgs.map (fun m =>
          if c.m_raw then m.data else [m.size % 256, m.size / 256] ++ m.data)).flatten ∧
      (∀ m ∈ msgs, (c.m_raw = false →
        ([m.size % 256, m.size / 256] ++ m.data).length = m.size + 2) ∧
        (c.m_raw = true → m.data.length = m.size)) ∧
      c1.m_outgoing = [] ∧ c1.m_socket = c.m_socket ∧ q1 = q) ∧
    ((∀ r ∈ os, 1 ≤ r.bytes) →
      (msgs.map (fun m => max 1 (wireBytes c.m_raw m).length)).sum ≤ os.length →
      ∃ res, c.drain q os msgs = some res) := by
  constructor
  · intro c1 q1 os1 hos hrun
    obtain ⟨h1, h2, -⟩ := drain_plain msgs c q os c1 q1 os1 hnone hos hrun
    have henc : msgs.map (wireBytes c.m_raw)
        = msgs.map (fun m =>
          if c.m_raw then m.data else [m.size % 256, m.size / 256] ++ m.data) := by
      apply List.map_congr_left
      intro m hm
      obtain ⟨hl, hs⟩ := hwf m hm
      unfold wireBytes
      by_cases hraw : c.m_raw = true
      · rw [if_pos hraw, if_pos hraw, ← hl, List.take_length]
      · rw [if_neg hraw, if_neg hraw]
        have h256 : m.size / 256 % 256 = m.size / 256 := by omega
        simp only [writeU16, h256]
        rw [List.take_of_length_le]
        simp only [List.length_append, List.length_cons, List.length_nil, hl]
        omega
    refine ⟨by rw [h1, henc], ?_, by rw [h1], by rw [h1], h2⟩
    intro m hm
    obtain ⟨hl, -⟩ := hwf m hm
    refine ⟨fun _ => ?_, fun _ => hl⟩
    simp only [List.length_append, List.length_cons, List.length_nil, hl]
    omega
  · intro hos hlen
    exact drain_total msgs c q os hnone hos hlen

/-- Witness of C13: the two messages of `exampleSender`, written with a
partial write and a would-block on the way. -/
theorem drain_wire_encoding_witness :
    (∀ m ∈ exampleSender.m_outgoing, m.internal = Internal.None) ∧
    (∀ m ∈ exampleSender.m_outgoing, m.data.length = m.size ∧ m.size < 2 ^ 16) ∧
    exampleSender.drain [] exampleSends exampleSender.m_outgoing
      = some ({ exampleSender with sent := [3, 0, 128, 104, 105, 2, 0, 0, 120]
                                   m_outgoing := [] }, [], [⟨7, false⟩]) ∧
    ({ exampleSender with sent := [3, 0, 128, 104, 105, 2, 0, 0, 120]
                          m_outgoing := [] } : Connection).sent
      = [] ++ [[3, 0, 128, 104, 105], [2, 0, 0, 120]].flatten :=
  ⟨by decide, by decide, by decide,
    ((drain_wire_encoding exampleSender.m_outgoing exampleSender [] exampleSends
      (by decide) (by decide)).1
      { exampleSender with sent := [3, 0, 128, 104, 105, 2, 0, 0, 120], m_outgoing := [] }
      [] [⟨7, false⟩] (by decide) (by decide)).1⟩

/-! ## C17: certificate and key of a listener -/

/-- C17: for every `listen` call (pool not exhausted) in which exactly one of
`_cert` and `_key` is supplied, whatever the operating system would answer,
exactly one `ListenFailed` message (size 1) carrying the new listener's handle
is pushed to the inbound queue, and the new listener is left with an invalid
socket (no socket is opened). -/
theorem listen_cert_key_mismatch (ctx : Context) (raw : Bool) (e : ListenEnv)
    (handle : Nat) (free : List Nat)
    (hfree : ctx.m_listenSocketsFree = handle :: free)
    (hlt : handle < ctx.m_listenSockets.length)
    (hx : e.cert ≠ e.key) :
    ∃ ctx1 l, ctx.listen raw e = some (handle, ctx1) ∧
      ctx1.m_incoming = ctx.m_incoming ++
        [⟨handle, 1, [MessageId.ListenFailed], Internal.None⟩] ∧
      ctx1.getListenSocket handle = some l ∧ l.m_socket = false ∧ l.m_handle = handle := by
  have hck : e.cert = true ∨ e.key = true := by
    cases hc : e.cert <;> cases hk : e.key <;> simp_all
  have hl : (ListenSocket.new ctx.m_numListenSockets).listen ctx.m_incoming handle raw e
      = ({ ListenSocket.new ctx.m_numListenSockets with m_handle := handle, m_raw := raw },
          ctxPush ctx.m_incoming handle MessageId.ListenFailed) := by
    unfold ListenSocket.listen
    rw [if_pos ⟨rfl, hck⟩]
  unfold Context.listen
  rw [hfree]
  simp only [hl]
  refine ⟨_, { ListenSocket.new ctx.m_numListenSockets with m_handle := handle, m_raw := raw },
    rfl, rfl, ?_, rfl, rfl⟩
  simp only [Context.getListenSocket]
  exact getD_set_self _ _ _ _ hlt

/-- Witness of C17: a certificate without a key on a fresh context. -/
theorem listen_cert_key_mismatch_witness :
    certOnlyListen.cert ≠ certOnlyListen.key ∧
    ∃ ctx1 l, (Context.init 1 2).listen false certOnlyListen = some (0, ctx1) ∧
      ctx1.m_incoming = (Context.init 1 2).m_incoming ++
        [⟨0, 1, [MessageId.ListenFailed], Internal.None⟩] ∧
      ctx1.getListenSocket 0 = some l ∧ l.m_socket = false ∧ l.m_handle = 0 :=
  ⟨by decide,
    listen_cert_key_mismatch (Context.init 1 2) false certOnlyListen 0 [1] rfl
      (by decide) (by decide)⟩

/-! ## C18: the IncomingConnection message -/

/-- C18: for every accepted socket (pool not exhausted, 16-bit listener handle
and port, 32-bit address), `Context::accept` through `Connection::accept`
pushes exactly one inbound message with the new connection's handle, size 9,
byte 0 `MessageId::IncomingConnection`, bytes 1..2 the listener handle, bytes
3..6 the host-order IPv4 address and bytes 7..8 the port (each little-endian);
at that moment the new connection has received nothing (empty ring), and every
later update of that connection only appends to the inbound queue, so whatever
is reassembled from its data is queued behind that message. -/
theorem incoming_connection_payload (ctx : Context) (listenHandle ip port : Nat)
    (raw : Bool) (now freq : Nat) (handle : Nat) (free : List Nat)
    (hfree : ctx.m_connectionsFree = handle :: free)
    (hlt : handle < ctx.m_connections.length)
    (hl : listenHandle < 2 ^ 16) (hip : ip < 2 ^ 32) (hport : port < 2 ^ 16) :
    ∃ ctx1 c1, ctx.accept listenHandle ip port raw now freq = some (handle, ctx1) ∧
      ctx1.m_incoming = ctx.m_incoming ++
        [⟨handle, 9,
          [MessageId.IncomingConnection, listenHandle % 256, listenHandle / 256,
            ip % 256, ip / 256 % 256, ip / 65536 % 256, ip / 16777216,
            port % 256, port / 256], Internal.None⟩] ∧
      listenHandle % 256 + 256 * (listenHandle / 256) = listenHandle ∧
      ip % 256 + 256 * (ip / 256 % 256) + 65536 * (ip / 65536 % 256)
        + 16777216 * (ip / 16777216) = ip ∧
      port % 256 + 256 * (port / 256) = port ∧
      ctx1.getConnection handle = some c1 ∧ c1.m_handle = handle ∧ c1.m_socket = true ∧
      c1.m_incoming = [] ∧ c1.m_len = -1 ∧
      (∀ q2 t r, c1.update (ctx1.m_incoming ++ q2) t = some r →
        ∃ new, r.2 = ctx1.m_incoming ++ q2 ++ new) := by
  unfold Context.accept Context.allocConnection
  rw [hfree]
  simp only [Context.getConnection, getD_set_self _ _ _ _ hlt]
  refine ⟨_, ((Connection.new ctx.m_numConnections).accept ctx.m_incoming handle listenHandle
    ip port raw now freq).1, rfl, ?_, by omega, by omega, by omega, ?_, rfl, rfl, rfl, rfl, ?_⟩
  · simp only [Connection.accept, incomingConnectionMessage, writeU16, writeU32]
    have h1 : listenHandle / 256 % 256 = listenHandle / 256 := by omega
    have h2 : ip / 16777216 % 256 = ip / 16777216 := by omega
    have h3 : port / 256 % 256 = port / 256 := by omega
    simp [h1, h2, h3]
  · exact getD_set_self _ _ _ _ (by simpa using hlt)
  · intro q2 t r hrun
    obtain ⟨-, -, -, -, new, hnew, -⟩ := update_cases _ _ _ _ hrun
    exact ⟨new, hnew⟩

/-- Witness of C18: a peer at 127.0.0.1:4000 accepted by listener 0 on a fresh
context. -/
theorem incoming_connection_payload_witness :
    (Context.init 2 1).m_connectionsFree = 0 :: [1] ∧
    ∃ ctx1 c1, (Context.init 2 1).accept 0 2130706433 4000 false 11 1 = some (0, ctx1) ∧
      ctx1.m_incoming = (Context.init 2 1).m_incoming ++
        [⟨0, 9,
          [MessageId.IncomingConnection, 0 % 256, 0 / 256,
            2130706433 % 256, 2130706433 / 256 % 256, 2130706433 / 65536 % 256,
            2130706433 / 16777216, 4000 % 256, 4000 / 256], Internal.None⟩] ∧
      0 % 256 + 256 * (0 / 256) = 0 ∧
      2130706433 % 256 + 256 * (2130706433 / 256 % 256) + 65536 * (2130706433 / 65536 % 256)
        + 16777216 * (2130706433 / 16777216) = 2130706433 ∧
      4000 % 256 + 256 * (4000 / 256) = 4000 ∧
      ctx1.getConnection 0 = some c1 ∧ c1.m_handle = 0 ∧ c1.m_socket = true ∧
      c1.m_incoming = [] ∧ c1.m_len = -1 ∧
      (∀ q2 t r, c1.update (ctx1.m_incoming ++ q2) t = some r →
        ∃ new, r.2 = ctx1.m_incoming ++ q2 ++ new) :=
  ⟨rfl,
    incoming_connection_payload (Context.init 2 1) 0 2130706433 4000 false 11 1 0 [1] rfl
      (by decide) (by decide) (by decide) (by decide)⟩

/-! ## C19: the inbound queue -/

theorem pops_nil (k : Nat) :
    MessageQueue.pops k [] = (List.replicate k none, []) := by
  induction k with
  | zero => rfl
  | succ k ih =>
    simp only [MessageQueue.pops, MessageQueue.pop, ih, List.replicate_succ]

theorem pops_all (q : List Message) (k : Nat) :
    MessageQueue.pops (q.length + k) q = (q.map some ++ List.replicate k none, []) := by
  induction q with
  | nil => simpa using pops_nil k
  | cons m rest ih =>
    have : (m :: rest).length + k = (rest.length + k) + 1 := by
      simp only [List.length_cons]; omega
    rw [this]
    simp only [MessageQueue.pops, MessageQueue.pop, ih, List.map_cons, List.cons_append]

theorem foldl_push (ms q0 : List Message) :
    ms.foldl MessageQueue.push q0 = q0 ++ ms := by
  induction ms generalizing q0 with
  | nil => simp
  | cons m ms ih => simp [List.foldl_cons, ih, MessageQueue.push]

/-- The two loops of `recv` together with the `pop`. -/
theorem recv_eq_poll_pop (ctx : Context) (accepts : Nat → Option Accepted)
    (ticks : Nat → Tick) :
    ctx.recv accepts ticks = (ctx.poll accepts ticks).map (fun s => s.pop) := by
  unfold Context.recv Context.poll
  cases (List.range ctx.m_numListenSockets).foldlM
      (fun (s : Context) ii => s.updateListenSocket (s.m_listenSocketIndex.getD ii 0)
        (accepts ii)) ctx with
  | none => rfl
  | some ctx1 => rfl

/-- C19: the inbound queue is a FIFO. After any sequence of pushes `ms` onto a
queue `q0`, successive pops return the messages of `q0` and then those of `ms`
in push order and after that null for ever; `pop` returns null exactly when the
queue is empty; `peek` returns what `pop` would return and leaves the queue
alone; and a `recv()` call on a context with no listener and no connection
returns the oldest queued message and removes only that one, or returns null
and changes nothing when the queue is empty. -/
theorem inbound_queue_fifo :
    (∀ (q0 ms : List Message) (k : Nat),
      MessageQueue.pops (q0.length + ms.length + k) (ms.foldl MessageQueue.push q0)
        = ((q0 ++ ms).map some ++ List.replicate k none, [])) ∧
    (∀ q : List Message, (MessageQueue.pop q).1 = none ↔ q = []) ∧
    (∀ q : List Message, MessageQueue.peek q = (MessageQueue.pop q).1) ∧
    (∀ (m : Message) (rest : List Message),
      MessageQueue.peek (m :: rest) = some m ∧ MessageQueue.pop (m :: rest) = (some m, rest)) ∧
    (∀ ctx : Context, ctx.pop = ((MessageQueue.pop ctx.m_incoming).1,
      { ctx with m_incoming := (MessageQueue.pop ctx.m_incoming).2 })) ∧
    (∀ (ctx : Context) accepts ticks,
      ctx.m_numListenSockets = 0 → ctx.m_numConnections = 0 →
      (∀ m rest, ctx.m_incoming = m :: rest →
        ctx.recv accepts ticks = some (some m, { ctx with m_incoming := rest })) ∧
      (ctx.m_incoming = [] → ctx.recv accepts ticks = some (none, ctx))) := by
  refine ⟨?_, ?_, ?_, ?_, ?_, ?_⟩
  · intro q0 ms k
    rw [foldl_push, ← List.length_append]
    exact pops_all _ k
  · intro q
    cases q <;> simp [MessageQueue.pop]
  · intro q
    cases q <;> rfl
  · intro m rest
    exact ⟨rfl, rfl⟩
  · intro ctx
    unfold Context.pop MessageQueue.pop
    cases h : ctx.m_incoming with
    | nil =>
      simp only
      congr 1
      rw [← h]
    | cons m rest => rfl
  · intro ctx accepts ticks hl hc
    have hrecv : ctx.recv accepts ticks = some ctx.pop := by
      simp [Context.recv, hl, hc]
    constructor
    · intro m rest hq
      rw [hrecv]
      unfold Context.pop
      rw [hq]
    · intro hq
      rw [hrecv]
      unfold Context.pop
      rw [hq]

/-- Witness of C19: `recv()` on a context with no listener and no connection
and two queued messages returns the older one and leaves the other. -/
theorem inbound_queue_fifo_witness :
    ({ Context.init 1 0 with
        m_incoming := [⟨65535, 2, [6, 1], 0⟩, ⟨65535, 2, [6, 2], 0⟩] } : Context).recv
        (fun _ => none) (fun _ => idleTick)
      = some (some ⟨65535, 2, [6, 1], 0⟩,
          { Context.init 1 0 with m_incoming := [⟨65535, 2, [6, 2], 0⟩] }) :=
  (inbound_queue_fifo.2.2.2.2.2
    { Context.init 1 0 with
      m_incoming := [⟨65535, 2, [6, 1], 0⟩, ⟨65535, 2, [6, 2], 0⟩] }
    (fun _ => none) (fun _ => idleTick) rfl rfl).1 _ _ rfl

/-! ## The invariants along a poll -/

/-- Replacing the connection in a live slot by one with the same handle and
dense index keeps the bookkeeping invariant. -/
theorem connectionsInv_setSlot (ctx : Context) (hinv : ConnectionsInv ctx) (h : Nat)
    (c c1 : Connection) (hc : ctx.getConnection h = some c)
    (hh : c1.m_handle = c.m_handle) (hd : c1.m_denseIndex = c.m_denseIndex)
    (q : List Message) :
    ConnectionsInv
      { ctx with m_connections := ctx.m_connections.set h (some c1), m_incoming := q } := by
  have hlt : h < ctx.m_connections.length := getD_some_lt _ _ _ hc
  obtain ⟨l1, l2, l3⟩ := hinv.live h c hc
  constructor
  · simpa using hinv.len_dense
  · simpa using hinv.len_max
  · simpa using hinv.count
  · exact hinv.free_nodup
  · intro x hx
    have hx2 := hinv.free_slot x hx
    have hne : h ≠ x := by
      intro e
      rw [← e, hc] at hx2
      simp at hx2
    refine ⟨by simpa using hx2.1, ?_⟩
    simp only [Context.getConnection] at hx2 ⊢
    rw [getD_set_ne _ _ _ _ _ hne]
    exact hx2.2
  · intro x cx hcx
    simp only [Context.getConnection] at hcx
    by_cases hx : h = x
    · subst hx
      rw [getD_set_self _ _ _ _ hlt] at hcx
      simp only [Option.some.injEq] at hcx
      subst hcx
      exact ⟨by rw [hh, l1], by simp only [hd]; exact l2, by simp only [hd]; exact l3⟩
    · rw [getD_set_ne _ _ _ _ _ hx] at hcx
      exact hinv.live x cx hcx
  · intro i hi
    obtain ⟨ci, hci, hcii⟩ := hinv.dense i hi
    simp only [Context.getConnection]
    by_cases hx : h = ctx.m_connectionDense.getD i 0
    · rw [← hx, getD_set_self _ _ _ _ hlt]
      rw [← hx, hc] at hci
      simp only [Option.some.injEq] at hci
      exact ⟨c1, rfl, by rw [hd, hci, hcii]⟩
    · rw [getD_set_ne _ _ _ _ _ hx]
      exact ⟨ci, hci, hcii⟩

/-- Replacing the connection in a slot by one whose queue holds only messages
of the old queue keeps the queue invariant. -/
theorem queuesInv_setSlot (ctx : Context) (hq : QueuesInv ctx) (h : Nat)
    (c c1 : Connection) (hc : ctx.getConnection h = some c)
    (hsub : ∀ m ∈ c1.m_outgoing, m ∈ c.m_outgoing) (q : List Message) :
    QueuesInv
      { ctx with m_connections := ctx.m_connections.set h (some c1), m_incoming := q } := by
  have hlt : h < ctx.m_connections.length := getD_some_lt _ _ _ hc
  intro x cx hcx m hm
  simp only [Context.getConnection] at hcx
  by_cases hx : h = x
  · subst hx
    rw [getD_set_self _ _ _ _ hlt] at hcx
    simp only [Option.some.injEq] at hcx
    subst hcx
    exact hq h c hc m (hsub m hm)
  · rw [getD_set_ne _ _ _ _ _ hx] at hcx
    exact hq x cx hcx m hm

theorem silentStep_refl (h : Nat) (s : Context) : SilentStep h s s :=
  fun hi hq => ⟨hi, hq, fun hn => ⟨hn, [], by simp, by simp⟩⟩

theorem silentStep_trans (h : Nat) (s s1 s2 : Context)
    (h1 : SilentStep h s s1) (h2 : SilentStep h s1 s2) : SilentStep h s s2 := by
  intro hi hq
  obtain ⟨hi1, hq1, hp1⟩ := h1 hi hq
  obtain ⟨hi2, hq2, hp2⟩ := h2 hi1 hq1
  refine ⟨hi2, hq2, fun hn => ?_⟩
  obtain ⟨hn1, new2, he2, hm2⟩ := hp2 hn
  obtain ⟨hn0, new1, he1, hm1⟩ := hp1 hn1
  refine ⟨hn0, new1 ++ new2, by rw [he2, he1, List.append_assoc], ?_⟩
  intro m hm
  rcases List.mem_append.mp hm with hm | hm
  · exact hm1 m hm
  · exact hm2 m hm

/-- A loop of steps over a list of positions is silent when each step is. -/
theorem silentStep_foldlM (h : Nat) (f : Context → Nat → Option Context)
    (hf : ∀ s i s1, f s i = some s1 → SilentStep h s s1)
    (l : List Nat) (s s1 : Context) (hrun : l.foldlM f s = some s1) :
    SilentStep h s s1 := by
  induction l generalizing s with
  | nil =>
    simp only [List.foldlM_nil, Option.pure_def, Option.some.injEq] at hrun
    rw [← hrun]
    exact silentStep_refl h s
  | cons i l ih =>
    simp only [List.foldlM_cons, Option.bind_eq_bind, Option.bind_eq_some] at hrun
    obtain ⟨s2, h2, h3⟩ := hrun
    exact silentStep_trans h s s2 s1 (hf s i s2 h2) (ih s2 h3)

/-- The update of one connection is a silent step for every handle. -/
theorem silentStep_updateConnection (h : Nat) (s s1 : Context) (handle : Nat) (t : Tick)
    (hrun : s.updateConnection handle t = some s1) : SilentStep h s s1 := by
  intro hi hq
  unfold Context.updateConnection at hrun
  cases hc : s.getConnection handle with
  | none => rw [hc] at hrun; simp at hrun
  | some c =>
    rw [hc] at hrun
    simp only [Option.map_eq_some'] at hrun
    obtain ⟨r, hr, hs1⟩ := hrun
    obtain ⟨u1, u2, -, u4, new, u5, u6⟩ := update_cases c s.m_incoming t r hr
    have hlt : handle < s.m_connections.length := getD_some_lt _ _ _ hc
    have hch : c.m_handle = handle := (hi.live handle c hc).1
    rw [← hs1]
    refine ⟨connectionsInv_setSlot s hi handle c r.1 hc u1 u2 _,
      queuesInv_setSlot s hq handle c r.1 hc u4 _, ?_⟩
    intro hn
    have hne : handle ≠ h := by
      intro e
      simp only [Context.getConnection] at hn
      rw [e, getD_set_self _ _ _ _ (by rw [← e]; exact hlt)] at hn
      simp at hn
    simp only [Context.getConnection] at hn
    rw [getD_set_ne _ _ _ _ _ hne] at hn
    refine ⟨hn, new, u5, ?_⟩
    intro m hm
    have hmh : m.handle = handle := by
      rcases u6 m hm with ⟨h1, -, -⟩ | h1 | ⟨h1, -⟩ | ⟨x, hx, h1⟩
      · rw [h1]; exact hch
      · rw [h1]; exact hch
      · rw [h1]; exact hch
      · rw [h1]
        simp only [notifyMessage]
        exact hq handle c hc x hx
    rw [hmh]
    exact hne

/-- The shape of the context after `Context::accept`. -/
theorem accept_shape (s s1 : Context) (hi : ConnectionsInv s) (listenHandle ip port : Nat)
    (raw : Bool) (now freq h0 : Nat)
    (hrun : s.accept listenHandle ip port raw now freq = some (h0, s1)) :
    s1.m_incoming = s.m_incoming ++ [incomingConnectionMessage h0 listenHandle ip port] ∧
    (∀ x, x ≠ h0 → s1.getConnection x = s.getConnection x) ∧
    ∃ c1, s1.getConnection h0 = some c1 ∧ c1.m_outgoing = [] := by
  unfold Context.accept Context.allocConnection at hrun
  cases hfree : s.m_connectionsFree with
  | nil => rw [hfree] at hrun; simp at hrun
  | cons h1 free =>
    rw [hfree] at hrun
    have hlt := (hi.free_slot h1 (by rw [hfree]; exact List.mem_cons_self _ _)).1
    simp only [Context.getConnection, getD_set_self _ _ _ _ hlt, Option.some.injEq,
      Prod.mk.injEq] at hrun
    obtain ⟨e1, e2⟩ := hrun
    subst e1
    rw [← e2]
    refine ⟨rfl, ?_, ((Connection.new s.m_numConnections).accept s.m_incoming h1 listenHandle
      ip port raw now freq).1, ?_, ?_⟩
    · intro x hx
      simp only [Context.getConnection]
      rw [getD_set_ne _ _ _ _ _ (fun e => hx e.symm), getD_set_ne _ _ _ _ _ (fun e => hx e.symm)]
    · simp only [Context.getConnection]
      exact getD_set_self _ _ _ _ (by simpa using hlt)
    · rfl

/-- The update of one listener is a silent step for every handle. -/
theorem silentStep_updateListenSocket (h : Nat) (s s1 : Context) (handle : Nat)
    (a : Option Accepted) (hrun : s.updateListenSocket handle a = some s1) :
    SilentStep h s s1 := by
  unfold Context.updateListenSocket at hrun
  cases hl : s.getListenSocket handle with
  | none => rw [hl] at hrun; simp at hrun
  | some l =>
    rw [hl] at hrun
    cases a with
    | none =>
      simp only [Option.some.injEq] at hrun
      rw [← hrun]
      exact silentStep_refl h s
    | some acc =>
      simp only [Option.map_eq_some'] at hrun
      obtain ⟨r, hr, hr2⟩ := hrun
      obtain ⟨h0, s2⟩ := r
      simp only at hr2
      subst hr2
      intro hi hq
      obtain ⟨a1, a2, c1, a3, a4⟩ := accept_shape s s2 hi _ _ _ _ _ _ h0 hr
      refine ⟨connectionsInv_accept s s2 hi _ _ _ _ _ _ h0 hr, ?_, ?_⟩
      · intro x cx hcx m hm
        by_cases hx : x = h0
        · rw [hx, a3] at hcx
          simp only [Option.some.injEq] at hcx
          rw [← hcx, a4] at hm
          simp at hm
        · rw [a2 x hx] at hcx
          exact hq x cx hcx m hm
      · intro hn
        have hne : h ≠ h0 := by
          intro e
          rw [e, a3] at hn
          simp at hn
        refine ⟨by rw [← a2 h hne]; exact hn, _, a1, ?_⟩
        intro m hm
        simp only [List.mem_singleton] at hm
        rw [hm]
        simp only [incomingConnectionMessage]
        exact fun e => hne e.symm

/-- A whole poll is a silent step for every handle. -/
theorem silentStep_poll (h : Nat) (s s1 : Context) (accepts : Nat → Option Accepted)
    (ticks : Nat → Tick) (hrun : s.poll accepts ticks = some s1) : SilentStep h s s1 := by
  unfold Context.poll at hrun
  simp only [Option.bind_eq_some] at hrun
  obtain ⟨s2, h1, h2⟩ := hrun
  refine silentStep_trans h s s2 s1 ?_ ?_
  · exact silentStep_foldlM h _
      (fun x i x1 hx => silentStep_updateListenSocket h x x1 _ _ hx) _ s s2 h1
  · exact silentStep_foldlM h _
      (fun x i x1 hx => silentStep_updateConnection h x x1 _ _ hx) _ s2 s1 h2

/-- The teardown branch of `Context::disconnect` keeps the queue invariant. -/
theorem queuesInv_disconnect (ctx : Context) (hq : QueuesInv ctx) (h : Nat) (c : Connection)
    (hc : ctx.getConnection h = some c) (temp d n : Nat) (free dense : List Nat)
    (q : List Message) :
    QueuesInv
      { ctx with
        m_connections := setConnectionDenseIndex (ctx.m_connections.set h none) temp d
        m_connectionsFree := free
        m_numConnections := n
        m_connectionDense := dense
        m_incoming := q } := by
  have hlt : h < ctx.m_connections.length := getD_some_lt _ _ _ hc
  intro x cx hcx m hm
  simp only [Context.getConnection] at hcx
  rw [setConnectionDenseIndex_getD] at hcx
  have hold : ∀ y cy, (ctx.m_connections.set h none).getD y none = some cy →
      ctx.getConnection y = some cy := by
    intro y cy hy
    by_cases hyh : h = y
    · rw [← hyh, getD_set_self _ _ _ _ hlt] at hy
      simp at hy
    · rw [getD_set_ne _ _ _ _ _ hyh] at hy
      exact hy
  by_cases hx : x = temp
  · rw [if_pos hx] at hcx
    cases ht : (ctx.m_connections.set h none).getD temp none with
    | none => rw [ht] at hcx; simp at hcx
    | some ct =>
      rw [ht] at hcx
      simp only [Option.map_some', Option.some.injEq] at hcx
      rw [← hcx] at hm
      rw [hx]
      exact hq temp ct (hold temp ct ht) m hm
  · rw [if_neg hx] at hcx
    exact hq x cx (hold x cx hcx) m hm

/-! ## C11: hard disconnect -/

/-- C11: in a context that satisfies the bookkeeping invariants, for every
live connection handle `h`, `disconnect(h, false)` returns with the inbound
queue unchanged (no message pushed, so no `LostConnection`), with slot `h`
holding no connection and `h` gone from the first `m_numConnections` entries of
the dense array, and with the invariants still in force. And in every context
satisfying the invariants, a `recv()` tick during which `h` is not handed out
(slot `h` holds no connection after the two loops) pushes only messages whose
handle differs from `h`, and keeps the invariants, so the same holds for the
next tick. -/
theorem hard_disconnect_silent (ctx : Context) (h : Nat) (t : Tick) (c : Connection)
    (hinv : ConnectionsInv ctx) (hq : QueuesInv ctx) (hc : ctx.getConnection h = some c) :
    (∃ ctx1, ctx.disconnect h false t = some ctx1 ∧ ctx1.m_incoming = ctx.m_incoming ∧
      ctx1.getConnection h = none ∧
      h ∉ ctx1.m_connectionDense.take ctx1.m_numConnections ∧
      ConnectionsInv ctx1 ∧ QueuesInv ctx1) ∧
    (∀ (s s1 : Context) accepts ticks, ConnectionsInv s → QueuesInv s →
      s.poll accepts ticks = some s1 → s1.getConnection h = none →
      s.recv accepts ticks = some s1.pop ∧ s.getConnection h = none ∧
      ConnectionsInv s1 ∧ QueuesInv s1 ∧
      ∃ new, s1.m_incoming = s.m_incoming ++ new ∧ ∀ m ∈ new, m.handle ≠ h) := by
  constructor
  · have hrun : ctx.disconnect h false t = some
        { ctx with
          m_connections :=
            setConnectionDenseIndex (ctx.m_connections.set h none)
              (ctx.m_connectionDense.getD ((ctx.m_numConnections + 65535) % 2 ^ 16) 0)
              c.m_denseIndex
          m_connectionsFree := h :: ctx.m_connectionsFree
          m_numConnections := (ctx.m_numConnections + 65535) % 2 ^ 16
          m_connectionDense :=
            ctx.m_connectionDense.set c.m_denseIndex
              (ctx.m_connectionDense.getD ((ctx.m_numConnections + 65535) % 2 ^ 16) 0)
          m_incoming := ctx.m_incoming } := by
      unfold Context.disconnect
      rw [hc]
      simp [Connection.disconnect]
    have hinv1 := connectionsInv_disconnect ctx hinv h c hc ctx.m_incoming
    have hnone := (hinv1.free_slot h (List.mem_cons_self _ _)).2
    refine ⟨_, hrun, rfl, hnone, ?_, hinv1, queuesInv_disconnect ctx hq h c hc _ _ _ _ _ _⟩
    intro hm
    obtain ⟨c1, hc1⟩ := ((connectionsInv_dense_live _ hinv1).2 h).mp hm
    rw [hnone] at hc1
    simp at hc1
  · intro s s1 accepts ticks hi hqs hrun hn
    obtain ⟨h1, h2, h3⟩ := silentStep_poll h s s1 accepts ticks hrun hi hqs
    obtain ⟨h4, new, h5, h6⟩ := h3 hn
    refine ⟨?_, h4, h1, h2, new, h5, h6⟩
    rw [recv_eq_poll_pop, hrun]
    rfl

theorem queuesInv_exampleContext : QueuesInv exampleContext := by
  intro h c hc m hm
  rcases h with _ | _ | _ | h
  · simp [Context.getConnection, exampleContext] at hc
  · simp only [Context.getConnection, exampleContext, List.getD_cons_succ, List.getD_cons_zero,
      Option.some.injEq] at hc
    rw [← hc] at hm
    simp at hm
  · simp only [Context.getConnection, exampleContext, List.getD_cons_succ, List.getD_cons_zero,
      Option.some.injEq] at hc
    rw [← hc] at hm
    simp at hm
  · simp [Context.getConnection, exampleContext] at hc

/-- Witness of C11: the hard disconnect of connection 1 of `exampleContext`,
a context reached from `init` by `exampleOps`. -/
theorem hard_disconnect_silent_witness :
    (∃ c, exampleContext.getConnection 1 = some c) ∧
    ∃ ctx1, exampleContext.disconnect 1 false idleTick = some ctx1 ∧
      ctx1.m_incoming = exampleContext.m_incoming ∧
      ctx1.getConnection 1 = none ∧
      1 ∉ ctx1.m_connectionDense.take ctx1.m_numConnections ∧
      ConnectionsInv ctx1 ∧ QueuesInv ctx1 :=
  ⟨⟨_, rfl⟩,
    (hard_disconnect_silent exampleContext 1 idleTick _
      (connectionsInv_runOps exampleOps _ exampleContext
        (connectionsInv_init 3 2 (by decide)) (by decide))
      queuesInv_exampleContext rfl).1⟩

/-! ## C16: the slot of a connection that failed by itself -/

/-- Counterexample to C16 as stated: an established connection loses its peer
during a `recv()` tick; `LostConnection` is delivered and the socket is
invalid, but `m_numConnections` is still 1 and handle 0 is still the first
entry of the dense array. -/
theorem lost_connection_keeps_slot :
    ∃ ctx1 c1,
      establishedContext.recv (fun _ => none) (fun _ => lostTick)
        = some (some ⟨0, 1, [MessageId.LostConnection], Internal.None⟩, ctx1) ∧
      ctx1.getConnection 0 = some c1 ∧ c1.m_socket = false ∧
      ctx1.m_numConnections = establishedContext.m_numConnections ∧
      ctx1.m_numConnections = 1 ∧
      0 ∈ ctx1.m_connectionDense.take ctx1.m_numConnections := by
  refine ⟨{ establishedContext with
      m_connections :=
        [some { m_connectTimeout := 100, m_socket := false, m_denseIndex := 0, m_handle := 0,
                m_incoming := [], m_outgoing := [], m_len := -1, m_raw := false,
                m_connected := true, sent := [] }] }, _, ?_, rfl, rfl, rfl, rfl, ?_⟩
  · decide
  · decide

/-- C16, as amended: in a context that satisfies the bookkeeping invariant, a
connection that enters Failed/Closed by itself keeps its slot. After
`Context::connect`, failed or not, the new handle is among the first
`m_numConnections` entries of the dense array; an update tick of a connection,
whatever it does to the socket (connect timeout, lost connection, drained
`Disconnect` marker), leaves `m_numConnections` and the dense array as they are
and the handle among the first `m_numConnections` entries. The slot is
released when `disconnect(h, finish)` is called afterwards: for a connection
with an invalid socket and either value of `finish`, `m_numConnections`
decreases by one and `h` is no longer among the first `m_numConnections`
entries. -/
theorem failed_connection_keeps_slot (ctx : Context) (hinv : ConnectionsInv ctx) :
    (∀ raw e h0 ctx1, ctx.connect raw e = some (h0, ctx1) →
      ctx1.m_numConnections = ctx.m_numConnections + 1 ∧
      h0 ∈ ctx1.m_connectionDense.take ctx1.m_numConnections) ∧
    (∀ h t ctx1, ctx.updateConnection h t = some ctx1 →
      ctx1.m_numConnections = ctx.m_numConnections ∧
      ctx1.m_connectionDense = ctx.m_connectionDense ∧
      h ∈ ctx1.m_connectionDense.take ctx1.m_numConnections) ∧
    (∀ h c finish t, ctx.getConnection h = some c → c.m_socket = false →
      ∃ ctx1, ctx.disconnect h finish t = some ctx1 ∧
        ctx1.m_numConnections + 1 = ctx.m_numConnections ∧
        h ∉ ctx1.m_connectionDense.take ctx1.m_numConnections) := by
  refine ⟨?_, ?_, ?_⟩
  · intro raw e h0 ctx1 hrun
    have hinv1 := connectionsInv_connect ctx ctx1 hinv raw e h0 hrun
    unfold Context.connect Context.allocConnection at hrun
    cases hfree : ctx.m_connectionsFree with
    | nil => rw [hfree] at hrun; simp at hrun
    | cons h1 free =>
      rw [hfree] at hrun
      have hlt := (hinv.free_slot h1 (by rw [hfree]; exact List.mem_cons_self _ _)).1
      simp only [Context.getConnection, getD_set_self _ _ _ _ hlt, Option.some.injEq,
        Prod.mk.injEq] at hrun
      obtain ⟨e1, e2⟩ := hrun
      subst e1
      have hcount := hinv.count
      have hmax := hinv.len_max
      rw [hfree, List.length_cons] at hcount
      have hlive : ∃ c1, ctx1.getConnection h1 = some c1 := by
        rw [← e2]
        simp only [Context.getConnection]
        exact ⟨_, getD_set_self _ _ _ _ (by simpa using hlt)⟩
      refine ⟨?_, ((connectionsInv_dense_live _ hinv1).2 h1).mpr hlive⟩
      rw [← e2]
      simp only
      omega
  · intro h t ctx1 hrun
    have hstep := silentStep_updateConnection h ctx ctx1 h t hrun
    unfold Context.updateConnection at hrun
    cases hc : ctx.getConnection h with
    | none => rw [hc] at hrun; simp at hrun
    | some c =>
      rw [hc] at hrun
      simp only [Option.map_eq_some'] at hrun
      obtain ⟨r, hr, hs1⟩ := hrun
      obtain ⟨u1, u2, -, -, -⟩ := update_cases c ctx.m_incoming t r hr
      have hinv1 := connectionsInv_setSlot ctx hinv h c r.1 hc u1 u2 r.2
      rw [hs1] at hinv1
      have hlive : ∃ c1, ctx1.getConnection h = some c1 := by
        rw [← hs1]
        simp only [Context.getConnection]
        exact ⟨_, getD_set_self _ _ _ _ (getD_some_lt _ _ _ hc)⟩
      refine ⟨by rw [← hs1], by rw [← hs1], ((connectionsInv_dense_live _ hinv1).2 h).mpr hlive⟩
  · intro h c finish t hc hsock
    have hrun : ctx.disconnect h finish t = some
        { ctx with
          m_connections :=
            setConnectionDenseIndex (ctx.m_connections.set h none)
              (ctx.m_connectionDense.getD ((ctx.m_numConnections + 65535) % 2 ^ 16) 0)
              c.m_denseIndex
          m_connectionsFree := h :: ctx.m_connectionsFree
          m_numConnections := (ctx.m_numConnections + 65535) % 2 ^ 16
          m_connectionDense :=
            ctx.m_connectionDense.set c.m_denseIndex
              (ctx.m_connectionDense.getD ((ctx.m_numConnections + 65535) % 2 ^ 16) 0)
          m_incoming := ctx.m_incoming } := by
      unfold Context.disconnect
      rw [hc]
      simp [Connection.disconnect, hsock]
    have hinv1 := connectionsInv_disconnect ctx hinv h c hc ctx.m_incoming
    have hnone := (hinv1.free_slot h (List.mem_cons_self _ _)).2
    obtain ⟨-, l2, -⟩ := hinv.live h c hc
    have hcount := hinv.count
    have hmax := hinv.len_max
    refine ⟨_, hrun, ?_, ?_⟩
    · simp only
      omega
    · intro hm
      obtain ⟨c1, hc1⟩ := ((connectionsInv_dense_live _ hinv1).2 h).mp hm
      rw [hnone] at hc1
      simp at hc1

/-- Witness of C16: a refused `connect` leaves handle 0 in the dense array,
and a later `disconnect(0, true)` releases it. -/
theorem failed_connection_keeps_slot_witness :
    runOps (Context.init 2 0) failedOps = some failedContext ∧
    0 ∈ failedContext.m_connectionDense.take failedContext.m_numConnections ∧
    ∃ ctx1, failedContext.disconnect 0 true idleTick = some ctx1 ∧
      ctx1.m_numConnections + 1 = failedContext.m_numConnections ∧
      0 ∉ ctx1.m_connectionDense.take ctx1.m_numConnections :=
  ⟨by decide, by decide,
    (failed_connection_keeps_slot failedContext
      (connectionsInv_runOps failedOps _ failedContext
        (connectionsInv_init 2 0 (by decide)) (by decide))).2.2 0 _ true idleTick rfl rfl⟩

/-! ## C20: the URL tokenizer on a full URL -/

theorem cstr_at (pre A rest : List Nat) (i : Nat) (hi : i = pre.length)
    (hA : ∀ a ∈ A, a ≠ 0) : cstr (pre ++ (A ++ 0 :: rest)) i = A := by
  subst hi
  unfold cstr
  rw [List.drop_left]
  induction A with
  | nil => simp [List.takeWhile]
  | cons a A ih =>
    have ha := hA a (List.mem_cons_self _ _)
    rw [List.cons_append, List.takeWhile_cons]
    simp only [ha, ne_eq, not_false_eq_true, decide_True, if_true]
    rw [ih (fun x hx => hA x (List.mem_cons_of_mem _ hx))]

theorem strchrFrom_at (A rest : List Nat) (ch i : Nat) (hA : ∀ a ∈ A, a ≠ ch ∧ a ≠ 0) :
    strchrFrom (A ++ ch :: rest) ch i = some (i + A.length) := by
  induction A generalizing i with
  | nil => simp [strchrFrom]
  | cons a A ih =>
    have ha := hA a (List.mem_cons_self _ _)
    rw [List.cons_append, strchrFrom, if_neg ha.1, if_neg ha.2,
      ih (i + 1) (fun x hx => hA x (List.mem_cons_of_mem _ hx)), List.length_cons]
    congr 1
    omega

theorem set_at (pre rest : List Nat) (x v i : Nat) (hi : i = pre.length) :
    (pre ++ x :: rest).set i v = pre ++ v :: rest := by
  subst hi
  induction pre with
  | nil => rfl
  | cons p pre ih => simp [List.set, ih]

theorem findSplit_at (b : List Nat) (tk : UrlTokens) (pre A rest : List Nat) (ch i : Nat)
    (assign : Nat → UrlTokens → UrlTokens) (hb : b = pre ++ (A ++ ch :: rest))
    (hi : i = pre.length) (hA : ∀ a ∈ A, a ≠ ch ∧ a ≠ 0) :
    findSplit (b, tk) (some i) ch assign = (pre ++ (A ++ 0 :: rest), assign (i + A.length) tk) := by
  have hfind : strchrToken b (some i) ch = some (i + A.length) := by
    simp only [strchrToken, strchr]
    rw [hb, hi, List.drop_left]
    exact strchrFrom_at A rest ch _ hA
  unfold findSplit
  simp only [hfind]
  rw [hb, ← List.append_assoc, set_at (pre ++ A) rest ch 0 _ (by simp [hi]),
    List.append_assoc]

theorem strstrFrom_at (S rest : List Nat) (i : Nat) (hz : ∀ a ∈ S, a ≠ 0)
    (hS : ¬ [58, 47, 47] <:+: S) :
    strstrFrom [58, 47, 47] (S ++ 58 :: 47 :: 47 :: rest) i = some (i + S.length) := by
  induction S generalizing i with
  | nil => simp [strstrFrom, matchAt]
  | cons a S ih =>
    have ha := hz a (List.mem_cons_self _ _)
    have hno : matchAt [58, 47, 47] (a :: S ++ 58 :: 47 :: 47 :: rest) = false := by
      rcases S with _ | ⟨b, _ | ⟨c, S2⟩⟩
      · simp [matchAt]
      · simp [matchAt]
      · by_contra hm
        simp only [List.cons_append, matchAt, Bool.and_true, Bool.not_eq_false,
          Bool.and_eq_true, beq_iff_eq] at hm
        obtain ⟨h1, h2, h3⟩ := hm
        apply hS
        rw [← h1, ← h2, ← h3]
        exact ⟨[], S2, rfl⟩
    have hS1 : ¬ [58, 47, 47] <:+: S := fun h => hS (List.IsInfix.trans h ⟨[a], [], by simp⟩)
    rw [List.cons_append, strstrFrom, ← List.cons_append, hno]
    simp only [Bool.false_eq_true, if_false, if_neg ha]
    rw [ih (i + 1) (fun x hx => hz x (List.mem_cons_of_mem _ hx)) hS1, List.length_cons]
    congr 1
    omega

theorem fullUrl_nested (S U P H N T Q F : List Nat) :
    fullUrl S U P H N T Q F
      = S ++ 58 :: 47 :: 47 :: (U ++ 58 :: (P ++ 64 :: (H ++ 58 :: (N ++ 47 ::
          (T ++ 63 :: (Q ++ 35 :: F)))))) := by
  simp [fullUrl, List.append_assoc]

theorem strncpy_fits (buf url : List Nat) (bufSize : Nat) (hlen : url.length < bufSize) :
    ∃ Z, strncpy (buf.set 0 0) url bufSize = url ++ 0 :: Z := by
  refine ⟨List.replicate (bufSize - url.length - 1) 0 ++ (buf.set 0 0).drop bufSize, ?_⟩
  unfold strncpy
  rw [List.take_of_length_le (by omega)]
  have hrep : List.replicate (bufSize - url.length) 0
      = 0 :: List.replicate (bufSize - url.length - 1) 0 := by
    have : bufSize - url.length = (bufSize - url.length - 1) + 1 := by omega
    rw [this, List.replicate_succ]
    simp
  rw [hrep]
  simp [List.append_assoc]

theorem fullUrl_nonzero (S U P H N T Q F : List Nat)
    (hz : ∀ b ∈ fullUrl S U P H N T Q F, b ≠ 0) :
    (∀ a ∈ S, a ≠ 0) ∧ (∀ a ∈ U, a ≠ 0) ∧ (∀ a ∈ P, a ≠ 0) ∧ (∀ a ∈ H, a ≠ 0) ∧
      (∀ a ∈ N, a ≠ 0) ∧ (∀ a ∈ T, a ≠ 0) ∧ (∀ a ∈ Q, a ≠ 0) ∧ (∀ a ∈ F, a ≠ 0) := by
  rw [fullUrl_nested] at hz
  simp only [List.mem_append, List.mem_cons] at hz
  exact ⟨fun a h => hz a (Or.inl h), fun a h => hz a (by simp [h]),
    fun a h => hz a (by simp [h]), fun a h => hz a (by simp [h]),
    fun a h => hz a (by simp [h]), fun a h => hz a (by simp [h]),
    fun a h => hz a (by simp [h]), fun a h => hz a (by simp [h])⟩

theorem tokenizeUrl_full (S U P H N T Q F buf : List Nat) (bufSize : Nat)
    (hlen : (fullUrl S U P H N T Q F).length < bufSize)
    (hz : ∀ b ∈ fullUrl S U P H N T Q F, b ≠ 0)
    (hS : ¬ [58, 47, 47] <:+: S)
    (hU : ∀ b ∈ U, b ≠ 47 ∧ b ≠ 64 ∧ b ≠ 58)
    (hP : ∀ b ∈ P, b ≠ 47 ∧ b ≠ 64 ∧ b ≠ 58)
    (hH : ∀ b ∈ H, b ≠ 47 ∧ b ≠ 64 ∧ b ≠ 58)
    (hN : ∀ b ∈ N, b ≠ 47 ∧ b ≠ 64 ∧ b ≠ 58)
    (hT : ∀ b ∈ T, b ≠ 63 ∧ b ≠ 35)
    (hQ : ∀ b ∈ Q, b ≠ 35) :
    ∃ Z, tokenizeUrl (some (fullUrl S U P H N T Q F)) buf bufSize
      = (S ++ 0 :: 47 :: 47 :: (U ++ 0 :: (P ++ 0 :: (H ++ 0 :: (N ++ 0 ::
          (T ++ 0 :: (Q ++ 0 :: (F ++ 0 :: Z))))))),
         { Scheme := some 0
           UserName := some (S.length + 3)
           Password := some (S.length + 3 + U.length + 1)
           Host := some (S.length + 3 + U.length + 1 + P.length + 1)
           Port := some (S.length + 3 + U.length + 1 + P.length + 1 + H.length + 1)
           Path := some (S.length + 3 + U.length + 1 + P.length + 1 + H.length + 1
             + N.length + 1)
           Query := some (S.length + 3 + U.length + 1 + P.length + 1 + H.length + 1
             + N.length + 1 + T.length + 1)
           Fragment := some (S.length + 3 + U.length + 1 + P.length + 1 + H.length + 1
             + N.length + 1 + T.length + 1 + Q.length + 1) }) := by
  obtain ⟨Z, hcopy⟩ := strncpy_fits buf _ bufSize hlen
  refine ⟨Z, ?_⟩
  rw [fullUrl_nested] at hcopy
  obtain ⟨zS, zU, zP, zH, zN, zT, zQ, -⟩ := fullUrl_nonzero S U P H N T Q F hz
  have hfind : strstr (strncpy (buf.set 0 0) (fullUrl S U P H N T Q F) bufSize) 0 [58, 47, 47]
      = some S.length := by
    rw [fullUrl_nested, hcopy]
    simp only [strstr, List.drop_zero, List.append_assoc, List.cons_append]
    rw [strstrFrom_at S _ 0 zS hS]
    simp
  unfold tokenizeUrl
  simp only [hfind]
  rw [fullUrl_nested, hcopy]
  simp only [List.append_assoc, List.cons_append]
  rw [set_at S _ 58 0 _ rfl]
  have c47 : ∀ a ∈ U ++ 58 :: (P ++ 64 :: (H ++ 58 :: N)), a ≠ 47 ∧ a ≠ 0 := by
    intro a ha
    simp only [List.mem_append, List.mem_cons] at ha
    rcases ha with h | h | h | h | h | h | h
    · exact ⟨(hU a h).1, zU a h⟩
    · subst h; decide
    · exact ⟨(hP a h).1, zP a h⟩
    · subst h; decide
    · exact ⟨(hH a h).1, zH a h⟩
    · subst h; decide
    · exact ⟨(hN a h).1, zN a h⟩
  have c64 : ∀ a ∈ U ++ 58 :: P, a ≠ 64 ∧ a ≠ 0 := by
    intro a ha
    simp only [List.mem_append, List.mem_cons] at ha
    rcases ha with h | h | h
    · exact ⟨(hU a h).2.1, zU a h⟩
    · subst h; decide
    · exact ⟨(hP a h).2.1, zP a h⟩
  have c58H : ∀ a ∈ H, a ≠ 58 ∧ a ≠ 0 := fun a h => ⟨(hH a h).2.2, zH a h⟩
  have c58U : ∀ a ∈ U, a ≠ 58 ∧ a ≠ 0 := fun a h => ⟨(hU a h).2.2, zU a h⟩
  have c35 : ∀ a ∈ T ++ 63 :: Q, a ≠ 35 ∧ a ≠ 0 := by
    intro a ha
    simp only [List.mem_append, List.mem_cons] at ha
    rcases ha with h | h | h
    · exact ⟨(hT a h).2, zT a h⟩
    · subst h; decide
    · exact ⟨hQ a h, zQ a h⟩
  have c63 : ∀ a ∈ T, a ≠ 63 ∧ a ≠ 0 := fun a h => ⟨(hT a h).1, zT a h⟩
  rw [findSplit_at _ _ (S ++ [0, 47, 47]) (U ++ 58 :: (P ++ 64 :: (H ++ 58 :: N)))
    (T ++ 63 :: (Q ++ 35 :: (F ++ 0 :: Z))) 47 _ _ (by simp) (by simp) c47]
  simp only [List.append_assoc, List.cons_append, List.nil_append, List.length_append,
    List.length_cons]
  rw [findSplit_at _ _ (S ++ [0, 47, 47]) (U ++ 58 :: P)
    (H ++ 58 :: (N ++ 0 :: (T ++ 63 :: (Q ++ 35 :: (F ++ 0 :: Z))))) 64 _ _ (by simp) (by simp) c64]
  simp only [List.append_assoc, List.cons_append, List.nil_append, List.length_append,
    List.length_cons]
  rw [findSplit_at _ _ (S ++ 0 :: 47 :: 47 :: (U ++ 58 :: (P ++ [0]))) H
    (N ++ 0 :: (T ++ 63 :: (Q ++ 35 :: (F ++ 0 :: Z)))) 58 _ _ (by simp)
    (by simp; omega) c58H]
  simp only [List.append_assoc, List.cons_append, List.nil_append, List.length_append,
    List.length_cons]
  rw [findSplit_at _ _ (S ++ [0, 47, 47]) U
    (P ++ 0 :: (H ++ 0 :: (N ++ 0 :: (T ++ 63 :: (Q ++ 35 :: (F ++ 0 :: Z)))))) 58 _ _ (by simp)
    (by simp) c58U]
  simp only [List.append_assoc, List.cons_append, List.nil_append, List.length_append,
    List.length_cons]
  rw [findSplit_at _ _ (S ++ 0 :: 47 :: 47 :: (U ++ 0 :: (P ++ 0 :: (H ++ 0 :: (N ++ [0])))))
    (T ++ 63 :: Q) (F ++ 0 :: Z) 35 _ _ (by simp) (by simp; omega) c35]
  simp only [List.append_assoc, List.cons_append, List.nil_append, List.length_append,
    List.length_cons]
  rw [findSplit_at _ _ (S ++ 0 :: 47 :: 47 :: (U ++ 0 :: (P ++ 0 :: (H ++ 0 :: (N ++ [0])))))
    T (Q ++ 0 :: (F ++ 0 :: Z)) 63 _ _ (by simp) (by simp; omega) c63]
  simp only [List.append_assoc, List.cons_append, List.nil_append, List.length_append,
    List.length_cons, Prod.mk.injEq, UrlTokens.mk.injEq, Option.some.injEq, true_and]
  omega

/-- C20: for every URL `S://U:P@H:N/T?Q#F` (a C string: no NUL byte) that fits
in the buffer together with its terminating NUL, where `S` does not contain
`://`, `U`, `P`, `H` and `N` contain none of `/`, `@`, `:`, `T` contains neither
`?` nor `#`, and `Q` does not contain `#`, `tokenizeUrl` returns tokens that
read Scheme = `S`, UserName = `U`, Password = `P`, Host = `H`, Port = `N`,
Path = `T`, Query = `Q` and Fragment = `F`. -/
theorem tokenize_full_url (S U P H N T Q F buf : List Nat) (bufSize : Nat)
    (hlen : (fullUrl S U P H N T Q F).length < bufSize)
    (hz : ∀ b ∈ fullUrl S U P H N T Q F, b ≠ 0)
    (hS : ¬ [58, 47, 47] <:+: S)
    (hU : ∀ b ∈ U, b ≠ 47 ∧ b ≠ 64 ∧ b ≠ 58)
    (hP : ∀ b ∈ P, b ≠ 47 ∧ b ≠ 64 ∧ b ≠ 58)
    (hH : ∀ b ∈ H, b ≠ 47 ∧ b ≠ 64 ∧ b ≠ 58)
    (hN : ∀ b ∈ N, b ≠ 47 ∧ b ≠ 64 ∧ b ≠ 58)
    (hT : ∀ b ∈ T, b ≠ 63 ∧ b ≠ 35)
    (hQ : ∀ b ∈ Q, b ≠ 35) :
    ∃ buf1 tokens,
      tokenizeUrl (some (fullUrl S U P H N T Q F)) buf bufSize = (buf1, tokens) ∧
      tokenString buf1 tokens.Scheme = S ∧
      tokenString buf1 tokens.UserName = U ∧
      tokenString buf1 tokens.Password = P ∧
      tokenString buf1 tokens.Host = H ∧
      tokenString buf1 tokens.Port = N ∧
      tokenString buf1 tokens.Path = T ∧
      tokenString buf1 tokens.Query = Q ∧
      tokenString buf1 tokens.Fragment = F := by
  obtain ⟨Z, hrun⟩ := tokenizeUrl_full S U P H N T Q F buf bufSize hlen hz hS hU hP hH hN hT hQ
  obtain ⟨zS, zU, zP, zH, zN, zT, zQ, zF⟩ := fullUrl_nonzero S U P H N T Q F hz
  refine ⟨_, _, hrun, ?_, ?_, ?_, ?_, ?_, ?_, ?_, ?_⟩
  · have h := cstr_at [] S (47 :: 47 :: (U ++ 0 :: (P ++ 0 :: (H ++ 0 :: (N ++ 0 ::
      (T ++ 0 :: (Q ++ 0 :: (F ++ 0 :: Z)))))))) 0 rfl zS
    simpa [tokenString, List.append_assoc] using h
  · have h := cstr_at (S ++ [0, 47, 47]) U (P ++ 0 :: (H ++ 0 :: (N ++ 0 ::
      (T ++ 0 :: (Q ++ 0 :: (F ++ 0 :: Z)))))) (S.length + 3) (by simp) zU
    simpa [tokenString, List.append_assoc] using h
  · have h := cstr_at (S ++ 0 :: 47 :: 47 :: (U ++ [0])) P (H ++ 0 :: (N ++ 0 ::
      (T ++ 0 :: (Q ++ 0 :: (F ++ 0 :: Z))))) (S.length + 3 + U.length + 1)
      (by simp; omega) zP
    simpa [tokenString, List.append_assoc] using h
  · have h := cstr_at (S ++ 0 :: 47 :: 47 :: (U ++ 0 :: (P ++ [0]))) H (N ++ 0 ::
      (T ++ 0 :: (Q ++ 0 :: (F ++ 0 :: Z)))) (S.length + 3 + U.length + 1 + P.length + 1)
      (by simp; omega) zH
    simpa [tokenString, List.append_assoc] using h
  · have h := cstr_at (S ++ 0 :: 47 :: 47 :: (U ++ 0 :: (P ++ 0 :: (H ++ [0])))) N
      (T ++ 0 :: (Q ++ 0 :: (F ++ 0 :: Z)))
      (S.length + 3 + U.length + 1 + P.length + 1 + H.length + 1) (by simp; omega) zN
    simpa [tokenString, List.append_assoc] using h
  · have h := cstr_at (S ++ 0 :: 47 :: 47 :: (U ++ 0 :: (P ++ 0 :: (H ++ 0 :: (N ++ [0]))))) T
      (Q ++ 0 :: (F ++ 0 :: Z))
      (S.length + 3 + U.length + 1 + P.length + 1 + H.length + 1 + N.length + 1)
      (by simp; omega) zT
    simpa [tokenString, List.append_assoc] using h
  · have h := cstr_at
      (S ++ 0 :: 47 :: 47 :: (U ++ 0 :: (P ++ 0 :: (H ++ 0 :: (N ++ 0 :: (T ++ [0])))))) Q
      (F ++ 0 :: Z)
      (S.length + 3 + U.length + 1 + P.length + 1 + H.length + 1 + N.length + 1 + T.length + 1)
      (by simp; omega) zQ
    simpa [tokenString, List.append_assoc] using h
  · have h := cstr_at
      (S ++ 0 :: 47 :: 47 :: (U ++ 0 :: (P ++ 0 :: (H ++ 0 :: (N ++ 0 :: (T ++ 0 ::
        (Q ++ [0]))))))) F Z
      (S.length + 3 + U.length + 1 + P.length + 1 + H.length + 1 + N.length + 1 + T.length + 1
        + Q.length + 1)
      (by simp; omega) zF
    simpa [tokenString, List.append_assoc] using h

/-- Witness of C20: `ab://u:p@h:80/x/y?q=1#f` in a buffer of 32 bytes. -/
theorem tokenize_full_url_witness :
    ∃ buf1 tokens,
      tokenizeUrl (some exampleUrl) (List.replicate 32 1) 32 = (buf1, tokens) ∧
      tokenString buf1 tokens.Scheme = [97, 98] ∧
      tokenString buf1 tokens.UserName = [117] ∧
      tokenString buf1 tokens.Password = [112] ∧
      tokenString buf1 tokens.Host = [104] ∧
      tokenString buf1 tokens.Port = [56, 48] ∧
      tokenString buf1 tokens.Path = [120, 47, 121] ∧
      tokenString buf1 tokens.Query = [113, 61, 49] ∧
      tokenString buf1 tokens.Fragment = [102] :=
  tokenize_full_url [97, 98] [117] [112] [104] [56, 48] [120, 47, 121] [113, 61, 49] [102]
    (List.replicate 32 1) 32 (by decide) (by decide) (by decide) (by decide) (by decide)
    (by decide) (by decide) (by decide) (by decide)

/-! ## C21: the internal Notify message in the drain -/

/-- C21: the drain of an established framed connection reaches the message
queued by `notify(3, 0x0102030405060708)` (internal opcode `Notify`, size 8)
while the operating system accepts ten bytes. It pushes the `Notify` message of
size 9 with handle 3 and removes the message from the outbound queue, and it
also writes the ten bytes `08 00` and the eight payload bytes to the socket:
after `processInternal` returns `true` the loop goes on to `send`. On a raw
connection the eight payload bytes are written. -/
theorem notify_payload_written_to_wire :
    notifySender.drain [] [⟨10, false⟩] notifySender.m_outgoing
      = some ({ notifySender with sent := [8, 0, 8, 7, 6, 5, 4, 3, 2, 1], m_outgoing := [] },
          [⟨3, 9, [MessageId.Notify, 8, 7, 6, 5, 4, 3, 2, 1], Internal.None⟩], []) ∧
    Connection.drain { notifySender with m_raw := true } [] [⟨10, false⟩] notifySender.m_outgoing
      = some ({ notifySender with m_raw := true, sent := [8, 7, 6, 5, 4, 3, 2, 1],
                                  m_outgoing := [] },
          [⟨3, 9, [MessageId.Notify, 8, 7, 6, 5, 4, 3, 2, 1], Internal.None⟩], []) := by
  constructor <;> decide

/-! ## C22: no outbound message outlives the socket -/

/-- C23: in `RecvRingBuffer::recv`, for every state with `m_write < size` and
total reserved bytes `r = m_reserved + reserve(-1) <= size - 1` (ring size at
most `2^31`, so that the 32-bit sum `m_write + r` does not wrap), the length
passed to the socket read is `min(r, size - m_write)`, so that
`m_write + length <= size`; and after a read of `b` bytes with
`0 < b <= length`, `m_write` is `(m_write + b) mod size`, below `size`, the
reservation has decreased by exactly `b`, and `b` bytes are committed. -/
theorem recv_within_ring (rb : RecvRingBuffer) (granted : Nat)
    (hw : rb.m_write < rb.m_size)
    (hr : rb.m_reserved + granted ≤ rb.m_size - 1)
    (hs : rb.m_size ≤ 2 ^ 31) :
    rb.wrap granted = min (rb.m_reserved + granted) (rb.m_size - rb.m_write) ∧
    rb.m_write + rb.wrap granted ≤ rb.m_size ∧
    ∀ b : Int, 0 < b → b ≤ rb.wrap granted →
      (rb.recv granted b).1.m_write = (rb.m_write + b.toNat) % rb.m_size ∧
      (rb.recv granted b).1.m_write < rb.m_size ∧
      (rb.recv granted b).1.m_reserved + b.toNat = rb.m_reserved + granted ∧
      (rb.recv granted b).1.m_size = rb.m_size ∧
      (rb.recv granted b).2 = b.toNat := by
  have hres : rb.reserved granted = rb.m_reserved + granted := by
    unfold RecvRingBuffer.reserved
    exact Nat.mod_eq_of_lt (by omega)
  have hsum : (rb.m_write + (rb.m_reserved + granted)) % 2 ^ 32
      = rb.m_write + (rb.m_reserved + granted) := Nat.mod_eq_of_lt (by omega)
  have hwrap : rb.wrap granted = min (rb.m_reserved + granted) (rb.m_size - rb.m_write) := by
    unfold RecvRingBuffer.wrap
    rw [hres, hsum]
    by_cases hfit : rb.m_write + (rb.m_reserved + granted) < rb.m_size
    · rw [Nat.mod_eq_of_lt hfit, if_neg (by omega)]
      omega
    · have hmod : (rb.m_write + (rb.m_reserved + granted)) % rb.m_size
          = rb.m_write + (rb.m_reserved + granted) - rb.m_size := by
        rw [Nat.mod_eq_sub_mod (by omega)]
        exact Nat.mod_eq_of_lt (by omega)
      rw [hmod, if_pos (by omega)]
      have : (rb.m_size + 2 ^ 32 - rb.m_write) % 2 ^ 32 = rb.m_size - rb.m_write := by
        omega
      rw [this]
      omega
  refine ⟨hwrap, by rw [hwrap]; omega, ?_⟩
  intro b hb hle
  rw [hwrap] at hle
  have hbn : (b.toNat : Int) = b := Int.toNat_of_nonneg (by omega)
  have hb1 : b.toNat ≤ rb.m_reserved + granted := by omega
  have hb2 : b.toNat ≤ rb.m_size - rb.m_write := by omega
  unfold RecvRingBuffer.recv
  rw [if_pos hb, hres]
  dsimp only
  have h1 : (rb.m_write + b.toNat) % 2 ^ 32 = rb.m_write + b.toNat :=
    Nat.mod_eq_of_lt (by omega)
  rw [h1]
  refine ⟨rfl, Nat.mod_lt _ (by omega), ?_, rfl, rfl⟩
  omega

/-- Witness of C23: with 300 bytes reserved and the write cursor 100 bytes
before the end of the 64 KiB ring, the read is asked for 100 bytes, and a read
of 100 bytes moves the cursor to 0. -/
theorem recv_within_ring_witness :
    exampleRing.wrap 300 = min (exampleRing.m_reserved + 300)
      (exampleRing.m_size - exampleRing.m_write) ∧
    exampleRing.wrap 300 = 100 ∧
    (exampleRing.recv 300 100).1 = { m_size := 65536, m_write := 0, m_reserved := 200 } :=
  ⟨(recv_within_ring exampleRing 300 (by decide) (by decide) (by decide)).1,
    by decide, by decide⟩

/-! ## C24: the framed loop comes to an end and leaves no complete frame -/

/-- The framed loop comes to an end: with more fuel than twice the number of
unread bytes plus one, the bounded loop returns the result of the loop. -/
theorem reassembleFramedFuel_enough (c : Connection) (q : List Message) :
    ∀ n, 2 * c.m_incoming.length + (if c.m_len = -1 then 0 else 1) < n →
      reassembleFramedFuel n c q = some (reassembleFramed c q) := by
  induction c, q using reassembleFramed.induct with
  | case1 c q h0 hlen h2 =>
    intro n hn
    obtain ⟨k, rfl⟩ : ∃ k, n = k + 1 := ⟨n - 1, by omega⟩
    rw [reassembleFramed_short c q hlen (by simp [maxMessageSize] at h2; omega)]
    rw [reassembleFramedFuel]
    simp only [h0, hlen, h2, if_true]
  | case2 c q h0 hlen h2 ih =>
    intro n hn
    obtain ⟨k, rfl⟩ : ∃ k, n = k + 1 := ⟨n - 1, by omega⟩
    have hl : 2 ≤ c.m_incoming.length := by simp [maxMessageSize] at h2; omega
    rw [reassembleFramed_header c q hlen hl]
    rw [reassembleFramedFuel]
    simp only [h0, hlen, h2, if_true, if_false]
    apply ih
    have hle : (if ((readU16 (c.m_incoming.take 2) : Nat) : Int) = -1 then 0 else 1 : Nat) ≤ 1 := by
      split <;> omega
    simp only [List.length_drop]
    omega
  | case3 c q h0 hlen hgt =>
    intro n hn
    obtain ⟨k, rfl⟩ : ∃ k, n = k + 1 := ⟨n - 1, by omega⟩
    rw [reassembleFramed_wait c q hlen hgt]
    rw [reassembleFramedFuel]
    simp only [h0, hlen, hgt, if_true, if_false]
  | case4 c q h0 hlen hgt ih =>
    intro n hn
    obtain ⟨k, rfl⟩ : ∃ k, n = k + 1 := ⟨n - 1, by omega⟩
    rw [reassembleFramed_body c q hlen (by simp at h0; omega) (by omega)]
    rw [reassembleFramedFuel]
    simp only [h0, hlen, hgt, if_true, if_false]
    apply ih
    simp only [List.length_drop, if_true]
    simp only [hlen, if_false] at hn
    omega
  | case5 c q h0 =>
    intro n hn
    obtain ⟨k, rfl⟩ : ∃ k, n = k + 1 := ⟨n - 1, by omega⟩
    have : c.m_incoming = [] := by
      simp [maxMessageSize] at h0
      exact h0
    rw [reassembleFramed_empty c q this]
    rw [reassembleFramedFuel]
    simp only [h0, if_false]

/-- On return of the framed loop, with a ring that holds at most 65535 unread
bytes, no complete frame is left buffered. -/
theorem reassembleFramed_exit (c : Connection) (q : List Message)
    (hcap : c.m_incoming.length ≤ maxMessageSize) :
    (reassembleFramed c q).1.m_incoming.length = 0 ∨
    ((reassembleFramed c q).1.m_len = -1 ∧ (reassembleFramed c q).1.m_incoming.length = 1) ∨
    (reassembleFramed c q).1.m_len > ((reassembleFramed c q).1.m_incoming.length : Nat) := by
  induction c, q using reassembleFramed.induct with
  | case1 c q h0 hlen h2 =>
    have hl : c.m_incoming.length < 2 := by simp [maxMessageSize] at h2; omega
    rw [reassembleFramed_short c q hlen hl]
    right; left
    refine ⟨hlen, ?_⟩
    simp [maxMessageSize] at h0
    dsimp only
    omega
  | case2 c q h0 hlen h2 ih =>
    rw [reassembleFramed_header c q hlen (by simp [maxMessageSize] at h2; omega)]
    apply ih
    simp only [List.length_drop]
    omega
  | case3 c q h0 hlen hgt =>
    rw [reassembleFramed_wait c q hlen hgt]
    right; right
    dsimp only
    omega
  | case4 c q h0 hlen hgt ih =>
    rw [reassembleFramed_body c q hlen (by simp at h0; omega) (by omega)]
    apply ih
    simp only [List.length_drop]
    omega
  | case5 c q h0 =>
    have : c.m_incoming = [] := by
      simp [maxMessageSize] at h0
      exact h0
    rw [reassembleFramed_empty c q this]
    left
    simp [this]

/-- The framed loop keeps `m_len` within the 16-bit range of a length prefix. -/
theorem reassembleFramed_len_le (c : Connection) (q : List Message)
    (h : c.m_len ≤ maxMessageSize) : (reassembleFramed c q).1.m_len ≤ maxMessageSize := by
  induction c, q using reassembleFramed.induct with
  | case1 c q h0 hlen h2 =>
    rw [reassembleFramed_short c q hlen (by simp [maxMessageSize] at h2; omega)]
    exact h
  | case2 c q h0 hlen h2 ih =>
    rw [reassembleFramed_header c q hlen (by simp [maxMessageSize] at h2; omega)]
    apply ih
    simp only [readU16, maxMessageSize]
    omega
  | case3 c q h0 hlen hgt =>
    rw [reassembleFramed_wait c q hlen hgt]
    exact h
  | case4 c q h0 hlen hgt ih =>
    rw [reassembleFramed_body c q hlen (by simp at h0; omega) (by omega)]
    apply ih
    simp [maxMessageSize]
  | case5 c q h0 =>
    have : c.m_incoming = [] := by
      simp [maxMessageSize] at h0
      exact h0
    rw [reassembleFramed_empty c q this]
    exact h

/-- C24: on a framed connection whose ring holds at most
`incomingBufferSize - 1` unread bytes, `reassembleMessage` comes to an end for
every ring content and every starting `m_len`: the loop tests its condition at
most `2 * unread + 2` times. On return either no unread byte remains, or
`m_len = -1` and exactly one unread byte remains, or `m_len` exceeds the number
of unread bytes. When the starting `m_len` is within the range the code stores
(`-1` or a 16-bit length), at most `maxMessageSize - 1` bytes stay unread and
the 64 KiB ring has free space at the next receive. -/
theorem framed_reassemble_exit (c : Connection) (q : List Message)
    (hraw : c.m_raw = false)
    (hcap : c.m_incoming.length ≤ incomingBufferSize - 1) :
    reassembleFramedFuel (2 * c.m_incoming.length + 2) c q = some (c.reassembleMessage q) ∧
    ((c.reassembleMessage q).1.m_incoming.length = 0 ∨
      ((c.reassembleMessage q).1.m_len = -1 ∧
        (c.reassembleMessage q).1.m_incoming.length = 1) ∨
      (c.reassembleMessage q).1.m_len > ((c.reassembleMessage q).1.m_incoming.length : Nat)) ∧
    (c.m_len ≤ maxMessageSize →
      (c.reassembleMessage q).1.m_incoming.length ≤ maxMessageSize - 1 ∧
      0 < ringFree (c.reassembleMessage q).1) := by
  have hrm : c.reassembleMessage q = reassembleFramed c q := by
    unfold Connection.reassembleMessage
    rw [if_neg (by rw [hraw]; decide)]
  have hcap1 : c.m_incoming.length ≤ maxMessageSize := by
    simp only [incomingBufferSize] at hcap
    simp only [maxMessageSize]
    omega
  rw [hrm]
  have hexit := reassembleFramed_exit c q hcap1
  refine ⟨?_, hexit, ?_⟩
  · apply reassembleFramedFuel_enough
    have : (if c.m_len = -1 then 0 else 1 : Nat) ≤ 1 := by split <;> omega
    omega
  · intro hlen
    have hle := reassembleFramed_len_le c q hlen
    have hun : (reassembleFramed c q).1.m_incoming.length ≤ maxMessageSize - 1 := by
      simp only [maxMessageSize] at hle ⊢
      rcases hexit with h | ⟨-, h⟩ | h <;> omega
    refine ⟨hun, ?_⟩
    unfold ringFree
    simp only [maxMessageSize] at hun
    simp only [incomingBufferSize]
    omega

/-- Witness of C24: after one complete frame, a length prefix of 2 and one
byte of the body, the loop returns with `m_len = 2` and one unread byte. -/
theorem framed_reassemble_exit_witness :
    partialReceiver.reassembleMessage []
      = ({ partialReceiver with m_len := 2, m_incoming := [0] },
          [⟨2, 3, [128, 104, 105], Internal.None⟩]) ∧
    reassembleFramedFuel (2 * partialReceiver.m_incoming.length + 2) partialReceiver []
      = some (partialReceiver.reassembleMessage []) ∧
    ((partialReceiver.reassembleMessage []).1.m_incoming.length = 0 ∨
      ((partialReceiver.reassembleMessage []).1.m_len = -1 ∧
        (partialReceiver.reassembleMessage []).1.m_incoming.length = 1) ∨
      (partialReceiver.reassembleMessage []).1.m_len
        > ((partialReceiver.reassembleMessage []).1.m_incoming.length : Nat)) :=
  ⟨by decide!,
    (framed_reassemble_exit partialReceiver [] rfl (by decide)).1,
    (framed_reassemble_exit partialReceiver [] rfl (by decide)).2.1⟩

/-! ## C25: a zero-length frame whose prefix is the last data received -/

/-- C25: on every framed connection that awaits a length prefix and whose ring
holds exactly the two bytes `00 00`, a complete frame of length 0,
`reassembleMessage` pushes nothing: it reads the prefix, sets `m_len = 0` and
leaves the loop because no byte is available. The message of size 0 is pushed
only by a later call, after at least one more byte has arrived. -/
theorem zero_length_frame_last_bytes_pushes_nothing :
    (∀ (c : Connection) (q : List Message),
      Connection.reassembleMessage
          { c with m_raw := false, m_len := -1, m_incoming := [0, 0] } q
        = ({ c with m_raw := false, m_len := 0, m_incoming := [] }, q)) ∧
    (exampleReceiver.receive [0, 0]).reassembleMessage []
      = ({ exampleReceiver with m_len := 0 }, []) ∧
    (Connection.receive { exampleReceiver with m_len := 0 } [7]).reassembleMessage []
      = ({ exampleReceiver with m_incoming := [7] }, [⟨2, 0, [], Internal.None⟩]) := by
  refine ⟨?_, by decide!, by decide!⟩
  intro c q
  unfold Connection.reassembleMessage
  rw [if_neg (by simp)]
  rw [reassembleFramed_header _ q rfl (by simp)]
  rw [reassembleFramed_empty _ q rfl]
  simp [readU16]

/-! ## C26: the URL tokenizer on a URL with absent parts -/

theorem strchrFrom_none (A rest : List Nat) (ch i : Nat) (hA : ∀ a ∈ A, a ≠ ch)
    (hch : ch ≠ 0) : strchrFrom (A ++ 0 :: rest) ch i = none := by
  induction A generalizing i with
  | nil => simp [strchrFrom, hch.symm]
  | cons a A ih =>
    have ha := hA a (List.mem_cons_self _ _)
    rw [List.cons_append, strchrFrom, if_neg ha]
    by_cases h0 : a = 0
    · rw [if_pos h0]
    · rw [if_neg h0]
      exact ih (i + 1) (fun x hx => hA x (List.mem_cons_of_mem _ hx))

theorem strchr_absent (pre A rest : List Nat) (ch i : Nat) (hi : i = pre.length)
    (hA : ∀ a ∈ A, a ≠ ch) (hch : ch ≠ 0) :
    strchr (pre ++ (A ++ 0 :: rest)) i ch = none := by
  unfold strchr
  rw [hi, List.drop_left]
  exact strchrFrom_none A rest ch _ hA hch

theorem findSplit_none (b : List Nat) (tk : UrlTokens) (token : Option Nat) (ch : Nat)
    (assign : Nat → UrlTokens → UrlTokens) (h : strchrToken b token ch = none) :
    findSplit (b, tk) token ch assign = (b, tk) := by
  unfold findSplit
  simp only [h]

theorem strstrFrom_none (u rest : List Nat) (i : Nat) (hz : ∀ a ∈ u, a ≠ 0)
    (hu : ¬ [58, 47, 47] <:+: u) :
    strstrFrom [58, 47, 47] (u ++ 0 :: rest) i = none := by
  induction u generalizing i with
  | nil => simp [strstrFrom, matchAt]
  | cons a u ih =>
    have ha := hz a (List.mem_cons_self _ _)
    have hno : matchAt [58, 47, 47] (a :: u ++ 0 :: rest) = false := by
      rcases u with _ | ⟨b, _ | ⟨c, u2⟩⟩
      · simp [matchAt]
      · simp [matchAt]
      · by_contra hm
        simp only [List.cons_append, matchAt, Bool.and_true, Bool.not_eq_false,
          Bool.and_eq_true, beq_iff_eq] at hm
        obtain ⟨h1, h2, h3⟩ := hm
        apply hu
        rw [← h1, ← h2, ← h3]
        exact ⟨[], u2, rfl⟩
    have hu1 : ¬ [58, 47, 47] <:+: u := fun h => hu (List.IsInfix.trans h ⟨[a], [], by simp⟩)
    rw [List.cons_append, strstrFrom, ← List.cons_append, hno]
    simp only [Bool.false_eq_true, if_false, if_neg ha]
    exact ih (i + 1) (fun x hx => hz x (List.mem_cons_of_mem _ hx)) hu1

/-- A URL without `://` that fits in the buffer leaves every token at the
static empty string. -/
theorem tokenizeUrl_no_separator (url buf : List Nat) (bufSize : Nat)
    (hlen : url.length < bufSize) (hz : ∀ b ∈ url, b ≠ 0)
    (hu : ¬ [58, 47, 47] <:+: url) :
    (tokenizeUrl (some url) buf bufSize).2 = ⟨none, none, none, none, none, none, none, none⟩ := by
  obtain ⟨Z, hcopy⟩ := strncpy_fits buf url bufSize hlen
  have hfind : strstr (strncpy (buf.set 0 0) url bufSize) 0 [58, 47, 47] = none := by
    rw [hcopy]
    simp only [strstr, List.drop_zero]
    exact strstrFrom_none url Z 0 hz hu
  unfold tokenizeUrl
  simp only [hfind]

/-- The buffer and the tokens after `tokenizeUrl` on `S://H`. -/
theorem tokenizeUrl_scheme_host (S H buf : List Nat) (bufSize : Nat)
    (hlen : (schemeHostUrl S H).length < bufSize)
    (hz : ∀ b ∈ schemeHostUrl S H, b ≠ 0)
    (hS : ¬ [58, 47, 47] <:+: S)
    (hH : ∀ b ∈ H, b ≠ 47 ∧ b ≠ 64 ∧ b ≠ 58) :
    ∃ Z, tokenizeUrl (some (schemeHostUrl S H)) buf bufSize
      = (S ++ 0 :: 47 :: 47 :: (H ++ 0 :: Z),
         { Scheme := some 0, UserName := none, Password := none,
           Host := some (S.length + 3), Port := none, Path := none, Query := none,
           Fragment := none }) := by
  obtain ⟨Z, hcopy⟩ := strncpy_fits buf _ bufSize hlen
  refine ⟨Z, ?_⟩
  have hnest : schemeHostUrl S H = S ++ 58 :: 47 :: 47 :: H := by
    simp [schemeHostUrl, List.append_assoc]
  rw [hnest] at hcopy hz
  have zS : ∀ a ∈ S, a ≠ 0 := fun a h => hz a (by simp [h])
  have hfind : strstr (strncpy (buf.set 0 0) (schemeHostUrl S H) bufSize) 0 [58, 47, 47]
      = some S.length := by
    rw [hnest, hcopy]
    simp only [strstr, List.drop_zero, List.append_assoc, List.cons_append]
    rw [strstrFrom_at S _ 0 zS hS]
    simp
  have habs : ∀ ch, ch ≠ 0 → (∀ a ∈ H, a ≠ ch) →
      strchrToken (S ++ 0 :: 47 :: 47 :: (H ++ 0 :: Z)) (some (S.length + 3)) ch = none := by
    intro ch hch hA
    have := strchr_absent (S ++ [0, 47, 47]) H Z ch (S.length + 3) (by simp) hA hch
    simpa [strchrToken, List.append_assoc] using this
  have h47 := habs 47 (by decide) (fun a h => (hH a h).1)
  have h64 := habs 64 (by decide) (fun a h => (hH a h).2.1)
  have h58 := habs 58 (by decide) (fun a h => (hH a h).2.2)
  unfold tokenizeUrl
  simp only [hfind]
  rw [hnest, hcopy]
  simp only [List.append_assoc, List.cons_append]
  rw [set_at S _ 58 0 _ rfl]
  rw [findSplit_none _ _ _ _ _ h47]
  dsimp only
  rw [findSplit_none _ _ _ _ _ h64]
  dsimp only
  rw [findSplit_none _ _ _ _ _ h58]
  dsimp only
  rw [findSplit_none _ _ none 58 _ rfl]
  dsimp only
  rw [findSplit_none _ _ none 35 _ rfl]
  dsimp only
  rw [findSplit_none _ _ none 63 _ rfl]

/-- Counterexample to C26 as stated: the URL `a://b://h` is `S://H` with
`S = a://b` and `H = h`, and `H` contains none of `/`, `@`, `:`; `tokenizeUrl`
splits at the first `://` and yields Scheme = `a`, Host = `b`, an empty Port
and Path = `/h`. -/
theorem tokenize_scheme_with_separator :
    (∀ b ∈ [104], b ≠ 47 ∧ b ≠ 64 ∧ b ≠ 58) ∧
    schemeHostUrl [97, 58, 47, 47, 98] [104] = [97, 58, 47, 47, 98, 58, 47, 47, 104] ∧
    ∃ buf1 tokens,
      tokenizeUrl (some (schemeHostUrl [97, 58, 47, 47, 98] [104])) (List.replicate 16 1) 16
        = (buf1, tokens) ∧
      tokenString buf1 tokens.Scheme = [97] ∧
      tokenString buf1 tokens.Scheme ≠ [97, 58, 47, 47, 98] ∧
      tokenString buf1 tokens.Host = [98] ∧
      tokenString buf1 tokens.Host ≠ [104] ∧
      tokens.Port ≠ none ∧ tokenString buf1 tokens.Port = [] ∧
      tokenString buf1 tokens.Path = [47, 104] := by
  refine ⟨by decide, by decide, _, _, rfl, ?_, ?_, ?_, ?_, ?_, ?_, ?_⟩ <;> decide

/-- C26, as amended: for a NULL URL all tokens are the empty string; for every
URL (a C string: no NUL byte) that fits in the buffer together with its
terminating NUL and does not contain `://`, all tokens are the empty string;
and for every URL `S://H` that fits in the buffer, where `S` does not contain
`://` and `H` contains none of `/`, `@`, `:`, the tokens are Scheme = `S`,
Host = `H` and every other token is the empty string. -/
theorem tokenize_absent_parts (buf : List Nat) (bufSize : Nat) :
    allTokensEmpty (tokenizeUrl none buf bufSize) ∧
    (∀ url : List Nat, url.length < bufSize → (∀ b ∈ url, b ≠ 0) →
      ¬ [58, 47, 47] <:+: url → allTokensEmpty (tokenizeUrl (some url) buf bufSize)) ∧
    (∀ S H : List Nat, (schemeHostUrl S H).length < bufSize →
      (∀ b ∈ schemeHostUrl S H, b ≠ 0) → ¬ [58, 47, 47] <:+: S →
      (∀ b ∈ H, b ≠ 47 ∧ b ≠ 64 ∧ b ≠ 58) →
      ∃ buf1 tokens, tokenizeUrl (some (schemeHostUrl S H)) buf bufSize = (buf1, tokens) ∧
        tokenString buf1 tokens.Scheme = S ∧
        tokenString buf1 tokens.Host = H ∧
        tokenString buf1 tokens.UserName = [] ∧
        tokenString buf1 tokens.Password = [] ∧
        tokenString buf1 tokens.Port = [] ∧
        tokenString buf1 tokens.Path = [] ∧
        tokenString buf1 tokens.Query = [] ∧
        tokenString buf1 tokens.Fragment = []) := by
  refine ⟨?_, ?_, ?_⟩
  · exact ⟨rfl, rfl, rfl, rfl, rfl, rfl, rfl, rfl⟩
  · intro url hlen hz hu
    have h := tokenizeUrl_no_separator url buf bufSize hlen hz hu
    unfold allTokensEmpty
    rw [h]
    exact ⟨rfl, rfl, rfl, rfl, rfl, rfl, rfl, rfl⟩
  · intro S H hlen hz hS hH
    obtain ⟨Z, hrun⟩ := tokenizeUrl_scheme_host S H buf bufSize hlen hz hS hH
    have zS : ∀ a ∈ S, a ≠ 0 := fun a h => hz a (by simp [schemeHostUrl, h])
    have zH : ∀ a ∈ H, a ≠ 0 := fun a h => hz a (by simp [schemeHostUrl, h])
    refine ⟨_, _, hrun, ?_, ?_, rfl, rfl, rfl, rfl, rfl, rfl⟩
    · have h := cstr_at [] S (47 :: 47 :: (H ++ 0 :: Z)) 0 rfl zS
      simpa [tokenString, List.append_assoc] using h
    · have h := cstr_at (S ++ [0, 47, 47]) H Z (S.length + 3) (by simp) zH
      simpa [tokenString, List.append_assoc] using h

/-- Witness of C26: `ab://h` in a buffer of 16 bytes. -/
theorem tokenize_absent_parts_witness :
    ∃ buf1 tokens,
      tokenizeUrl (some (schemeHostUrl [97, 98] [104])) (List.replicate 16 1) 16
        = (buf1, tokens) ∧
      tokenString buf1 tokens.Scheme = [97, 98] ∧
      tokenString buf1 tokens.Host = [104] ∧
      tokenString buf1 tokens.UserName = [] ∧
      tokenString buf1 tokens.Password = [] ∧
      tokenString buf1 tokens.Port = [] ∧
      tokenString buf1 tokens.Path = [] ∧
      tokenString buf1 tokens.Query = [] ∧
      tokenString buf1 tokens.Fragment = [] :=
  (tokenize_absent_parts (List.replicate 16 1) 16).2.2 [97, 98] [104]
    (by decide) (by decide) (by decide) (by decide)

/-! ## The drain comes to an end -/

theorem processInternal_raw (c : Connection) (q : List Message) (id : Nat) (m : Message) :
    (c.processInternal q id m).2.1.m_raw = c.m_raw := by
  unfold Connection.processInternal
  split
  · rfl
  · split <;> rfl

/-- With answers that each accept at least one byte and enough of them, a
`send` loop that has returned has returned `true`, has kept `m_raw`, and has
used at most `max 1 (length of the data)` answers. -/
theorem sendData_total_of (os : List SendResult) (c : Connection) (q : List Message)
    (data : List Nat) (b : Bool) (c1 : Connection) (q1 : List Message)
    (os1 : List SendResult) (hos : ∀ r ∈ os, 1 ≤ r.bytes)
    (hlen : max 1 data.length ≤ os.length)
    (hs : c.sendData q data os = some (b, c1, q1, os1)) :
    b = true ∧ c1.m_raw = c.m_raw ∧ (∀ r ∈ os1, r ∈ os) ∧
      os.length ≤ os1.length + max 1 data.length := by
  obtain ⟨c2, os2, h1, h2, h3⟩ := sendData_total os c q data hos hlen
  have hraw : c2.m_raw = c.m_raw := by
    rcases sendData_cases os c q _ true c2 q os2 h1 with ⟨-, ⟨w, hw⟩, -⟩ | ⟨hb, -, -⟩
    · rw [hw]
    · simp at hb
  rw [h1] at hs
  simp only [Option.some.injEq, Prod.mk.injEq] at hs
  obtain ⟨hb, hc, -, ho⟩ := hs
  rw [← hb, ← hc, ← ho]
  exact ⟨rfl, hraw, h2, h3⟩

theorem sendData_ne_none (os : List SendResult) (c : Connection) (q : List Message)
    (data : List Nat) (hos : ∀ r ∈ os, 1 ≤ r.bytes)
    (hlen : max 1 data.length ≤ os.length) : c.sendData q data os ≠ none := by
  obtain ⟨c2, os2, h1, -, -⟩ := sendData_total os c q data hos hlen
  rw [h1]
  simp

/-- With answers that each accept at least one byte and enough of them, the
drain of any outbound queue comes to an end. -/
theorem drain_total_any (msgs : List Message) (c : Connection) (q : List Message)
    (os : List SendResult) (hos : ∀ r ∈ os, 1 ≤ r.bytes)
    (hlen : (msgs.map (fun m => max 1 (wireBytes c.m_raw m).length)).sum ≤ os.length) :
    ∃ res, c.drain q os msgs = some res := by
  induction msgs generalizing c q os with
  | nil => exact ⟨_, rfl⟩
  | cons m rest ih =>
    simp only [List.map_cons, List.sum_cons] at hlen
    rw [Connection.drain]
    by_cases hcond : m.internal ≠ Internal.None
        ∧ (c.processInternal q m.internal m).1 = false
    · rw [if_pos hcond]
      exact ⟨_, rfl⟩
    · rw [if_neg hcond]
      dsimp only
      have hraw1 : (if m.internal ≠ Internal.None
          then (c.processInternal q m.internal m).2.1 else c).m_raw = c.m_raw := by
        split
        · exact processInternal_raw c q _ m
        · rfl
      split
      · rename_i hs
        exact absurd hs (sendData_ne_none os _ _ _ hos (by omega))
      · exact ⟨_, rfl⟩
      · rename_i c2 q2 os2 hs
        obtain ⟨-, hraw, h2, h3⟩ := sendData_total_of os _ _ _ _ _ _ _ hos (by omega) hs
        have hraw2 : c2.m_raw = c.m_raw := hraw.trans hraw1
        exact ih _ _ _ (fun x hx => hos x (h2 x hx)) (by simp only [hraw2]; omega)

/-- `Connection::send(Message*)` in the situation of `send_established` comes
to an end when every write accepts at least one byte and the operating system
answers often enough. -/
theorem send_total (c : Connection) (q : List Message) (x : Message) (t : Tick)
    (hsock : c.m_socket = true)
    (hconn : c.m_connected = true ∨ (t.now ≤ c.m_connectTimeout ∧ 0 < t.select))
    (hrecv : t.recv = RecvResult.nothing true)
    (hos : ∀ y ∈ t.sends, 1 ≤ y.bytes)
    (hlen : ((c.m_outgoing ++ [x]).map
      (fun m => max 1 (wireBytes c.m_raw m).length)).sum ≤ t.sends.length) :
    ∃ r, c.send q x t = some r := by
  rw [send_established c q x t hsock hconn hrecv]
  unfold Connection.updateTail
  have hf := reassembleMessage_fields
    { c with m_outgoing := c.m_outgoing ++ [x], m_connected := true } q
  generalize Connection.reassembleMessage
    { c with m_outgoing := c.m_outgoing ++ [x], m_connected := true } q = re at hf ⊢
  have hout : re.1.m_outgoing = c.m_outgoing ++ [x] := by rw [hf]
  have hraw : re.1.m_raw = c.m_raw := by rw [hf]
  obtain ⟨res, hres⟩ := drain_total_any re.1.m_outgoing re.1 re.2 t.sends hos
    (by rw [hout, hraw]; exact hlen)
  rw [hres]
  exact ⟨_, rfl⟩

/-! ## C7: notify on a valid handle, with the return of the call -/

/-- C7, as amended: for every valid handle `h` of a connection with a valid
socket that is (or in this tick becomes) connected, whose queue holds no
`Disconnect` marker, and every value `u`, in a tick in which the read would
block: when every write accepts at least one byte and the operating system
answers often enough, `notify(h, u)` returns, and its outbound drain has pushed
to the local inbound queue, at its tail, a message with handle `h`, size 9, id
byte `MessageId::Notify` and the eight bytes of `u` as payload; the same
message is pushed whenever the call returns and no write has met a hard error;
and no message that a framed peer delivers from any received bytes has the id
byte `MessageId::Notify`. -/
theorem notify_delivers_locally (ctx : Context) (h u : Nat) (t : Tick) (c : Connection)
    (hvalid : h ≠ invalidHandle) (hc : ctx.getConnection h = some c)
    (hsock : c.m_socket = true)
    (hconn : c.m_connected = true ∨ (t.now ≤ c.m_connectTimeout ∧ 0 < t.select))
    (hq : ∀ m ∈ c.m_outgoing, m.internal ≠ Internal.Disconnect)
    (hrecv : t.recv = RecvResult.nothing true) :
    ((∀ y ∈ t.sends, 1 ≤ y.bytes) →
      ((c.m_outgoing ++ [notifyRequest h u]).map
        (fun m => max 1 (wireBytes c.m_raw m).length)).sum ≤ t.sends.length →
      ∃ ctx1 pre, ctx.notify h u t = some ctx1 ∧
        ctx1.m_incoming = ctx.m_incoming ++ pre ++
          [⟨h, 9, MessageId.Notify :: bytesOfU64 u, Internal.None⟩]) ∧
    (∀ ctx1, (∀ y ∈ t.sends, ¬ (y.bytes = -1 ∧ y.wouldBlock = false)) →
      ctx.notify h u t = some ctx1 →
      ∃ pre, ctx1.m_incoming = ctx.m_incoming ++ pre ++
        [⟨h, 9, MessageId.Notify :: bytesOfU64 u, Internal.None⟩]) ∧
    (∀ (b : Connection) (qb : List Message) (reads : List (List Nat)), b.m_raw = false →
      ∃ new, (feed b qb reads).2 = qb ++ new ∧
        ∀ m ∈ new, m.data.head? ≠ some MessageId.Notify) := by
  have hform : ctx.notify h u t =
      (c.send ctx.m_incoming (notifyRequest h u) t).map fun r =>
        { ctx with m_connections := ctx.m_connections.set h (some r.1)
                   m_incoming := r.2 } := by
    unfold Context.notify
    rw [if_pos (fun e => hvalid e.symm), hc]
  have hpart : ∀ ctx1, (∀ y ∈ t.sends, ¬ (y.bytes = -1 ∧ y.wouldBlock = false)) →
      ctx.notify h u t = some ctx1 →
      ∃ pre, ctx1.m_incoming = ctx.m_incoming ++ pre ++
        [⟨h, 9, MessageId.Notify :: bytesOfU64 u, Internal.None⟩] := by
    intro ctx1 hos hrun
    rw [hform] at hrun
    simp only [Option.map_eq_some'] at hrun
    obtain ⟨r, hr, hctx⟩ := hrun
    obtain ⟨c2, new, os2, os3, -, -, -, -, -, -, hos2, hd⟩ :=
      send_reaches c ctx.m_incoming (notifyRequest h u) t r hsock hconn hrecv hq hos hr
    rw [Connection.drain] at hd
    have hint : (notifyRequest h u).internal = Internal.Notify := rfl
    have hne : Internal.Notify ≠ Internal.None := by decide
    have hnd : Internal.Notify ≠ Internal.Disconnect := by decide
    simp only [hint, Connection.processInternal, hnd, if_false, if_true, ne_eq, hne,
      not_false_eq_true, true_and, Bool.true_eq_false] at hd
    split at hd
    · simp at hd
    · rename_i c3 q3 os4 hs
      obtain ⟨hb, -, -, -⟩ := sendData_ok _ _ _ _ _ _ _ _
        (fun y hy => hos y (hos2 y hy)) hs
      simp at hb
    · rename_i c3 q3 os4 hs
      obtain ⟨-, -, hq3, -⟩ := sendData_ok _ _ _ _ _ _ _ _
        (fun y hy => hos y (hos2 y hy)) hs
      simp only [Connection.drain, Option.some.injEq, Prod.mk.injEq] at hd
      refine ⟨new ++ (c.m_outgoing.filter
        (fun m => decide (m.internal = Internal.Notify))).map notifyMessage, ?_⟩
      rw [← hctx]
      simp only
      rw [← hd.2.1, hq3, notifyMessage_notifyRequest]
      simp [List.append_assoc]
  refine ⟨?_, hpart, ?_⟩
  · intro hos hlen
    obtain ⟨r, hr⟩ := send_total c ctx.m_incoming (notifyRequest h u) t hsock hconn hrecv
      hos hlen
    have hrun : ctx.notify h u t = some
        { ctx with m_connections := ctx.m_connections.set h (some r.1)
                   m_incoming := r.2 } := by
      rw [hform, hr]
      rfl
    obtain ⟨pre, hpre⟩ := hpart _
      (fun y hy hh => by have := hos y hy; omega) hrun
    exact ⟨_, pre, hrun, hpre⟩
  · intro b qb reads hb
    obtain ⟨new, h1, h2⟩ := feed_pushed reads b qb hb
    refine ⟨new, h1, ?_⟩
    intro m hm e
    have := h2 m hm _ e
    simp [MessageId.UserDefined, MessageId.Notify] at this

/-- Witness of C7: `notify(0, 4)` on a connection that becomes connected in
this tick, behind three queued messages, in a tick whose writes all succeed. -/
theorem notify_delivers_locally_witness :
    (0 : Nat) ≠ invalidHandle ∧
    pendingContext.notify 0 4 generousTick = some notifiedContext ∧
    ∃ ctx1 pre, pendingContext.notify 0 4 generousTick = some ctx1 ∧
      ctx1.m_incoming = pendingContext.m_incoming ++ pre ++
        [⟨0, 9, MessageId.Notify :: bytesOfU64 4, Internal.None⟩] :=
  ⟨by decide, by decide!,
    (notify_delivers_locally pendingContext 0 4 generousTick _
      (by decide) rfl rfl (Or.inr (by decide)) (by decide) rfl).1
      (by decide) (by decide)⟩

/-! ## C10: graceful close -/

/-- Counterexample to C10 as stated: on a connection that is still
connecting, `disconnect(0, true)` followed by `send` of one more message leaves
a valid socket and a queue with a `Disconnect` marker in front of the last
message. A second `disconnect(0, true)`, in a tick in which the connection
becomes established, the read would block and every write succeeds, writes the
three messages in front of the first marker and closes the socket there: the
message `[131]` of the queue is never written. -/
theorem graceful_close_after_marker :
    (pendingContext.disconnect 0 true idleTick).bind
        (fun s => s.send ⟨0, 1, [131], 0⟩ idleTick) = some markedContext ∧
    (∃ c, markedContext.getConnection 0 = some c ∧ c.m_socket = true ∧
      (⟨0, 1, [131], 0⟩ : Message) ∈ c.m_outgoing) ∧
    markedContext.disconnect 0 true connectingTick = some closedContext ∧
    ∃ c1, closedContext.getConnection 0 = some c1 ∧ c1.m_socket = false ∧
      c1.sent = [1, 0, 128, 2, 0, 129, 7, 1, 0, 130] ∧ 131 ∉ c1.sent := by
  refine ⟨by decide!, ⟨_, rfl, rfl, by decide⟩, by decide!, _, rfl, rfl, rfl, by decide⟩

/-- C10, as amended: for a connection in slot `h` with a valid socket that is
(or in this tick becomes) connected and whose outbound queue `q` holds no
earlier `Disconnect` marker, `disconnect(h, true)` runs `update` on the queue
`q` followed by one zero-size message with opcode `Disconnect`. In a tick in
which the read would block, every write accepts at least one byte and the
operating system answers often enough, the call returns with every message of
`q` written to the socket in queue order and nothing else written (the marker
writes no bytes), the socket closed, the queue empty, and no `LostConnection`
message among the messages pushed to the inbound queue; the same holds
whenever the call returns and no write has met a hard error. -/
theorem graceful_close_drains_first (ctx : Context) (h : Nat) (t : Tick) (c : Connection)
    (hvalid : h ≠ invalidHandle) (hc : ctx.getConnection h = some c)
    (hsock : c.m_socket = true)
    (hconn : c.m_connected = true ∨ (t.now ≤ c.m_connectTimeout ∧ 0 < t.select))
    (hq : ∀ m ∈ c.m_outgoing, m.internal ≠ Internal.Disconnect)
    (hrecv : t.recv = RecvResult.nothing true) :
    ctx.disconnect h true t =
      (Connection.update
        { c with m_outgoing := c.m_outgoing ++ [⟨h, 0, [], Internal.Disconnect⟩] }
        ctx.m_incoming t).map
        (fun r => { ctx with m_connections := ctx.m_connections.set h (some r.1)
                             m_incoming := r.2 }) ∧
    ((∀ y ∈ t.sends, 1 ≤ y.bytes) →
      ((c.m_outgoing ++ [disconnectMarker h]).map
        (fun m => max 1 (wireBytes c.m_raw m).length)).sum ≤ t.sends.length →
      ∃ ctx1 c1 new, ctx.disconnect h true t = some ctx1 ∧
        ctx1.getConnection h = some c1 ∧
        c1.sent = c.sent ++ (c.m_outgoing.map (wireBytes c.m_raw)).flatten ∧
        c1.m_socket = false ∧ c1.m_outgoing = [] ∧
        ctx1.m_incoming = ctx.m_incoming ++ new ∧
        ∀ m ∈ new, m.data.head? ≠ some MessageId.LostConnection) ∧
    (∀ ctx1, (∀ y ∈ t.sends, ¬ (y.bytes = -1 ∧ y.wouldBlock = false)) →
      ctx.disconnect h true t = some ctx1 →
      ∃ c1 new, ctx1.getConnection h = some c1 ∧
        c1.sent = c.sent ++ (c.m_outgoing.map (wireBytes c.m_raw)).flatten ∧
        c1.m_socket = false ∧ c1.m_outgoing = [] ∧
        ctx1.m_incoming = ctx.m_incoming ++ new ∧
        ∀ m ∈ new, m.data.head? ≠ some MessageId.LostConnection) := by
  have hlt : h < ctx.m_connections.length := getD_some_lt _ _ _ hc
  have hform : ctx.disconnect h true t =
      (c.send ctx.m_incoming (disconnectMarker h) t).map
        (fun r => { ctx with m_connections := ctx.m_connections.set h (some r.1)
                             m_incoming := r.2 }) := by
    unfold Context.disconnect
    rw [hc]
    simp only [hsock, and_self, if_true]
    rw [if_pos (fun e => hvalid e.symm)]
  have hpart : ∀ ctx1, (∀ y ∈ t.sends, ¬ (y.bytes = -1 ∧ y.wouldBlock = false)) →
      ctx.disconnect h true t = some ctx1 →
      ∃ c1 new, ctx1.getConnection h = some c1 ∧
        c1.sent = c.sent ++ (c.m_outgoing.map (wireBytes c.m_raw)).flatten ∧
        c1.m_socket = false ∧ c1.m_outgoing = [] ∧
        ctx1.m_incoming = ctx.m_incoming ++ new ∧
        ∀ m ∈ new, m.data.head? ≠ some MessageId.LostConnection := by
    intro ctx1 hos hrun
    rw [hform, Option.map_eq_some'] at hrun
    obtain ⟨r, hr, hctx⟩ := hrun
    obtain ⟨c2, new, os2, os3, hs2, hraw2, -, -, hsent2, hnew, hos2, hd⟩ :=
      send_reaches c ctx.m_incoming (disconnectMarker h) t r hsock hconn hrecv hq hos hr
    rw [Connection.drain] at hd
    have hint : (disconnectMarker h).internal = Internal.Disconnect := rfl
    have hne : Internal.Disconnect ≠ Internal.None := by decide
    simp only [hint, Connection.processInternal, if_true, ne_eq, hne, not_false_eq_true,
      and_self, Connection.disconnect, Bool.false_eq_true, if_false, Option.some.injEq,
      Prod.mk.injEq] at hd
    refine ⟨r.1, new ++ (c.m_outgoing.filter
        (fun m => decide (m.internal = Internal.Notify))).map notifyMessage, ?_, ?_, ?_, ?_,
      ?_, ?_⟩
    · rw [← hctx]
      simp only [Context.getConnection]
      exact getD_set_self _ _ _ _ hlt
    · rw [← hd.1]
      exact hsent2
    · rw [← hd.1]
    · rw [← hd.1]
    · rw [← hctx]
      simp only
      rw [← hd.2.1, List.append_assoc]
    · intro m hm e
      rcases List.mem_append.mp hm with hm | hm
      · have := hnew m hm _ e
        simp [MessageId.RawData, MessageId.LostConnection] at this
      · simp only [List.mem_map] at hm
        obtain ⟨x, -, hx⟩ := hm
        rw [← hx] at e
        simp [notifyMessage, MessageId.Notify, MessageId.LostConnection] at e
  refine ⟨?_, ?_, hpart⟩
  · rw [hform]
    unfold Connection.send
    rw [if_pos hsock]
    rfl
  · intro hos hlen
    obtain ⟨r, hr⟩ := send_total c ctx.m_incoming (disconnectMarker h) t hsock hconn hrecv
      hos hlen
    have hrun : ctx.disconnect h true t = some
        { ctx with m_connections := ctx.m_connections.set h (some r.1)
                   m_incoming := r.2 } := by
      rw [hform, hr]
      rfl
    obtain ⟨c1, new, hprops⟩ := hpart _
      (fun y hy hh => by have := hos y hy; omega) hrun
    exact ⟨_, c1, new, hrun, hprops⟩

/-- Witness of C10: three queued messages on a connection that becomes
connected in this tick, in a tick whose writes all succeed; all ten bytes are
written, then the socket is closed, and the inbound queue stays empty. -/
theorem graceful_close_drains_first_witness :
    (0 : Nat) ≠ invalidHandle ∧
    pendingContext.disconnect 0 true generousTick = some closedContext ∧
    ∃ ctx1 c1 new, pendingContext.disconnect 0 true generousTick = some ctx1 ∧
      ctx1.getConnection 0 = some c1 ∧
      c1.sent = [] ++ ([(⟨0, 1, [128], 0⟩ : Message), ⟨0, 2, [129, 7], 0⟩,
        ⟨0, 1, [130], 0⟩].map (wireBytes false)).flatten ∧
      c1.m_socket = false ∧ c1.m_outgoing = [] ∧
      ctx1.m_incoming = pendingContext.m_incoming ++ new ∧
      ∀ m ∈ new, m.data.head? ≠ some MessageId.LostConnection :=
  ⟨by decide, by decide!,
    (graceful_close_drains_first pendingContext 0 generousTick _
      (by decide) rfl rfl (Or.inr (by decide)) (by decide) rfl).2.1
      (by decide) (by decide)⟩

/-! ## C22: a failed connect on an open connection -/

end bnet
